import Mathlib

/-!
# ProductFMC command pipeline

A shallow embedding of `src/include/products/fmc/product-fmc.{h,cpp}`:
the I/O command queue, the worker's per-command policy (including the
63-byte segmentation of display buffers), the font upload guard, profile
selection, the page buffer and the button edge detector; followed by
`fonts/font.cpp` (`Font::GlyphData`) and the LED pattern of
`pap3-mcp/device/pap3_demo.cpp`.

Modelling conventions

* A byte (`uint8_t`, `unsigned char`, `char`) is a `Nat`; byte vectors are
  `List Nat`.  Fixed-width arithmetic carries an explicit `% 2 ^ w`.
* Times (`double`, seconds, read through `XPLMGetElapsedTime`) are exact
  rationals; every function that reads the clock receives the value read as
  an argument `now`.
* The transport primitive `USBDevice::writeData` lives outside this
  translation unit.  The device records every call in `usbWrites` (the frames
  handed to the transport, in call order); the boolean outcome of the `k`-th
  call is given by a parameter `ok : Nat → Bool`.
* `std::set<int>` is a `Finset Nat`; the button events derived by
  `didReceiveData` are recorded in `buttonEvents`.
* Mutexes and the condition variable are not modelled: a section guarded by
  `_ioMx` is one atomic state transformer.  The store to the atomic flag
  `_ioRunning` in `disconnect` is made outside `_ioMx`; where it can fall
  between two reads of the worker, the schedule is a parameter
  (`ioThreadIterAt`, `joinWorker`).
-/

namespace ProductFMC

/-! ## Data model -/

/-- Hardware variants named in `classIdentifier`. -/
inductive FMCHardwareType where
  | HARDWARE_MCDU
  | HARDWARE_PFP3N
  | HARDWARE_PFP4
  | HARDWARE_PFP7
  deriving DecidableEq, Repr

/-- The seven concrete profile classes probed by `setProfileForCurrentAircraft`,
in probing order. -/
inductive FMCProfileKind where
  | Toliss
  | Laminar
  | XCrafts
  | Zibo
  | FlightFactor777
  | SSG748
  | IXEG733
  deriving DecidableEq, Repr

/-- Phases of `XPLMCommandPhase` used by the edge detector. -/
inductive XPLMCommandPhase where
  | xplm_CommandBegin
  | xplm_CommandContinue
  | xplm_CommandEnd
  deriving DecidableEq, Repr

/-- Tag of `IoCmd` (`enum Type` in product-fmc.h). -/
inductive IoCmdType where
  | UsbBuffer
  | SetLedBrightness
  | ClearScreen
  | ShowBackground
  | UploadFont
  deriving DecidableEq, Repr

/-- Worker command `struct IoCmd` of product-fmc.h, with its default member values. -/
structure IoCmd where
  type : IoCmdType
  a : Nat := 0
  b : Nat := 0
  payload : List Nat := []
  payloadChunks : List (List Nat) := []
  deriving DecidableEq, Repr

/-- Members of `class ProductFMC` (and `connected` of its base class), followed by the two
observation logs `usbWrites` and `buttonEvents`. -/
structure State where
  hardwareType : FMCHardwareType
  identifierByte : Nat
  connected : Bool
  profile : Option FMCProfileKind
  profileReady : Bool
  page : List (List Nat)
  lastUpdateCycle : Int
  pressedButtonIndices : Finset Nat
  lastButtonStateLo : Nat
  lastButtonStateHi : Nat
  fontUpdatingEnabled : Bool
  _ioRunning : Bool
  _ioQueue : List IoCmd
  _sentFrame : List Nat
  _lastUsbTs : ℚ
  _lastBuf : List Nat
  _lastPush : ℚ
  _fontCrc : Nat
  _fontLastTs : ℚ
  _fontEverSent : Bool
  usbWrites : List (List Nat)
  buttonEvents : List (Nat × XPLMCommandPhase)
  deriving DecidableEq

def PageLines : Nat := 14
def PageCharsPerLine : Nat := 24
def PageBytesPerChar : Nat := 3
def PageBytesPerLine : Nat := PageCharsPerLine * PageBytesPerChar

/-- Member initialiser `_minUsbPeriod{1.0/25.0}`; the member is never assigned afterwards. -/
def _minUsbPeriod : ℚ := 1 / 25

/-- State built by the constructor (member initialisers of the header and the constructor
body), before its call to `connect()`. -/
def init (hardwareType : FMCHardwareType) (identifierByte : Nat) : State :=
  { hardwareType := hardwareType
    identifierByte := identifierByte
    connected := false
    profile := none
    profileReady := false
    page := List.replicate PageLines (List.replicate PageBytesPerLine 32)
    lastUpdateCycle := 0
    pressedButtonIndices := ∅
    lastButtonStateLo := 0
    lastButtonStateHi := 0
    fontUpdatingEnabled := true
    _ioRunning := false
    _ioQueue := []
    _sentFrame := []
    _lastUsbTs := 0
    _lastBuf := []
    _lastPush := 0
    _fontCrc := 0
    _fontLastTs := 0
    _fontEverSent := false
    usbWrites := []
    buttonEvents := [] }

/-! ## Transport and queue helpers -/

/-- One call `writeData(data, label)`: the frame is appended to the log of frames handed to
the transport; the returned flag is the outcome of this (the `k`-th) call. -/
def writeData (ok : Nat → Bool) (s : State) (data : List Nat) : State × Bool :=
  ({ s with usbWrites := s.usbWrites ++ [data] }, ok s.usbWrites.length)

/-- `qEnqueue`: `_ioQueue.emplace_back(std::move(c))`. -/
def qEnqueue (s : State) (c : IoCmd) : State :=
  { s with _ioQueue := s._ioQueue ++ [c] }

def qUsbBuffer (s : State) (buf : List Nat) : State :=
  qEnqueue s { type := IoCmdType.UsbBuffer, payload := buf }

def qLed (s : State) (led : Nat) (b : Nat) : State :=
  qEnqueue s { type := IoCmdType.SetLedBrightness, a := led % 256, b := b }

def qClear (s : State) : State :=
  qEnqueue s { type := IoCmdType.ClearScreen }

def qBackground (s : State) (frame : List Nat) : State :=
  qEnqueue s { type := IoCmdType.ShowBackground, payload := frame }

def qUploadFont (s : State) (font : List (List Nat)) : State :=
  qEnqueue s { type := IoCmdType.UploadFont, payloadChunks := font }

/-! ## Worker -/

/-- The `while (!buf.empty())` loop of the `UsbBuffer` case: cut at most 63 bytes, prefix
`0xf2`, pad with zeros to 63 payload bytes, write, erase the bytes from `buf`.  Each
iteration erases at least one byte, so `buf.length` iterations always suffice; the first
argument bounds the number of iterations. -/
def usbBufferLoop (ok : Nat → Bool) : Nat → State → List Nat → State
  | 0, s, _ => s
  | fuel + 1, s, buf =>
    if buf.isEmpty then s
    else
      let n := min 63 buf.length
      let usbBuf := buf.take n
      let usbBuf := 0xf2 :: usbBuf
      let usbBuf := if n < 63 then usbBuf ++ List.replicate (63 - n) 0 else usbBuf
      usbBufferLoop ok fuel (writeData ok s usbBuf).1 (buf.drop n)

/-- The blank line of the `ClearScreen` case: `0xf2` then 24 times `0x42 0x00 ' '`. -/
def blankLine : List Nat :=
  0xf2 :: (List.replicate PageCharsPerLine [0x42, 0x00, 32]).flatten

/-- Write the same frame `n` times (`for (int i=0;i<16;++i) writeData(blank, ...)`). -/
def writeRepeat (ok : Nat → Bool) : Nat → State → List Nat → State
  | 0, s, _ => s
  | n + 1, s, frame => writeRepeat ok n (writeData ok s frame).1 frame

/-- The loop of the `UploadFont` case: every non-empty chunk is written as is. -/
def writeChunks (ok : Nat → Bool) : State → List (List Nat) → State
  | s, [] => s
  | s, chunk :: rest =>
    if !chunk.isEmpty then writeChunks ok (writeData ok s chunk).1 rest
    else writeChunks ok s rest

/-- Body of the `switch (c.type)` of `ioThreadMain` for one command; `now` is the value
`XPLMGetElapsedTime()` returns if the `UsbBuffer` case reads it. -/
def processCmd (ok : Nat → Bool) (now : ℚ) (s : State) (c : IoCmd) : State :=
  match c.type with
  | IoCmdType.SetLedBrightness =>
    (writeData ok s
      [0x02, s.identifierByte, 0xbb, 0x00, 0x00, 0x03, 0x49, c.a, c.b,
       0x00, 0x00, 0x00, 0x00, 0x00]).1
  | IoCmdType.ClearScreen => writeRepeat ok 16 s blankLine
  | IoCmdType.ShowBackground => (writeData ok s c.payload).1
  | IoCmdType.UploadFont => writeChunks ok s c.payloadChunks
  | IoCmdType.UsbBuffer =>
    if c.payload = s._sentFrame then s
    else if now - s._lastUsbTs < _minUsbPeriod then s
    else
      let s1 := usbBufferLoop ok c.payload.length s c.payload
      { s1 with _sentFrame := c.payload, _lastUsbTs := now }

/-- The `drain` lambda of `ioThreadMain`, after its wait has returned: an empty batch when
the worker was told to stop, otherwise the whole queue, which is swapped out. -/
def drain (s : State) : List IoCmd × State :=
  if !s._ioRunning then ([], s)
  else (s._ioQueue, { s with _ioQueue := [] })

/-- The `for (auto& c : q)` loop; `now k` is the clock value seen while the `k`-th command
of the batch is processed. -/
def processBatch (ok : Nat → Bool) (now : Nat → ℚ) : Nat → State → List IoCmd → State
  | _, s, [] => s
  | k, s, c :: q => processBatch ok now (k + 1) (processCmd ok (now k) s c) q

/-- One iteration of `while (_ioRunning.load())`: the drain, the second
`_ioRunning.load()` at line 304 and the batch loop.  `disconnect` stores `false` to
`_ioRunning` without holding `_ioMx`, so the flag can be cleared after the drain has read it
at line 297 and before line 304 reads it again; `stopRequested` tells whether that store
happens in this iteration.  If it does, the batch that was swapped out is discarded. -/
def ioThreadIterAt (ok : Nat → Bool) (now : Nat → ℚ) (stopRequested : Bool) (s : State) :
    State :=
  let r := drain s
  let s1 := if stopRequested then { r.2 with _ioRunning := false } else r.2
  if !s1._ioRunning then s1
  else processBatch ok now 0 s1 r.1

/-- The iteration in which no store to `_ioRunning` falls between line 297 and line 304. -/
def ioThreadIter (ok : Nat → Bool) (now : Nat → ℚ) (s : State) : State :=
  ioThreadIterAt ok now false s

/-! ## Font upload guard -/

/-- FNV-1a 32-bit accumulation over the bytes of one chunk (inner loop of `fnv1a32`):
`h ^= b; h *= 16777619u;` on a `uint32_t`. -/
def fnv1a32Chunk (h : Nat) (chunk : List Nat) : Nat :=
  chunk.foldl (fun h b => ((h ^^^ b) * 16777619) % 2 ^ 32) h

/-- `fnv1a32` of product-fmc.cpp: start at `2166136261u`, fold every chunk in order. -/
def fnv1a32 (ff : List (List Nat)) : Nat :=
  ff.foldl fnv1a32Chunk 2166136261

/-- `allowFontUpdateOnce` of product-fmc.h. -/
def allowFontUpdateOnce (s : State) : State :=
  { s with fontUpdatingEnabled := true }

/-- `setFont`; `now` is the value of `XPLMGetElapsedTime()`. -/
def setFont (s : State) (font : List (List Nat)) (now : ℚ) : State :=
  if !s.fontUpdatingEnabled then s
  else
    let crc := fnv1a32 font
    if s._fontEverSent = true ∧ crc = s._fontCrc then s
    else if s._fontEverSent = true ∧ now - s._fontLastTs < 2 then s
    else
      let s1 := qUploadFont s font
      { s1 with
        _fontCrc := crc
        _fontEverSent := true
        _fontLastTs := now
        fontUpdatingEnabled := false }

/-! ## Profile selection -/

/-- Installing a profile in one branch of `setProfileForCurrentAircraft`:
`qClear(); profile = new P(this); profileReady = true;`.  The constructor of the profile
class is outside this translation unit and is taken to leave the device untouched. -/
def installProfile (s : State) (k : FMCProfileKind) : State :=
  { qClear s with profile := some k, profileReady := true }

/-- `setProfileForCurrentAircraft`; `isEligible k` is the result of the static
`IsEligible()` of profile class `k`. -/
def setProfileForCurrentAircraft (isEligible : FMCProfileKind → Bool) (s : State) : State :=
  let s := allowFontUpdateOnce s
  if isEligible FMCProfileKind.Toliss then installProfile s FMCProfileKind.Toliss
  else if isEligible FMCProfileKind.Laminar then installProfile s FMCProfileKind.Laminar
  else if isEligible FMCProfileKind.XCrafts then installProfile s FMCProfileKind.XCrafts
  else if isEligible FMCProfileKind.Zibo then installProfile s FMCProfileKind.Zibo
  else if isEligible FMCProfileKind.FlightFactor777 then
    installProfile s FMCProfileKind.FlightFactor777
  else if isEligible FMCProfileKind.SSG748 then installProfile s FMCProfileKind.SSG748
  else if isEligible FMCProfileKind.IXEG733 then installProfile s FMCProfileKind.IXEG733
  else s

/-- `unloadProfile`. -/
def unloadProfile (s : State) : State :=
  let s := { s with profileReady := false }
  if s.profile.isNone then s
  else allowFontUpdateOnce { s with profile := none }

/-! ## Button edge detector -/

/-- Body of `for (int i = 0; i < 96; ++i)` in `didReceiveData`.  The lookup of the button
definition and the call `profile->buttonPressed` are outside this translation unit; the
derived pair (index, phase) is recorded at the place of that call. -/
def buttonStep (buttonsLo buttonsHi : Nat) (s : State) (i : Nat) : State :=
  let pressed : Bool :=
    if i < 64 then ((buttonsLo >>> i) &&& 1) != 0
    else ((buttonsHi >>> (i - 64)) &&& 1) != 0
  let pressedButtonIndexExists : Bool := decide (i ∈ s.pressedButtonIndices)
  let command : Option XPLMCommandPhase :=
    if pressed && !pressedButtonIndexExists then some XPLMCommandPhase.xplm_CommandBegin
    else if pressed && pressedButtonIndexExists then some XPLMCommandPhase.xplm_CommandContinue
    else if !pressed && pressedButtonIndexExists then some XPLMCommandPhase.xplm_CommandEnd
    else none
  match command with
  | none => s
  | some cmd =>
    let s1 :=
      if cmd = XPLMCommandPhase.xplm_CommandBegin then
        { s with pressedButtonIndices := insert i s.pressedButtonIndices }
      else s
    let s2 := { s1 with buttonEvents := s1.buttonEvents ++ [(i, cmd)] }
    if cmd = XPLMCommandPhase.xplm_CommandEnd then
      { s2 with pressedButtonIndices := s2.pressedButtonIndices.erase i }
    else s2

/-- Low mask read by `didReceiveData`: bytes 1..8 of the report, little-endian, `uint64_t`. -/
def decodeLo (report : List Nat) : Nat :=
  (List.range 8).foldl
    (fun acc i => acc ||| ((report.getD (i + 1) 0 <<< (8 * i)) % 2 ^ 64)) 0

/-- High mask read by `didReceiveData`: bytes 9..12 of the report, little-endian, `uint32_t`. -/
def decodeHi (report : List Nat) : Nat :=
  (List.range 4).foldl
    (fun acc i => acc ||| ((report.getD (i + 9) 0 <<< (8 * i)) % 2 ^ 32)) 0

/-- Lines 215-269 of `didReceiveData`: the comparison of the decoded snapshot with the
stored one, the store of the new snapshot and the loop over the 96 indices. -/
def applySnapshot (s : State) (buttonsLo buttonsHi : Nat) : State :=
  if buttonsLo = s.lastButtonStateLo ∧ buttonsHi = s.lastButtonStateHi then s
  else
    let s1 := { s with lastButtonStateLo := buttonsLo, lastButtonStateHi := buttonsHi }
    (List.range 96).foldl (buttonStep buttonsLo buttonsHi) s1

/-- `didReceiveData(reportId, report, reportLength)`; the report buffer is the list
`report` and `reportLength` is its length (a null or empty buffer is the empty list). -/
def didReceiveData (s : State) (reportId : Int) (report : List Nat) : State :=
  if !s.connected || s.profile.isNone || report.length = 0 then s
  else if reportId ≠ 1 ∨ report.length < 13 then s
  else applySnapshot s (decodeLo report) (decodeHi report)

/-- A sequence of input reports (report id, buffer) delivered in order. -/
def runReports (s : State) (reports : List (Int × List Nat)) : State :=
  reports.foldl (fun st r => didReceiveData st r.1 r.2) s

/-! ## LEDs and shutdown -/

/-- The enumerators of `FMCLed` that product-fmc.cpp compares against.  The enumeration is
declared in a header that is not part of the sources at hand, so its values are parameters;
they are LED ids sent on the wire as one byte. -/
structure FMCLedIds where
  BACKLIGHT : Nat
  SCREEN_BACKLIGHT : Nat
  OVERALL_LEDS_BRIGHTNESS : Nat
  _PFP_START : Nat
  _PFP_END : Nat
  _MCDU_START : Nat
  _MCDU_END : Nat

/-- `setLedBrightness(led, brightness)`. -/
def setLedBrightness (ids : FMCLedIds) (s : State) (led : Nat) (brightness : Nat) : State :=
  if led > ids.OVERALL_LEDS_BRIGHTNESS ∧ s.hardwareType = FMCHardwareType.HARDWARE_MCDU ∧
      led ≥ ids._PFP_START ∧ led ≤ ids._PFP_END then s
  else if led > ids.OVERALL_LEDS_BRIGHTNESS ∧
      s.hardwareType ≠ FMCHardwareType.HARDWARE_MCDU ∧
      led ≥ ids._MCDU_START ∧ led ≤ ids._MCDU_END then s
  else qLed s led brightness

/-- `setAllLedsEnabled(enable)`: `for (unsigned char i = start; i <= end; ++i)`.  The bounds
are enumerators below 255, so the counter does not wrap and the loop visits
`start, start + 1, .., end`. -/
def setAllLedsEnabled (ids : FMCLedIds) (s : State) (enable : Bool) : State :=
  let start :=
    if s.hardwareType = FMCHardwareType.HARDWARE_MCDU then ids._MCDU_START else ids._PFP_START
  let last :=
    if s.hardwareType = FMCHardwareType.HARDWARE_MCDU then ids._MCDU_END else ids._PFP_END
  (List.range' start (last + 1 - start)).foldl
    (fun st i => setLedBrightness ids st i (if enable then 1 else 0)) s

/-- Lines 149-151 of `disconnect`, entered with `_ioRunning` set: the store of `false`,
the notification and the join, as they act on the state at the store.  The store is made
without holding `_ioMx`, so the worker's last pass is one of two.  Either its drain reads the
flag after the store (line 297) and returns without swapping, or the drain had read the flag
before the store (`swapped`): it swaps the queue out, line 304 then reads the cleared flag
and the worker leaves with the batch, which is destroyed.  A batch the worker is still
processing when the store happens belongs to the iteration before. -/
def joinWorker (swapped : Bool) (s : State) : State :=
  if swapped then { (drain s).2 with _ioRunning := false }
  else (drain { s with _ioRunning := false }).2

/-- `disconnect()`; `swapped` describes the worker's last pass during the join (see
`joinWorker`).  `USBDevice::disconnect()` belongs to the base class, which has no access to
the private members of `ProductFMC`; it is taken to clear `connected`. -/
def disconnect (ids : FMCLedIds) (swapped : Bool) (s : State) : State :=
  let s := if s._ioRunning then joinWorker swapped s else s
  let s := setLedBrightness ids s ids.BACKLIGHT 0
  let s := setLedBrightness ids s ids.SCREEN_BACKLIGHT 0
  let s := setAllLedsEnabled ids s false
  let s := unloadProfile s
  { s with connected := false }

/-! ## Page buffer -/

/-- The assignment `page[line][k] = v`. -/
def setCell (page : List (List Nat)) (line k v : Nat) : List (List Nat) :=
  page.set line ((page.getD line []).set k v)

/-- Body of the `for (size_t c = 0; c < text.length(); ++c)` loop of `writeLineToPage`, with
`pos` already multiplied by `PageBytesPerChar`. -/
def writeChar (line pos : Nat) (text : List Nat) (color : Nat) (fontSmall : Bool)
    (page : List (List Nat)) (c : Nat) : List (List Nat) :=
  let page := setCell page line (pos + c * PageBytesPerChar) color
  let page := setCell page line (pos + c * PageBytesPerChar + 1) (if fontSmall then 1 else 0)
  setCell page line (pos + c * PageBytesPerChar + PageBytesPerChar - 1) (text.getD c 0)

/-- `writeLineToPage(page, line, pos, text, color, fontSmall)`; `line` and `pos` are `int`,
the text is the list of its characters (its length, a `size_t` below the maximal string
size, cannot make `pos + text.length()` wrap). -/
def writeLineToPage (page : List (List Nat)) (line pos : Int) (text : List Nat) (color : Nat)
    (fontSmall : Bool) : List (List Nat) :=
  if line < 0 ∨ line ≥ (PageLines : Int) then page
  else if pos < 0 ∨ pos + (text.length : Int) > (PageCharsPerLine : Int) then page
  else if text.length > PageCharsPerLine then page
  else
    let pos := pos.toNat * PageBytesPerChar
    (List.range text.length).foldl (writeChar line.toNat pos text color fontSmall) page

/-! ## Drawing -/

/-- The part of the active profile object (and of `FMCTextColor`) that `draw` and
`dataFromColFont` use; the profile classes and the enumeration are declared outside the
sources at hand.  `colorMap c` is the entry of `profile->colorMap()` for the key `c`, if
any.  Modelled from the spec: `mapGlyph(character, smallFont) -> device-native glyph bytes`;
`profile->mapCharacter(&buf, val, fontSmall)` appends these bytes to `buf`. -/
structure FMCProfileOps where
  colorMap : Nat → Option Nat
  COLOR_WHITE : Nat
  mapCharacter : Nat → Bool → List Nat

/-- `dataFromColFont(color, fontSmall)`. -/
def dataFromColFont (ops : FMCProfileOps) (s : State) (color : Nat) (fontSmall : Bool) :
    Nat × Nat :=
  if s.profile.isNone then (0x42, 0x00)
  else
    let value :=
      match ops.colorMap color with
      | some v => v
      | none => ops.COLOR_WHITE
    let value := if fontSmall then value + 0x016b else value
    (value &&& 0xFF, (value >>> 8) &&& 0xFF)

/-- Body of the inner loop of `draw` for the cell in row `i`, column `j` of page `p`. -/
def drawCell (ops : FMCProfileOps) (s : State) (p : List (List Nat)) (i : Nat)
    (buf : List Nat) (j : Nat) : List Nat :=
  let color := (p.getD i []).getD (j * PageBytesPerChar) 0
  let fontSmall : Bool := (p.getD i []).getD (j * PageBytesPerChar + 1) 0 != 0
  let lohi := dataFromColFont ops s color fontSmall
  let buf := buf ++ [lohi.1, lohi.2]
  let val := (p.getD i []).getD (j * PageBytesPerChar + PageBytesPerChar - 1) 0
  buf ++ ops.mapCharacter val fontSmall

/-- The two nested loops of `draw`: the byte buffer rendered from page `p`. -/
def renderPage (ops : FMCProfileOps) (s : State) (p : List (List Nat)) : List Nat :=
  (List.range PageLines).foldl
    (fun buf i => (List.range PageCharsPerLine).foldl (drawCell ops s p i) buf) []

/-- `draw(pagePtr)`; it is only called with a profile installed (`update` returns before
`updatePage` otherwise). -/
def draw (ops : FMCProfileOps) (s : State) (pagePtr : Option (List (List Nat))) : State :=
  let p :=
    match pagePtr with
    | some q => q
    | none => s.page
  let buf := renderPage ops s p
  if buf = s._lastBuf then s
  else qUsbBuffer { s with _lastBuf := buf } buf

/-! ## Specification-side definitions -/

/-- The Frame Codec contract `segment(payload, maxChunk, headerByte, padByte)` in the
words of the specification: the chunks of at most `maxChunk` bytes taken in order from the
payload (`ceil(len / maxChunk)` of them), each prefixed with the header byte and right-padded
with the pad byte to `maxChunk` payload bytes. -/
def segment (payload : List Nat) (maxChunk headerByte padByte : Nat) : List (List Nat) :=
  (List.range ((payload.length + maxChunk - 1) / maxChunk)).map fun j =>
    let chunk := (payload.drop (j * maxChunk)).take maxChunk
    headerByte :: chunk ++ List.replicate (maxChunk - chunk.length) padByte

/-- Stripping of headers and padding: drop the first byte of every frame, concatenate the
remainders in frame order, keep the first `len` bytes. -/
def reassemble (frames : List (List Nat)) (len : Nat) : List Nat :=
  ((frames.map List.tail).flatten).take len

/-- The transition table of the Button Edge Detector, row by row. -/
def transition (wasPressed pressed : Bool) : Option XPLMCommandPhase :=
  match wasPressed, pressed with
  | false, true => some XPLMCommandPhase.xplm_CommandBegin
  | true, true => some XPLMCommandPhase.xplm_CommandContinue
  | true, false => some XPLMCommandPhase.xplm_CommandEnd
  | false, false => none

/-- Bit `i` of a snapshot: bit `i` of the low mask for `i < 64`, bit `i - 64` of the high
mask otherwise. -/
def snapshotBit (lo hi i : Nat) : Bool :=
  if i < 64 then lo.testBit i else hi.testBit (i - 64)

/-- The event the table prescribes for index `i`, given the pressed set before the report. -/
def tableEvent (pressedBefore : Finset Nat) (lo hi i : Nat) :
    Option (Nat × XPLMCommandPhase) :=
  (transition (decide (i ∈ pressedBefore)) (snapshotBit lo hi i)).map fun e => (i, e)

/-- Balance of the derived events: for every index the Begin events outnumber the End events
by one while the index is in the pressed set and by none while it is not. -/
def beginEndBalanced (s : State) : Prop :=
  ∀ i : Nat,
    List.count (i, XPLMCommandPhase.xplm_CommandBegin) s.buttonEvents =
      List.count (i, XPLMCommandPhase.xplm_CommandEnd) s.buttonEvents +
        (if i ∈ s.pressedButtonIndices then 1 else 0)

/-- A sequence of worker commands, each paired with the clock value read while it is
processed, processed in order. -/
def processTimed (ok : Nat → Bool) (s : State) (cmds : List (IoCmd × ℚ)) : State :=
  cmds.foldl (fun st x => processCmd ok x.2 st x.1) s

/-- Number of commands of a timed sequence that the worker does not drop, i.e. whose
processing changes the state (for a display command: it passes both guards, its frames are
handed to the transport and the sent-state cache is updated). -/
def countTransmitted (ok : Nat → Bool) : State → List (IoCmd × ℚ) → Nat
  | _, [] => 0
  | s, x :: rest =>
    (if processCmd ok x.2 s x.1 = s then 0 else 1) +
      countTransmitted ok (processCmd ok x.2 s x.1) rest

/-- The phases derived for index `i`, in order. -/
def phasesOf (i : Nat) (events : List (Nat × XPLMCommandPhase)) : List XPLMCommandPhase :=
  events.filterMap fun e => if e.1 = i then some e.2 else none

/-- One step of the per-index press automaton (`false` = Released, `true` = Pressed,
`none` = the sequence is rejected): Begin is allowed only when released, Continue and End
only when pressed. -/
def shapeStep (st : Option Bool) (e : XPLMCommandPhase) : Option Bool :=
  match st, e with
  | some false, XPLMCommandPhase.xplm_CommandBegin => some true
  | some true, XPLMCommandPhase.xplm_CommandContinue => some true
  | some true, XPLMCommandPhase.xplm_CommandEnd => some false
  | _, _ => none

/-- Run of the press automaton from Released. -/
def shapeRun (phases : List XPLMCommandPhase) : Option Bool :=
  phases.foldl shapeStep (some false)

/-- The shape `(Begin Continue* End)*` possibly followed by an unfinished `Begin Continue*`. -/
inductive PressShape : List XPLMCommandPhase → Prop where
  | nil : PressShape []
  | unfinished (n : Nat) :
      PressShape (XPLMCommandPhase.xplm_CommandBegin ::
        List.replicate n XPLMCommandPhase.xplm_CommandContinue)
  | press (n : Nat) (rest : List XPLMCommandPhase) :
      PressShape rest →
      PressShape (XPLMCommandPhase.xplm_CommandBegin ::
        (List.replicate n XPLMCommandPhase.xplm_CommandContinue ++
          XPLMCommandPhase.xplm_CommandEnd :: rest))

/-- The press automaton tracks the pressed set: for every index the events derived so far
are accepted and leave the automaton in Pressed exactly when the index is in the set. -/
def shapeTracked (s : State) : Prop :=
  ∀ i : Nat, shapeRun (phasesOf i s.buttonEvents) = some (decide (i ∈ s.pressedButtonIndices))

/-- The page after `n` characters of `text` have been written to row `L` from byte offset
`P`: byte `k` of row `r`.  Inside the written stretch the bytes repeat the pattern colour,
font flag, character; everywhere else the old byte stays. -/
def writtenByte (pg : List (List Nat)) (L P : Nat) (text : List Nat) (color : Nat)
    (fontSmall : Bool) (n r k : Nat) : Nat :=
  if r = L ∧ P ≤ k ∧ k < P + 3 * n then
    if (k - P) % 3 = 0 then color
    else if (k - P) % 3 = 1 then (if fontSmall then 1 else 0)
    else text.getD ((k - P) / 3) 0
  else (pg.getD r []).getD k 0

/-- The sent-state cache (last-sent frame, last send time) after a command has been
processed at time `now`: only a display command that passes both guards replaces it. -/
def cacheAfter (now : ℚ) (cache : List Nat × ℚ) (c : IoCmd) : List Nat × ℚ :=
  if c.type = IoCmdType.UsbBuffer ∧ c.payload ≠ cache.1 ∧ ¬ now - cache.2 < 1 / 25 then
    (c.payload, now)
  else cache

/-- The frames one command puts on the wire, per command type: one 14-byte LED frame, 16
blank lines, the background frame, the non-empty font chunks, or the segmentation of a
display payload that passes both guards. -/
def cmdFrames (identifierByte : Nat) (now : ℚ) (cache : List Nat × ℚ) (c : IoCmd) :
    List (List Nat) :=
  match c.type with
  | IoCmdType.SetLedBrightness =>
    [[0x02, identifierByte, 0xbb, 0x00, 0x00, 0x03, 0x49, c.a, c.b,
      0x00, 0x00, 0x00, 0x00, 0x00]]
  | IoCmdType.ClearScreen => List.replicate 16 blankLine
  | IoCmdType.ShowBackground => [c.payload]
  | IoCmdType.UploadFont => c.payloadChunks.filter fun ch => !ch.isEmpty
  | IoCmdType.UsbBuffer =>
    if c.payload ≠ cache.1 ∧ ¬ now - cache.2 < 1 / 25 then segment c.payload 63 0xf2 0
    else []

/-- The sent-state cache after a batch has been applied in list order, the `k`-th command
at time `now k`. -/
def batchCache (now : Nat → ℚ) : Nat → List Nat × ℚ → List IoCmd → List Nat × ℚ
  | _, cache, [] => cache
  | k, cache, c :: q => batchCache now (k + 1) (cacheAfter (now k) cache c) q

/-- The frames a batch puts on the wire when its commands are applied in list order, the
`k`-th at time `now k`, starting from the given sent-state cache. -/
def batchFrames (identifierByte : Nat) (now : Nat → ℚ) :
    Nat → List Nat × ℚ → List IoCmd → List (List Nat)
  | _, _, [] => []
  | k, cache, c :: q =>
    cmdFrames identifierByte (now k) cache c ++
      batchFrames identifierByte now (k + 1) (cacheAfter (now k) cache c) q

/-- The command `setLedBrightness` is specified to enqueue for an LED id: none when the id
is above `OVERALL_LEDS_BRIGHTNESS` and belongs to the LED range of the other hardware. -/
def ledCmds (ids : FMCLedIds) (hw : FMCHardwareType) (led brightness : Nat) : List IoCmd :=
  if ids.OVERALL_LEDS_BRIGHTNESS < led ∧
      ((hw = FMCHardwareType.HARDWARE_MCDU ∧ ids._PFP_START ≤ led ∧ led ≤ ids._PFP_END) ∨
        (hw ≠ FMCHardwareType.HARDWARE_MCDU ∧ ids._MCDU_START ≤ led ∧ led ≤ ids._MCDU_END))
  then []
  else [{ type := IoCmdType.SetLedBrightness, a := led % 256, b := brightness }]

/-- The LED commands `disconnect` issues: backlight and screen backlight to 0, then every LED
of the hardware's own range off. -/
def disconnectLedCmds (ids : FMCLedIds) (hw : FMCHardwareType) : List IoCmd :=
  ledCmds ids hw ids.BACKLIGHT 0 ++ ledCmds ids hw ids.SCREEN_BACKLIGHT 0 ++
    (List.range'
        (if hw = FMCHardwareType.HARDWARE_MCDU then ids._MCDU_START else ids._PFP_START)
        ((if hw = FMCHardwareType.HARDWARE_MCDU then ids._MCDU_END else ids._PFP_END) + 1 -
          (if hw = FMCHardwareType.HARDWARE_MCDU then ids._MCDU_START
            else ids._PFP_START))).flatMap
      fun i => ledCmds ids hw i 0

/-- Bit `i mod 8` of report byte `1 + floor(i / 8)`. -/
def reportBit (report : List Nat) (i : Nat) : Bool :=
  (report.getD (1 + i / 8) 0).testBit (i % 8)

/-- The priority order in which `setProfileForCurrentAircraft` is specified to probe the
profiles. -/
def profileOrder : List FMCProfileKind :=
  [FMCProfileKind.Toliss, FMCProfileKind.Laminar, FMCProfileKind.XCrafts, FMCProfileKind.Zibo,
   FMCProfileKind.FlightFactor777, FMCProfileKind.SSG748, FMCProfileKind.IXEG733]

/-- The blank page buffer: 14 rows of 72 space characters. -/
def blankPage : List (List Nat) :=
  List.replicate PageLines (List.replicate PageBytesPerLine 32)

/-- The standard 32-bit FNV-1a hash of a byte sequence: offset basis 2166136261, per byte
`h := ((h xor b) * 16777619) mod 2^32`. -/
def fnv1aStd (bytes : List Nat) : Nat :=
  bytes.foldl (fun h b => ((h ^^^ b) * 16777619) % 2 ^ 32) 2166136261

/-- The pressed set mirrors the stored snapshot: an index is in the set exactly when it is
below 96 and its bit is set in the stored masks. -/
def pressedMatchesSnapshot (s : State) : Prop :=
  ∀ j : Nat, j ∈ s.pressedButtonIndices ↔
    (j < 96 ∧ snapshotBit s.lastButtonStateLo s.lastButtonStateHi j = true)

/-- A sequence of `setFont` calls (font, clock value) with nothing in between. -/
def runSetFont (s : State) (calls : List (List (List Nat) × ℚ)) : State :=
  calls.foldl (fun st c => setFont st c.1 c.2) s

/-- One producer/worker round: page `p` is drawn, then the worker runs one iteration in
which every command is processed at the clock value `t`. -/
def drawAndProcess (ops : FMCProfileOps) (ok : Nat → Bool) (s : State)
    (p : List (List Nat)) (t : ℚ) : State :=
  ioThreadIter ok (fun _ => t) (draw ops s (some p))

/-- `n` further draws of page `p` in a row. -/
def drawRepeat (ops : FMCProfileOps) (p : List (List Nat)) : Nat → State → State
  | 0, s => s
  | n + 1, s => drawRepeat ops p n (draw ops s (some p))

/-! ## Concrete states used in the examples -/

/-- A connected MCDU with the Toliss profile installed and the worker running. -/
def demoState : State :=
  { init FMCHardwareType.HARDWARE_MCDU 0x32 with
    connected := true
    profile := some FMCProfileKind.Toliss
    profileReady := true
    _ioRunning := true }

/-- A display command carrying the one-byte payload `[1]`. -/
def demoFrameCmd : IoCmd :=
  { type := IoCmdType.UsbBuffer, payload := [1] }

/-- The state reached from `demoState` once the worker has transmitted `demoFrameCmd` at
time 1 (every write succeeding). -/
def demoSent : State :=
  processCmd (fun _ => true) 1 demoState demoFrameCmd

/-- A two-chunk font table. -/
def demoFontA : List (List Nat) := [[0x32, 0xbb, 1], [2]]

/-- A font table with another fingerprint. -/
def demoFontB : List (List Nat) := [[0x32, 0xbb, 7]]

/-- The state reached from `demoState` by `setFont(demoFontA)` at time 0: the font is
enqueued for upload. -/
def demoFontSent : State :=
  setFont demoState demoFontA 0

/-- Eligibility results under which only the Zibo profile is eligible. -/
def onlyZibo (k : FMCProfileKind) : Bool :=
  decide (k = FMCProfileKind.Zibo)

/-- Example LED ids: three brightness channels, then a PFP range 3..7 and an MCDU range
8..16. -/
def demoLedIds : FMCLedIds :=
  { BACKLIGHT := 0
    SCREEN_BACKLIGHT := 1
    OVERALL_LEDS_BRIGHTNESS := 2
    _PFP_START := 3
    _PFP_END := 7
    _MCDU_START := 8
    _MCDU_END := 16 }

/-- The running `demoState` with one ClearScreen command waiting in the queue. -/
def demoQueued : State :=
  qClear demoState

/-- The `demoState` after the text "HI" was written to the first page line. -/
def demoWritten : State :=
  { demoState with page := writeLineToPage demoState.page 0 0 [72, 73] 0x77 false }

/-- Four display commands with distinct payloads processed at 1 s, 1.01 s, 1.04 s and
1.08 s. -/
def demoBurst : List (IoCmd × ℚ) :=
  [({ type := IoCmdType.UsbBuffer, payload := [1] }, 1),
   ({ type := IoCmdType.UsbBuffer, payload := [2] }, 101 / 100),
   ({ type := IoCmdType.UsbBuffer, payload := [3] }, 26 / 25),
   ({ type := IoCmdType.UsbBuffer, payload := [4] }, 27 / 25)]

/-- Example profile operations: no colour entry (everything is drawn with the white code
0x42) and every character mapped to itself. -/
def demoOps : FMCProfileOps :=
  { colorMap := fun _ => none
    COLOR_WHITE := 0x42
    mapCharacter := fun val _ => [val] }

/-- Report 1 with only button 0 held. -/
def reportButton0 : List Nat := [1, 1, 0, 0, 0, 0, 0, 0, 0, 0, 0, 0, 0]

/-- Report 1 with no button held. -/
def reportNone : List Nat := [1, 0, 0, 0, 0, 0, 0, 0, 0, 0, 0, 0, 0]

end ProductFMC

/-! # Font tables (`fonts/font.cpp`) -/

namespace Font

/-- The enumerators of `FontVariant` handled by the switch of `GlyphData`; `other` stands for
any further value, which takes the `default` branch. -/
inductive FontVariant where
  | FontAirbus1
  | FontAirbus2
  | FontAirbus3
  | Font737
  | FontXCrafts
  | FontVGA1
  | FontVGA2
  | FontVGA3
  | FontVGA4
  | other
  deriving DecidableEq, Repr

/-- The nine font tables, defined in headers that are not part of the sources at hand. -/
structure FontTables where
  fmcFontAirbusVariant1 : List (List Nat)
  fmcFontAirbusVariant2 : List (List Nat)
  fmcFontAirbusVariant3 : List (List Nat)
  fmcFont737 : List (List Nat)
  fmcFontXCrafts : List (List Nat)
  fmcFontVGA1 : List (List Nat)
  fmcFontVGA2 : List (List Nat)
  fmcFontVGA3 : List (List Nat)
  fmcFontVGA4 : List (List Nat)

/-- The `switch (variant)` of `GlyphData`: the table copied into `result`. -/
def sourceTable (t : FontTables) (variant : FontVariant) : List (List Nat) :=
  match variant with
  | FontVariant.FontAirbus1 => t.fmcFontAirbusVariant1
  | FontVariant.FontAirbus2 => t.fmcFontAirbusVariant2
  | FontVariant.FontAirbus3 => t.fmcFontAirbusVariant3
  | FontVariant.Font737 => t.fmcFont737
  | FontVariant.FontXCrafts => t.fmcFontXCrafts
  | FontVariant.FontVGA1 => t.fmcFontVGA1
  | FontVariant.FontVGA2 => t.fmcFontVGA2
  | FontVariant.FontVGA3 => t.fmcFontVGA3
  | FontVariant.FontVGA4 => t.fmcFontVGA4
  | FontVariant.other => []

/-- Body of `for (size_t i = 0; i + 1 < row.size(); i++)`: the in-place patch at index `i`. -/
def patchStep (hardwareIdentifier : Nat) (row : List Nat) (i : Nat) : List Nat :=
  if row.getD i 0 = 0x32 ∧ row.getD (i + 1) 0 = 0xbb then
    (row.set i hardwareIdentifier).set (i + 1) 0xbb
  else row

/-- The inner loop of `GlyphData` on one row (`i` runs over `0 .. row.size() - 2`). -/
def patchRow (hardwareIdentifier : Nat) (row : List Nat) : List Nat :=
  (List.range (row.length - 1)).foldl (patchStep hardwareIdentifier) row

/-- `Font::GlyphData(variant, hardwareIdentifier)`. -/
def GlyphData (t : FontTables) (variant : FontVariant) (hardwareIdentifier : Nat) :
    List (List Nat) :=
  (sourceTable t variant).map (patchRow hardwareIdentifier)

/-- What the patch is specified to do to the byte at index `i` of a source row. -/
def patchedByte (hardwareIdentifier : Nat) (src : List Nat) (i : Nat) : Nat :=
  if src.getD i 0 = 0x32 ∧ src[i + 1]? = some 0xbb then hardwareIdentifier else src.getD i 0

/-- Example tables: one two-chunk table for the first Airbus variant, the others empty. -/
def demoTables : FontTables :=
  { fmcFontAirbusVariant1 := [[0xf0, 0x32, 0xbb, 0x32, 0x01], [0x32]]
    fmcFontAirbusVariant2 := []
    fmcFontAirbusVariant3 := []
    fmcFont737 := []
    fmcFontXCrafts := []
    fmcFontVGA1 := []
    fmcFontVGA2 := []
    fmcFontVGA3 := []
    fmcFontVGA4 := [] }

end Font

/-! # PAP3 demo LED pattern (`pap3-mcp/device/pap3_demo.cpp`) -/

namespace PAP3Demo

/-- The LED pattern state of `class PAP3Demo` and `_running`, followed by the log of the
calls `_dev->setLed(id, on)`. -/
structure Demo where
  _running : Bool
  _ledIds : List Nat
  _head : Int
  _dir : Int
  _prevA : Int
  _prevB : Int
  ledLog : List (Nat × Bool)
  deriving DecidableEq, Repr

/-- A freshly constructed demo (member initialisers of pap3_demo.h). -/
def fresh : Demo :=
  { _running := false
    _ledIds := []
    _head := 0
    _dir := 1
    _prevA := -1
    _prevB := -1
    ledLog := [] }

/-- `std::clamp(v, lo, hi)`. -/
def clamp (v lo hi : Int) : Int :=
  if v < lo then lo else if hi < v then hi else v

/-- The LED part of `start(ledIds, ...)` for a non-null device: the id list (replaced by
0..15 when shorter than 2) and the reset of the pattern state.  The frame rates, the LCD
initialisation and the flight-loop registration do not touch the LED state. -/
def start (ledIds : List Nat) (d : Demo) : Demo :=
  if d._running then d
  else
    { d with
      _ledIds := if ledIds.length < 2 then List.range 16 else ledIds
      _head := 0
      _dir := 1
      _prevA := -1
      _prevB := -1
      _running := true }

/-- `ledStepPattern()`; `jitter` is the value drawn from `uniform_int_distribution(-1, +1)`. -/
def ledStepPattern (jitter : Int) (d : Demo) : Demo :=
  let n : Int := d._ledIds.length
  if n ≤ 0 then d
  else
    let log := d.ledLog
    let log :=
      if d._prevA ≥ 0 ∧ d._prevA < n then log ++ [(d._ledIds.getD d._prevA.toNat 0, false)]
      else log
    let log :=
      if d._prevB ≥ 0 ∧ d._prevB < n then log ++ [(d._ledIds.getD d._prevB.toNat 0, false)]
      else log
    let head := d._head + d._dir
    let hd : Int × Int :=
      if head ≥ n then (n - 1, -1)
      else if head < 0 then (0, 1)
      else (head, d._dir)
    let head := hd.1
    let dir := hd.2
    let maxTrail : Int := min 3 (max 1 (n - 1))
    let tailOff := clamp (1 + jitter) 1 maxTrail
    let tail := head - dir * tailOff
    let tail := clamp tail 0 (n - 1)
    let tail := if tail = head then clamp (head - dir) 0 (n - 1) else tail
    let log := log ++ [(d._ledIds.getD head.toNat 0, true)]
    let log := log ++ [(d._ledIds.getD tail.toNat 0, true)]
    { d with _head := head, _dir := dir, _prevA := head, _prevB := tail, ledLog := log }

/-- `k` pattern steps in a row, each with the jitter value 0. -/
def stepsNoJitter : Nat → Demo → Demo
  | 0, d => d
  | k + 1, d => stepsNoJitter k (ledStepPattern 0 d)

end PAP3Demo

namespace ProductFMC

/-! ## Segmentation -/

theorem segment_nil (h p : Nat) : segment [] 63 h p = [] := by
  simp [segment]

theorem segment_step (buf : List Nat) (h p : Nat) (hne : buf ≠ []) :
    segment buf 63 h p =
      (h :: buf.take 63 ++ List.replicate (63 - (buf.take 63).length) p) ::
        segment (buf.drop 63) 63 h p := by
  have hpos : 0 < buf.length := List.length_pos.mpr hne
  have hcnt : (buf.length + 63 - 1) / 63 = ((buf.drop 63).length + 63 - 1) / 63 + 1 := by
    rw [List.length_drop]; omega
  unfold segment
  rw [hcnt, List.range_succ_eq_map, List.map_cons, List.map_map]
  refine congrArg₂ List.cons ?_ ?_
  · simp
  · apply List.map_congr_left
    intro j _
    have e1 : Nat.succ j * 63 = 63 + j * 63 := by omega
    have e2 : j * 63 + 63 = 63 + j * 63 := by omega
    simp only [Function.comp, List.drop_drop, e1, e2]

/-- With fuel at least the length of the buffer, the worker's loop hands exactly the frames
of `segment buf 63 0xf2 0` to the transport, in order, and touches nothing else. -/
theorem usbBufferLoop_eq (ok : Nat → Bool) (fuel : Nat) :
    ∀ (s : State) (buf : List Nat), buf.length ≤ fuel →
      usbBufferLoop ok fuel s buf =
        { s with usbWrites := s.usbWrites ++ segment buf 63 0xf2 0 } := by
  induction fuel with
  | zero =>
    intro s buf hlen
    have : buf = [] := List.length_eq_zero.mp (Nat.le_zero.mp hlen)
    subst this
    simp [usbBufferLoop, segment_nil]
  | succ fuel ih =>
    intro s buf hlen
    by_cases hne : buf = []
    · subst hne
      simp [usbBufferLoop, segment_nil]
    · have hpos : 0 < buf.length := List.length_pos.mpr hne
      have hdrop : (buf.drop (min 63 buf.length)).length ≤ fuel := by
        rw [List.length_drop]; omega
      have htake : buf.take (min 63 buf.length) = buf.take 63 := by
        rw [List.take_eq_take]; simp
      have hdrop2 : buf.drop (min 63 buf.length) = buf.drop 63 := by
        by_cases h : 63 ≤ buf.length
        · rw [Nat.min_eq_left h]
        · rw [List.drop_eq_nil_of_le (by omega), List.drop_eq_nil_of_le (by omega)]
      have hframe :
          (if min 63 buf.length < 63 then
              242 :: List.take 63 buf ++ List.replicate (63 - min 63 buf.length) 0
            else 242 :: List.take 63 buf) =
            242 :: List.take 63 buf ++ List.replicate (63 - (List.take 63 buf).length) 0 := by
        rw [List.length_take]
        split
        · rfl
        · have h0 : 63 - min 63 buf.length = 0 := by omega
          rw [h0]; simp
      rw [usbBufferLoop]
      simp only [List.isEmpty_eq_true, hne, if_false]
      rw [ih _ _ hdrop, segment_step buf _ _ hne]
      simp only [writeData, htake, hdrop2, hframe, List.append_assoc, List.singleton_append]

theorem segment_reassemble (h p : Nat) (n : Nat) :
    ∀ P : List Nat, P.length ≤ n → reassemble (segment P 63 h p) P.length = P := by
  unfold reassemble
  induction n with
  | zero =>
    intro P hlen
    have : P = [] := List.length_eq_zero.mp (Nat.le_zero.mp hlen)
    subst this
    simp
  | succ n ih =>
    intro P hlen
    by_cases hne : P = []
    · subst hne; simp
    · have hpos : 0 < P.length := List.length_pos.mpr hne
      have hd : (P.drop 63).length ≤ n := by rw [List.length_drop]; omega
      have ih2 := ih _ hd
      rw [segment_step P h p hne]
      by_cases hle : P.length ≤ 63
      · have ht : P.take 63 = P := List.take_of_length_le hle
        have hdn : P.drop 63 = [] := List.drop_eq_nil_of_le hle
        simp [ht, hdn, segment_nil]
      · have hl : (P.take 63).length = 63 := by rw [List.length_take]; omega
        have hdl : (P.drop 63).length = P.length - 63 := List.length_drop _ _
        rw [hdl] at ih2
        simp only [List.map_cons, List.tail_cons, List.flatten_cons, hl, Nat.sub_self,
          List.replicate_zero, List.append_nil]
        rw [List.take_append_eq_append_take, hl, ih2,
          List.take_of_length_le (by rw [hl]; omega), List.take_append_drop]

/-- C1: for every byte sequence `P` (and every device state and write outcome), the frames
the worker's segmentation loop hands to the transport for the payload `P` reconstruct `P`:
dropping the first byte of every frame, concatenating the remainders in frame order and
keeping the first `len(P)` bytes yields exactly `P`. -/
theorem usbBufferLoop_frames_reassemble (ok : Nat → Bool) (s : State) (P : List Nat) :
    reassemble ((usbBufferLoop ok P.length s P).usbWrites.drop s.usbWrites.length) P.length
      = P := by
  rw [usbBufferLoop_eq ok P.length s P (Nat.le_refl _)]
  simp only [List.drop_left]
  exact segment_reassemble 0xf2 0 P.length P (Nat.le_refl _)

/-! ## The `UsbBuffer` policy -/

theorem processCmd_usbBuffer_drop (ok : Nat → Bool) (now : ℚ) (s : State) (c : IoCmd)
    (hc : c.type = IoCmdType.UsbBuffer)
    (h : c.payload = s._sentFrame ∨ now - s._lastUsbTs < 1 / 25) :
    processCmd ok now s c = s := by
  unfold processCmd
  rw [hc]
  simp only [_minUsbPeriod]
  rcases h with h | h
  · rw [if_pos h]
  · split
    · rfl
    · rfl

theorem processCmd_usbBuffer_send (ok : Nat → Bool) (now : ℚ) (s : State) (c : IoCmd)
    (hc : c.type = IoCmdType.UsbBuffer)
    (hne : c.payload ≠ s._sentFrame) (hrate : ¬ now - s._lastUsbTs < 1 / 25) :
    processCmd ok now s c =
      { s with
        usbWrites := s.usbWrites ++ segment c.payload 63 0xf2 0
        _sentFrame := c.payload
        _lastUsbTs := now } := by
  unfold processCmd
  rw [hc]
  simp only [_minUsbPeriod]
  rw [if_neg hne, if_neg hrate, usbBufferLoop_eq ok _ s c.payload (Nat.le_refl _)]

/-- C4: processing a DisplayFrame command with payload `P` at time `now` transmits nothing
and changes no state if `P` equals the last-sent frame or if `now` minus the last send time
is less than 1/25 s; otherwise it hands the segmentation of `P` to the transport frame by
frame in order and sets the last-sent frame to `P` and the last send time to `now`. -/
theorem processCmd_displayFrame (ok : Nat → Bool) (now : ℚ) (s : State) (c : IoCmd)
    (hc : c.type = IoCmdType.UsbBuffer) :
    ((c.payload = s._sentFrame ∨ now - s._lastUsbTs < 1 / 25) → processCmd ok now s c = s) ∧
    ((c.payload ≠ s._sentFrame ∧ ¬ now - s._lastUsbTs < 1 / 25) →
      processCmd ok now s c =
        { s with
          usbWrites := s.usbWrites ++ segment c.payload 63 0xf2 0
          _sentFrame := c.payload
          _lastUsbTs := now }) :=
  ⟨processCmd_usbBuffer_drop ok now s c hc,
   fun h => processCmd_usbBuffer_send ok now s c hc h.1 h.2⟩

/-- Witness of C4: from `demoState` (nothing sent yet, last send time 0) the payload `[1]`
processed at time 1 passes both guards. -/
theorem processCmd_displayFrame_witness :
    demoFrameCmd.type = IoCmdType.UsbBuffer ∧
    processCmd (fun _ => true) 1 demoState demoFrameCmd =
      { demoState with
        usbWrites := demoState.usbWrites ++ segment demoFrameCmd.payload 63 0xf2 0
        _sentFrame := demoFrameCmd.payload
        _lastUsbTs := 1 } :=
  ⟨rfl, (processCmd_displayFrame (fun _ => true) 1 demoState demoFrameCmd rfl).2
    ⟨by decide, by norm_num [demoState, init]⟩⟩

/-- C9 (as the code behaves): the outcome of `writeData` is never inspected.  Whatever the
write outcomes `ok` are (so also when a write of the sequence fails), a DisplayFrame that
passes both guards has all its frames handed to the transport in order and then sets
the last-sent frame to the payload and the last send time to `now`. -/
theorem processCmd_cache_ignores_write_outcome (ok : Nat → Bool) (now : ℚ) (s : State)
    (c : IoCmd) (hc : c.type = IoCmdType.UsbBuffer)
    (hne : c.payload ≠ s._sentFrame) (hrate : ¬ now - s._lastUsbTs < 1 / 25) :
    (processCmd ok now s c).usbWrites = s.usbWrites ++ segment c.payload 63 0xf2 0 ∧
    (processCmd ok now s c)._sentFrame = c.payload ∧
    (processCmd ok now s c)._lastUsbTs = now := by
  rw [processCmd_usbBuffer_send ok now s c hc hne hrate]
  exact ⟨rfl, rfl, rfl⟩

/-- Witness of C9 (as the code behaves): every write fails, the payload is `[1]`. -/
theorem processCmd_cache_ignores_write_outcome_witness :
    (processCmd (fun _ => false) 1 demoState demoFrameCmd).usbWrites =
      demoState.usbWrites ++ segment demoFrameCmd.payload 63 0xf2 0 ∧
    (processCmd (fun _ => false) 1 demoState demoFrameCmd)._sentFrame = demoFrameCmd.payload ∧
    (processCmd (fun _ => false) 1 demoState demoFrameCmd)._lastUsbTs = 1 :=
  processCmd_cache_ignores_write_outcome (fun _ => false) 1 demoState demoFrameCmd rfl
    (by decide) (by norm_num [demoState, init])

/-- Counterexample to C9 as stated: the transport rejects every write; the only frame of the
payload `[1]` is handed over as write number 0, which fails, and still the cache moves from
(`[]`, 0) to (`[1]`, 1), so that the same payload offered again at time 2 is dropped as
already sent. -/
theorem processCmd_failed_write_updates_cache :
    (writeData (fun _ => false) demoState (242 :: 1 :: List.replicate 62 0)).2 = false ∧
    demoState._sentFrame = [] ∧ demoState._lastUsbTs = 0 ∧
    (processCmd (fun _ => false) 1 demoState demoFrameCmd).usbWrites =
      [242 :: 1 :: List.replicate 62 0] ∧
    (processCmd (fun _ => false) 1 demoState demoFrameCmd)._sentFrame = [1] ∧
    (processCmd (fun _ => false) 1 demoState demoFrameCmd)._lastUsbTs = 1 ∧
    (processCmd (fun _ => false) 2
        (processCmd (fun _ => false) 1 demoState demoFrameCmd) demoFrameCmd).usbWrites =
      [242 :: 1 :: List.replicate 62 0] := by
  have h1 : processCmd (fun _ => false) 1 demoState demoFrameCmd =
      { demoState with
        usbWrites := demoState.usbWrites ++ segment demoFrameCmd.payload 63 0xf2 0
        _sentFrame := demoFrameCmd.payload
        _lastUsbTs := 1 } :=
    processCmd_usbBuffer_send (fun _ => false) 1 demoState demoFrameCmd rfl (by decide)
      (by norm_num [demoState, init])
  have h2 : segment demoFrameCmd.payload 63 0xf2 0 = [242 :: 1 :: List.replicate 62 0] := by
    decide
  rw [processCmd_usbBuffer_drop (fun _ => false) 2 _ demoFrameCmd rfl (Or.inl (by rw [h1])),
    h1, h2]
  exact ⟨rfl, rfl, rfl, rfl, rfl, rfl, rfl⟩

/-! ## Queue and worker iteration -/

theorem foldl_qEnqueue (cs : List IoCmd) :
    ∀ s : State, cs.foldl qEnqueue s = { s with _ioQueue := s._ioQueue ++ cs } := by
  induction cs with
  | nil => intro s; simp
  | cons c cs ih => intro s; rw [List.foldl_cons, ih]; simp [qEnqueue]

theorem writeRepeat_usbWrites (ok : Nat → Bool) (frame : List Nat) (n : Nat) :
    ∀ s : State, writeRepeat ok n s frame =
      { s with usbWrites := s.usbWrites ++ List.replicate n frame } := by
  induction n with
  | zero => intro s; simp [writeRepeat]
  | succ n ih =>
    intro s
    rw [writeRepeat, ih]
    simp [writeData, List.replicate_succ]

theorem writeChunks_usbWrites (ok : Nat → Bool) (chunks : List (List Nat)) :
    ∀ s : State, writeChunks ok s chunks =
      { s with usbWrites := s.usbWrites ++ chunks.filter (fun ch => !ch.isEmpty) } := by
  induction chunks with
  | nil => intro s; simp [writeChunks]
  | cons ch rest ih =>
    intro s
    rw [writeChunks]
    by_cases h : ch.isEmpty = true
    · simp [h, ih]
    · simp [h, ih, writeData]

/-- What one command does, per command type: it appends its frames to the log of frames
handed to the transport and updates the sent-state cache; nothing else changes. -/
theorem processCmd_eq (ok : Nat → Bool) (now : ℚ) (s : State) (c : IoCmd) :
    processCmd ok now s c =
      { s with
        usbWrites :=
          s.usbWrites ++ cmdFrames s.identifierByte now (s._sentFrame, s._lastUsbTs) c
        _sentFrame := (cacheAfter now (s._sentFrame, s._lastUsbTs) c).1
        _lastUsbTs := (cacheAfter now (s._sentFrame, s._lastUsbTs) c).2 } := by
  have hca : c.type ≠ IoCmdType.UsbBuffer →
      cacheAfter now (s._sentFrame, s._lastUsbTs) c = (s._sentFrame, s._lastUsbTs) := by
    intro h
    unfold cacheAfter
    rw [if_neg]
    intro hh
    exact h hh.1
  cases hc : c.type with
  | UsbBuffer =>
    by_cases hg : c.payload ≠ s._sentFrame ∧ ¬ now - s._lastUsbTs < 1 / 25
    · have h1 : cmdFrames s.identifierByte now (s._sentFrame, s._lastUsbTs) c =
          segment c.payload 63 0xf2 0 := by
        unfold cmdFrames
        rw [hc]
        exact if_pos hg
      have h2 : cacheAfter now (s._sentFrame, s._lastUsbTs) c = (c.payload, now) := by
        unfold cacheAfter
        exact if_pos ⟨hc, hg⟩
      rw [processCmd_usbBuffer_send ok now s c hc hg.1 hg.2, h1, h2]
    · have hd : c.payload = s._sentFrame ∨ now - s._lastUsbTs < 1 / 25 := by
        by_contra hcon
        exact hg ⟨fun h => hcon (Or.inl h), fun h => hcon (Or.inr h)⟩
      have h1 : cmdFrames s.identifierByte now (s._sentFrame, s._lastUsbTs) c = [] := by
        unfold cmdFrames
        rw [hc]
        exact if_neg hg
      have h2 : cacheAfter now (s._sentFrame, s._lastUsbTs) c =
          (s._sentFrame, s._lastUsbTs) := by
        unfold cacheAfter
        exact if_neg fun h => hg h.2
      rw [processCmd_usbBuffer_drop ok now s c hc hd, h1, h2]
      simp
  | SetLedBrightness =>
    rw [hca (by rw [hc]; decide)]
    unfold processCmd cmdFrames
    rw [hc]
    simp [writeData]
  | ClearScreen =>
    rw [hca (by rw [hc]; decide)]
    unfold processCmd cmdFrames
    rw [hc]
    simp [writeRepeat_usbWrites]
  | ShowBackground =>
    rw [hca (by rw [hc]; decide)]
    unfold processCmd cmdFrames
    rw [hc]
    simp [writeData]
  | UploadFont =>
    rw [hca (by rw [hc]; decide)]
    unfold processCmd cmdFrames
    rw [hc]
    simp [writeChunks_usbWrites]

/-- The batch loop as a whole: the frames of the commands in list order, each decided
against the sent-state cache its predecessors left. -/
theorem processBatch_eq (ok : Nat → Bool) (now : Nat → ℚ) (q : List IoCmd) :
    ∀ (k : Nat) (s : State),
      processBatch ok now k s q =
        { s with
          usbWrites :=
            s.usbWrites ++ batchFrames s.identifierByte now k (s._sentFrame, s._lastUsbTs) q
          _sentFrame := (batchCache now k (s._sentFrame, s._lastUsbTs) q).1
          _lastUsbTs := (batchCache now k (s._sentFrame, s._lastUsbTs) q).2 } := by
  induction q with
  | nil => intro k s; simp [processBatch, batchFrames, batchCache]
  | cons c q ih =>
    intro k s
    rw [processBatch, ih, processCmd_eq]
    simp [batchFrames, batchCache, List.append_assoc]

theorem batchCache_append (now : Nat → ℚ) (pre post : List IoCmd) :
    ∀ (k : Nat) (cache : List Nat × ℚ),
      batchCache now k cache (pre ++ post) =
        batchCache now (k + pre.length) (batchCache now k cache pre) post := by
  induction pre with
  | nil => intro k cache; simp [batchCache]
  | cons c pre ih =>
    intro k cache
    rw [List.cons_append, batchCache, ih, batchCache, List.length_cons]
    congr 1
    omega

theorem batchFrames_append (idb : Nat) (now : Nat → ℚ) (pre post : List IoCmd) :
    ∀ (k : Nat) (cache : List Nat × ℚ),
      batchFrames idb now k cache (pre ++ post) =
        batchFrames idb now k cache pre ++
          batchFrames idb now (k + pre.length) (batchCache now k cache pre) post := by
  induction pre with
  | nil => intro k cache; simp [batchFrames, batchCache]
  | cons c pre ih =>
    intro k cache
    rw [List.cons_append, batchFrames, ih, batchFrames, batchCache, List.length_cons,
      List.append_assoc]
    congr 3
    omega

/-- C5 (as the code behaves): after `c1..cn` are enqueued in that order onto a queue `q`, a
drain performed while the worker is running returns `q` followed by `c1..cn` and leaves the
queue empty.  If the running flag is still set when line 304 reads it again, the iteration
hands to the transport exactly the frames of the batch's commands in enqueue order (those of
any front part before those of the rest), updates the sent-state cache accordingly and
changes nothing else.  If the flag was cleared between the drain and line 304, the drained
batch is discarded: nothing is written and the commands are gone from the queue. -/
theorem ioThreadIterAt_batch (ok : Nat → Bool) (now : Nat → ℚ) (s : State) (cs : List IoCmd)
    (hrun : s._ioRunning = true) :
    drain (cs.foldl qEnqueue s) = (s._ioQueue ++ cs, { s with _ioQueue := [] }) ∧
    ioThreadIterAt ok now false (cs.foldl qEnqueue s) =
      { s with
        _ioQueue := []
        usbWrites :=
          s.usbWrites ++
            batchFrames s.identifierByte now 0 (s._sentFrame, s._lastUsbTs) (s._ioQueue ++ cs)
        _sentFrame := (batchCache now 0 (s._sentFrame, s._lastUsbTs) (s._ioQueue ++ cs)).1
        _lastUsbTs := (batchCache now 0 (s._sentFrame, s._lastUsbTs) (s._ioQueue ++ cs)).2 } ∧
    (∀ pre post : List IoCmd, s._ioQueue ++ cs = pre ++ post →
      (ioThreadIterAt ok now false (cs.foldl qEnqueue s)).usbWrites =
        s.usbWrites ++ batchFrames s.identifierByte now 0 (s._sentFrame, s._lastUsbTs) pre ++
          batchFrames s.identifierByte now pre.length
            (batchCache now 0 (s._sentFrame, s._lastUsbTs) pre) post) ∧
    ioThreadIterAt ok now true (cs.foldl qEnqueue s) =
      { s with _ioQueue := [], _ioRunning := false } := by
  have hd : drain (cs.foldl qEnqueue s) = (s._ioQueue ++ cs, { s with _ioQueue := [] }) := by
    rw [foldl_qEnqueue]
    simp [drain, hrun]
  have hi : ioThreadIterAt ok now false (cs.foldl qEnqueue s) =
      processBatch ok now 0 { s with _ioQueue := [] } (s._ioQueue ++ cs) := by
    unfold ioThreadIterAt
    rw [hd]
    simp [hrun]
  refine ⟨hd, ?_, ?_, ?_⟩
  · rw [hi, processBatch_eq]
  · intro pre post hsplit
    have hb := batchFrames_append s.identifierByte now pre post 0 (s._sentFrame, s._lastUsbTs)
    rw [Nat.zero_add] at hb
    rw [hi, processBatch_eq, hsplit]
    show s.usbWrites ++ batchFrames s.identifierByte now 0 (s._sentFrame, s._lastUsbTs)
      (pre ++ post) = _
    rw [hb, List.append_assoc]
  · unfold ioThreadIterAt
    rw [hd]
    simp

/-- Witness of C5: a LED command and a clear command enqueued onto the empty queue of the
running `demoState`; the iteration writes the LED frame, then the 16 blank lines. -/
theorem ioThreadIterAt_batch_witness :
    drain ([({ type := IoCmdType.SetLedBrightness, a := 1, b := 128 } : IoCmd),
        { type := IoCmdType.ClearScreen }].foldl qEnqueue demoState) =
      ([{ type := IoCmdType.SetLedBrightness, a := 1, b := 128 },
        { type := IoCmdType.ClearScreen }], demoState) ∧
    (ioThreadIterAt (fun _ => true) (fun _ => 0) false
        ([({ type := IoCmdType.SetLedBrightness, a := 1, b := 128 } : IoCmd),
          { type := IoCmdType.ClearScreen }].foldl qEnqueue demoState)).usbWrites =
      [0x02, 0x32, 0xbb, 0x00, 0x00, 0x03, 0x49, 1, 128, 0x00, 0x00, 0x00, 0x00, 0x00] ::
        List.replicate 16 blankLine :=
  ⟨(ioThreadIterAt_batch (fun _ => true) (fun _ => 0) demoState
      [{ type := IoCmdType.SetLedBrightness, a := 1, b := 128 },
       { type := IoCmdType.ClearScreen }] rfl).1,
    (ioThreadIterAt_batch (fun _ => true) (fun _ => 0) demoState
      [{ type := IoCmdType.SetLedBrightness, a := 1, b := 128 },
       { type := IoCmdType.ClearScreen }] rfl).2.2.1
      [{ type := IoCmdType.SetLedBrightness, a := 1, b := 128 }]
      [{ type := IoCmdType.ClearScreen }] rfl⟩

/-- Counterexample to C5 as stated: `demoQueued` is `demoState` after one ClearScreen command
was enqueued while the worker runs.  The drain, performed while the running flag is set,
returns that command and empties the queue; `disconnect` then clears the flag before line
304 reads it.  The iteration ends with nothing handed to the transport and the queue empty:
the command is lost. -/
theorem ioThreadIterAt_drops_batch :
    demoQueued = [({ type := IoCmdType.ClearScreen } : IoCmd)].foldl qEnqueue demoState ∧
    demoQueued._ioRunning = true ∧
    (drain demoQueued).1 = [{ type := IoCmdType.ClearScreen }] ∧
    (ioThreadIterAt (fun _ => true) (fun _ => 0) true demoQueued).usbWrites = [] ∧
    (ioThreadIterAt (fun _ => true) (fun _ => 0) true demoQueued)._ioQueue = [] ∧
    (ioThreadIterAt (fun _ => true) (fun _ => 0) false demoQueued).usbWrites =
      List.replicate 16 blankLine := by
  refine ⟨rfl, rfl, rfl, rfl, rfl, ?_⟩
  decide

/-! ## The same display payload twice -/

theorem processCmd_twice (ok : Nat → Bool) (t0 t1 : ℚ) (s : State) (c : IoCmd)
    (hc : c.type = IoCmdType.UsbBuffer) :
    (processCmd ok t1 (processCmd ok t0 s c) c).usbWrites =
      s.usbWrites ++
        (if c.payload ≠ s._sentFrame ∧
            (¬ t0 - s._lastUsbTs < 1 / 25 ∨ ¬ t1 - s._lastUsbTs < 1 / 25)
          then segment c.payload 63 0xf2 0 else []) := by
  by_cases heq : c.payload = s._sentFrame
  · rw [processCmd_usbBuffer_drop ok t0 s c hc (Or.inl heq),
      processCmd_usbBuffer_drop ok t1 s c hc (Or.inl heq),
      if_neg (fun h => h.1 heq), List.append_nil]
  · by_cases h0 : t0 - s._lastUsbTs < 1 / 25
    · rw [processCmd_usbBuffer_drop ok t0 s c hc (Or.inr h0)]
      by_cases h1 : t1 - s._lastUsbTs < 1 / 25
      · rw [processCmd_usbBuffer_drop ok t1 s c hc (Or.inr h1),
          if_neg (fun h => h.2.elim (fun g => g h0) (fun g => g h1)), List.append_nil]
      · rw [processCmd_usbBuffer_send ok t1 s c hc heq h1, if_pos ⟨heq, Or.inr h1⟩]
    · rw [processCmd_usbBuffer_send ok t0 s c hc heq h0,
        processCmd_usbBuffer_drop ok t1 _ c hc (Or.inl rfl), if_pos ⟨heq, Or.inl h0⟩]

theorem ioThreadIter_two (ok : Nat → Bool) (now : Nat → ℚ) (s : State) (P : List Nat)
    (hrun : s._ioRunning = true) (hq : s._ioQueue = []) :
    ioThreadIter ok now (qUsbBuffer (qUsbBuffer s P) P) =
      processCmd ok (now 1)
        (processCmd ok (now 0) s { type := IoCmdType.UsbBuffer, payload := P })
        { type := IoCmdType.UsbBuffer, payload := P } := by
  cases s
  dsimp only at hrun hq
  subst hrun hq
  rfl

/-- C10 (as the code behaves): with an empty queue and a running worker, enqueueing the same
DisplayFrame payload `P` twice in immediate succession and letting the worker process both
(at the times `now 0` and `now 1`) writes the segmentation of `P` at most once: exactly
once when `P` differs from the last-sent frame and at least one of the two commands is
processed no earlier than 1/25 s after the last send, and not at all otherwise. -/
theorem displayFrame_twice_at_most_once (ok : Nat → Bool) (now : Nat → ℚ) (s : State)
    (P : List Nat) (hrun : s._ioRunning = true) (hq : s._ioQueue = []) :
    (ioThreadIter ok now (qUsbBuffer (qUsbBuffer s P) P)).usbWrites =
      s.usbWrites ++
        (if P ≠ s._sentFrame ∧
            (¬ now 0 - s._lastUsbTs < 1 / 25 ∨ ¬ now 1 - s._lastUsbTs < 1 / 25)
          then segment P 63 0xf2 0 else []) := by
  rw [ioThreadIter_two ok now s P hrun hq]
  exact processCmd_twice ok (now 0) (now 1) s _ rfl

/-- Witness of C10 (as the code behaves): the payload `[1]` enqueued twice on `demoState`
(nothing sent yet) and processed at time 1 is written once. -/
theorem displayFrame_twice_at_most_once_witness :
    (ioThreadIter (fun _ => true) (fun _ => 1)
        (qUsbBuffer (qUsbBuffer demoState [1]) [1])).usbWrites =
      [242 :: 1 :: List.replicate 62 0] := by
  rw [displayFrame_twice_at_most_once (fun _ => true) (fun _ => 1) demoState [1] rfl rfl,
    if_pos ⟨by decide, Or.inl (by norm_num [demoState, init])⟩]
  decide

/-- Counterexample to C10 as stated: in `demoSent` the last-sent frame is `[1]`; the payload
`[1]` enqueued twice and processed at the times 2 and 3 is dropped both times, so the frame
sequence of `[1]` (one frame) is written zero times. -/
theorem displayFrame_twice_zero_transmissions :
    demoSent._ioRunning = true ∧ demoSent._ioQueue = [] ∧
    (segment [1] 63 0xf2 0).length = 1 ∧
    (ioThreadIter (fun _ => true) (fun k => 2 + k)
        (qUsbBuffer (qUsbBuffer demoSent [1]) [1])).usbWrites = demoSent.usbWrites := by
  have hsent : demoSent =
      { demoState with
        usbWrites := demoState.usbWrites ++ segment demoFrameCmd.payload 63 0xf2 0
        _sentFrame := demoFrameCmd.payload
        _lastUsbTs := 1 } :=
    processCmd_usbBuffer_send (fun _ => true) 1 demoState demoFrameCmd rfl (by decide)
      (by norm_num [demoState, init])
  have hrun : demoSent._ioRunning = true := by rw [hsent]; rfl
  have hq : demoSent._ioQueue = [] := by rw [hsent]; rfl
  have hf : demoSent._sentFrame = [1] := by rw [hsent]; rfl
  refine ⟨hrun, hq, by decide, ?_⟩
  rw [ioThreadIter_two _ _ demoSent [1] hrun hq, processCmd_twice _ _ _ demoSent _ rfl,
    if_neg (fun h => h.1 hf.symm), List.append_nil]

/-! ## Font upload guard -/

theorem setFont_skip (s : State) (font : List (List Nat)) (now : ℚ)
    (h : s.fontUpdatingEnabled = false ∨
      (s._fontEverSent = true ∧ (fnv1a32 font = s._fontCrc ∨ now - s._fontLastTs < 2))) :
    setFont s font now = s := by
  unfold setFont
  rcases h with h | ⟨hs, h | h⟩
  · simp [h]
  · simp [hs, h]
  · simp [hs, h]

theorem setFont_send (s : State) (font : List (List Nat)) (now : ℚ)
    (hen : s.fontUpdatingEnabled = true)
    (h : s._fontEverSent = false ∨ (fnv1a32 font ≠ s._fontCrc ∧ ¬ now - s._fontLastTs < 2)) :
    setFont s font now =
      { qUploadFont s font with
        _fontCrc := fnv1a32 font
        _fontEverSent := true
        _fontLastTs := now
        fontUpdatingEnabled := false } := by
  unfold setFont
  rcases h with h | ⟨h1, h2⟩
  · simp [hen, h]
  · simp only [hen, Bool.not_true, Bool.false_eq_true, if_false]
    rw [if_neg (fun g => h1 g.2), if_neg (fun g => h2 g.2)]

theorem demoFontSent_eq :
    demoFontSent =
      { qUploadFont demoState demoFontA with
        _fontCrc := fnv1a32 demoFontA
        _fontEverSent := true
        _fontLastTs := 0
        fontUpdatingEnabled := false } :=
  setFont_send demoState demoFontA 0 rfl (Or.inl rfl)

/-- C6 (as the code behaves): `setFont` enqueues an UploadFont command for the font exactly
when the one-shot flag `fontUpdatingEnabled` is set and either no font was sent before, or
the fingerprint differs from the last-sent fingerprint and at least 2.0 time units have
elapsed since the last font send; it then records fingerprint and time and clears the flag.
In every other case it enqueues nothing and leaves the state unchanged. -/
theorem setFont_sends_iff (s : State) (font : List (List Nat)) (now : ℚ) :
    ((s.fontUpdatingEnabled = true ∧
        (s._fontEverSent = false ∨
          (fnv1a32 font ≠ s._fontCrc ∧ ¬ now - s._fontLastTs < 2))) →
      setFont s font now =
        { qUploadFont s font with
          _fontCrc := fnv1a32 font
          _fontEverSent := true
          _fontLastTs := now
          fontUpdatingEnabled := false }) ∧
    (¬ (s.fontUpdatingEnabled = true ∧
        (s._fontEverSent = false ∨
          (fnv1a32 font ≠ s._fontCrc ∧ ¬ now - s._fontLastTs < 2))) →
      setFont s font now = s) := by
  refine ⟨fun h => setFont_send s font now h.1 h.2, fun h => setFont_skip s font now ?_⟩
  by_cases hen : s.fontUpdatingEnabled = true
  · right
    have h2 : ¬ (s._fontEverSent = false ∨
        (fnv1a32 font ≠ s._fontCrc ∧ ¬ now - s._fontLastTs < 2)) := fun g => h ⟨hen, g⟩
    have hs : s._fontEverSent = true := by
      cases hv : s._fontEverSent
      · exact absurd (Or.inl hv) h2
      · rfl
    refine ⟨hs, ?_⟩
    by_cases hc : fnv1a32 font = s._fontCrc
    · exact Or.inl hc
    · right
      by_contra hcool
      exact h2 (Or.inr ⟨hc, hcool⟩)
  · left
    cases hv : s.fontUpdatingEnabled
    · rfl
    · exact absurd hv hen

/-- Witness of C6 (as the code behaves): the first font on `demoState` is enqueued. -/
theorem setFont_sends_iff_witness :
    setFont demoState demoFontA 0 =
      { qUploadFont demoState demoFontA with
        _fontCrc := fnv1a32 demoFontA
        _fontEverSent := true
        _fontLastTs := 0
        fontUpdatingEnabled := false } :=
  (setFont_sends_iff demoState demoFontA 0).1 ⟨rfl, Or.inl rfl⟩

/-- Counterexample to C6 as stated: font A was enqueued at t = 0.  Font A again at t = 2.1
(at least 2.0 later) is not enqueued, neither with the one-shot flag as `setFont` left it nor
after the flag has been set again; and font B, whose fingerprint differs, is not enqueued at
t = 1 although the flag is set. -/
theorem setFont_resend_not_sent :
    demoFontSent._ioQueue = [{ type := IoCmdType.UploadFont, payloadChunks := demoFontA }] ∧
    ¬ ((21 / 10 : ℚ) - demoFontSent._fontLastTs < 2) ∧
    setFont demoFontSent demoFontA (21 / 10) = demoFontSent ∧
    setFont (allowFontUpdateOnce demoFontSent) demoFontA (21 / 10) =
      allowFontUpdateOnce demoFontSent ∧
    fnv1a32 demoFontB ≠ demoFontSent._fontCrc ∧
    setFont (allowFontUpdateOnce demoFontSent) demoFontB 1 =
      allowFontUpdateOnce demoFontSent := by
  have hts : demoFontSent._fontLastTs = 0 := by rw [demoFontSent_eq]
  have hcrc : demoFontSent._fontCrc = fnv1a32 demoFontA := by rw [demoFontSent_eq]
  have hs : demoFontSent._fontEverSent = true := by rw [demoFontSent_eq]
  have hen : demoFontSent.fontUpdatingEnabled = false := by rw [demoFontSent_eq]
  refine ⟨by rw [demoFontSent_eq]; rfl, by rw [hts]; norm_num, ?_, ?_, ?_, ?_⟩
  · exact setFont_skip _ _ _ (Or.inl hen)
  · exact setFont_skip _ _ _ (Or.inr ⟨hs, Or.inl hcrc.symm⟩)
  · rw [hcrc]; decide
  · refine setFont_skip _ _ _ (Or.inr ⟨hs, Or.inr ?_⟩)
    show (1 : ℚ) - demoFontSent._fontLastTs < 2
    rw [hts]; norm_num

/-- C7: when a font has been sent before, a `setFont` call with a font whose fingerprint
equals the last-sent fingerprint, made less than 2.0 time units after the last font send,
enqueues nothing and leaves the whole state (font fingerprint, send time and ever-sent flag
included) unchanged. -/
theorem setFont_same_font_in_cooldown (s : State) (font : List (List Nat)) (now : ℚ)
    (hsent : s._fontEverSent = true) (hcrc : fnv1a32 font = s._fontCrc)
    (_hcool : now - s._fontLastTs < 2) :
    setFont s font now = s :=
  setFont_skip s font now (Or.inr ⟨hsent, Or.inl hcrc⟩)

/-- Witness of C7: font A at t = 0, font A again at t = 1. -/
theorem setFont_same_font_in_cooldown_witness :
    setFont (setFont demoState demoFontA 0) demoFontA 1 = setFont demoState demoFontA 0 :=
  setFont_same_font_in_cooldown (setFont demoState demoFontA 0) demoFontA 1
    (by rw [← demoFontSent, demoFontSent_eq])
    (by rw [← demoFontSent, demoFontSent_eq])
    (by rw [← demoFontSent, demoFontSent_eq]; norm_num)

/-! ## Profile switch and font upload -/

theorem installProfile_font (s : State) (k : FMCProfileKind) :
    (installProfile s k).fontUpdatingEnabled = s.fontUpdatingEnabled ∧
    (installProfile s k)._fontEverSent = s._fontEverSent ∧
    (installProfile s k)._fontCrc = s._fontCrc ∧
    (installProfile s k)._fontLastTs = s._fontLastTs :=
  ⟨rfl, rfl, rfl, rfl⟩

/-- A profile selection sets the one-shot flag and leaves ever-sent flag, fingerprint and
send time as they were. -/
theorem setProfileForCurrentAircraft_font (isEligible : FMCProfileKind → Bool) (s : State) :
    (setProfileForCurrentAircraft isEligible s).fontUpdatingEnabled = true ∧
    (setProfileForCurrentAircraft isEligible s)._fontEverSent = s._fontEverSent ∧
    (setProfileForCurrentAircraft isEligible s)._fontCrc = s._fontCrc ∧
    (setProfileForCurrentAircraft isEligible s)._fontLastTs = s._fontLastTs := by
  unfold setProfileForCurrentAircraft
  simp only []
  split_ifs <;> exact ⟨rfl, rfl, rfl, rfl⟩

/-- Unloading a loaded profile sets the one-shot flag and leaves ever-sent flag, fingerprint
and send time as they were. -/
theorem unloadProfile_font (s : State) (hp : s.profile ≠ none) :
    (unloadProfile s).fontUpdatingEnabled = true ∧
    (unloadProfile s)._fontEverSent = s._fontEverSent ∧
    (unloadProfile s)._fontCrc = s._fontCrc ∧
    (unloadProfile s)._fontLastTs = s._fontLastTs := by
  unfold unloadProfile
  cases hprof : s.profile with
  | none => exact absurd hprof hp
  | some k => simp [hprof, allowFontUpdateOnce]

theorem setFont_after_switch_aux (s sw : State) (font : List (List Nat)) (now : ℚ)
    (hsent : s._fontEverSent = true)
    (hsw : sw.fontUpdatingEnabled = true ∧ sw._fontEverSent = s._fontEverSent ∧
      sw._fontCrc = s._fontCrc ∧ sw._fontLastTs = s._fontLastTs) :
    sw.fontUpdatingEnabled = true ∧
    ((fnv1a32 font ≠ s._fontCrc ∧ ¬ now - s._fontLastTs < 2) →
      (setFont sw font now)._ioQueue =
          sw._ioQueue ++ [{ type := IoCmdType.UploadFont, payloadChunks := font }] ∧
        (setFont sw font now).fontUpdatingEnabled = false) ∧
    ((fnv1a32 font = s._fontCrc ∨ now - s._fontLastTs < 2) → setFont sw font now = sw) := by
  obtain ⟨h1, h2, h3, h4⟩ := hsw
  refine ⟨h1, ?_, ?_⟩
  · intro h
    rw [setFont_send sw font now h1 (Or.inr (by rw [h3, h4]; exact h))]
    exact ⟨rfl, rfl⟩
  · intro h
    exact setFont_skip sw font now (Or.inr ⟨by rw [h2, hsent], by rw [h3, h4]; exact h⟩)

/-- C8 (as the code behaves): a profile switch (`setProfileForCurrentAircraft`, or
`unloadProfile` of a loaded profile) made while the font-sent flag is true sets the one-shot
flag but keeps the font-sent flag, the last fingerprint and the last send time.  The next
`setFont` call enqueues exactly one UploadFont command (and clears the one-shot flag) when
the font's fingerprint differs from the last-sent fingerprint and at least 2.0 time units
have elapsed since the last font send; when the fingerprint equals the last-sent one or
less than 2.0 time units have elapsed it enqueues nothing and leaves the state unchanged,
the one-shot flag still set. -/
theorem setFont_after_profile_switch (isEligible : FMCProfileKind → Bool) (s sw : State)
    (font : List (List Nat)) (now : ℚ) (hsent : s._fontEverSent = true)
    (hsw : sw = setProfileForCurrentAircraft isEligible s ∨
      (s.profile ≠ none ∧ sw = unloadProfile s)) :
    sw.fontUpdatingEnabled = true ∧
    ((fnv1a32 font ≠ s._fontCrc ∧ ¬ now - s._fontLastTs < 2) →
      (setFont sw font now)._ioQueue =
          sw._ioQueue ++ [{ type := IoCmdType.UploadFont, payloadChunks := font }] ∧
        (setFont sw font now).fontUpdatingEnabled = false) ∧
    ((fnv1a32 font = s._fontCrc ∨ now - s._fontLastTs < 2) → setFont sw font now = sw) := by
  rcases hsw with h | ⟨hp, h⟩
  · subst h
    exact setFont_after_switch_aux s _ font now hsent
      (setProfileForCurrentAircraft_font isEligible s)
  · subst h
    exact setFont_after_switch_aux s _ font now hsent (unloadProfile_font s hp)

/-- Witness of C8 (as the code behaves): font A was enqueued at t = 0 under the Toliss
profile, the Zibo profile is selected, font B is offered at t = 3: it is enqueued behind the
first upload and the ClearScreen of the switch. -/
theorem setFont_after_profile_switch_witness :
    (setFont (setProfileForCurrentAircraft onlyZibo demoFontSent) demoFontB 3)._ioQueue =
      [{ type := IoCmdType.UploadFont, payloadChunks := demoFontA },
       { type := IoCmdType.ClearScreen },
       { type := IoCmdType.UploadFont, payloadChunks := demoFontB }] := by
  have hcrc : demoFontSent._fontCrc = fnv1a32 demoFontA := by rw [demoFontSent_eq]
  have hts : demoFontSent._fontLastTs = 0 := by rw [demoFontSent_eq]
  have h := (setFont_after_profile_switch onlyZibo demoFontSent
    (setProfileForCurrentAircraft onlyZibo demoFontSent) demoFontB 3
    (by rw [demoFontSent_eq]) (Or.inl rfl)).2.1
    ⟨by rw [hcrc]; decide, by rw [hts]; norm_num⟩
  rw [h.1, demoFontSent_eq]
  rfl

/-- Counterexample to C8 as stated: font A was enqueued at t = 0 (font-sent flag true).
After a profile switch, by selection of the Zibo profile or by unloading the Toliss profile,
`setFont` with the same font A at t = 100 enqueues nothing; and after the selection a font B
with another fingerprint offered at t = 1 is not enqueued either. -/
theorem setFont_after_switch_not_sent :
    demoFontSent._fontEverSent = true ∧ demoFontSent.profile ≠ none ∧
    setFont (setProfileForCurrentAircraft onlyZibo demoFontSent) demoFontA 100 =
      setProfileForCurrentAircraft onlyZibo demoFontSent ∧
    setFont (unloadProfile demoFontSent) demoFontA 100 = unloadProfile demoFontSent ∧
    fnv1a32 demoFontB ≠ demoFontSent._fontCrc ∧
    setFont (setProfileForCurrentAircraft onlyZibo demoFontSent) demoFontB 1 =
      setProfileForCurrentAircraft onlyZibo demoFontSent := by
  have hs : demoFontSent._fontEverSent = true := by rw [demoFontSent_eq]
  have hp : demoFontSent.profile ≠ none := by rw [demoFontSent_eq]; decide
  have hcrc : demoFontSent._fontCrc = fnv1a32 demoFontA := by rw [demoFontSent_eq]
  have hts : demoFontSent._fontLastTs = 0 := by rw [demoFontSent_eq]
  have a1 := setFont_after_switch_aux demoFontSent _ demoFontA 100 hs
    (setProfileForCurrentAircraft_font onlyZibo demoFontSent)
  have a2 := setFont_after_switch_aux demoFontSent _ demoFontA 100 hs
    (unloadProfile_font demoFontSent hp)
  have a3 := setFont_after_switch_aux demoFontSent _ demoFontB 1 hs
    (setProfileForCurrentAircraft_font onlyZibo demoFontSent)
  refine ⟨hs, hp, a1.2.2 (Or.inl hcrc.symm), a2.2.2 (Or.inl hcrc.symm), ?_, a3.2.2 (Or.inr ?_)⟩
  · rw [hcrc]; decide
  · rw [hts]; norm_num

/-! ## Button edge detector: transitions and balance -/

theorem pressed_eq_snapshotBit (lo hi i : Nat) :
    (if i < 64 then ((lo >>> i) &&& 1) != 0 else ((hi >>> (i - 64)) &&& 1) != 0) =
      snapshotBit lo hi i := by
  unfold snapshotBit Nat.testBit
  split <;> rw [Nat.land_comm]

theorem buttonStep_begin (lo hi : Nat) (s : State) (i : Nat)
    (hb : snapshotBit lo hi i = true) (hm : i ∉ s.pressedButtonIndices) :
    buttonStep lo hi s i =
      { s with
        pressedButtonIndices := insert i s.pressedButtonIndices
        buttonEvents := s.buttonEvents ++ [(i, XPLMCommandPhase.xplm_CommandBegin)] } := by
  unfold buttonStep
  rw [pressed_eq_snapshotBit, hb]
  simp [hm]

theorem buttonStep_continue (lo hi : Nat) (s : State) (i : Nat)
    (hb : snapshotBit lo hi i = true) (hm : i ∈ s.pressedButtonIndices) :
    buttonStep lo hi s i =
      { s with
        buttonEvents := s.buttonEvents ++ [(i, XPLMCommandPhase.xplm_CommandContinue)] } := by
  unfold buttonStep
  rw [pressed_eq_snapshotBit, hb]
  simp [hm]

theorem buttonStep_end (lo hi : Nat) (s : State) (i : Nat)
    (hb : snapshotBit lo hi i = false) (hm : i ∈ s.pressedButtonIndices) :
    buttonStep lo hi s i =
      { s with
        pressedButtonIndices := s.pressedButtonIndices.erase i
        buttonEvents := s.buttonEvents ++ [(i, XPLMCommandPhase.xplm_CommandEnd)] } := by
  unfold buttonStep
  rw [pressed_eq_snapshotBit, hb]
  simp [hm]

theorem buttonStep_none (lo hi : Nat) (s : State) (i : Nat)
    (hb : snapshotBit lo hi i = false) (hm : i ∉ s.pressedButtonIndices) :
    buttonStep lo hi s i = s := by
  unfold buttonStep
  rw [pressed_eq_snapshotBit, hb]
  simp [hm]

/-- One loop iteration appends the event of the transition table, if any. -/
theorem buttonStep_events (lo hi : Nat) (s : State) (i : Nat) :
    (buttonStep lo hi s i).buttonEvents =
      s.buttonEvents ++ (tableEvent s.pressedButtonIndices lo hi i).toList := by
  cases hb : snapshotBit lo hi i <;> by_cases hm : i ∈ s.pressedButtonIndices
  · rw [buttonStep_end lo hi s i hb hm]; simp [tableEvent, transition, hb, hm]
  · rw [buttonStep_none lo hi s i hb hm]; simp [tableEvent, transition, hb, hm]
  · rw [buttonStep_continue lo hi s i hb hm]; simp [tableEvent, transition, hb, hm]
  · rw [buttonStep_begin lo hi s i hb hm]; simp [tableEvent, transition, hb, hm]

/-- After the iteration for index `i`, `i` is in the pressed set exactly when its bit is set;
the membership of every other index is unchanged. -/
theorem buttonStep_mem (lo hi : Nat) (s : State) (i j : Nat) :
    j ∈ (buttonStep lo hi s i).pressedButtonIndices ↔
      (if j = i then snapshotBit lo hi i = true else j ∈ s.pressedButtonIndices) := by
  cases hb : snapshotBit lo hi i <;> by_cases hm : i ∈ s.pressedButtonIndices <;>
    by_cases hj : j = i
  all_goals
    first
      | rw [buttonStep_end lo hi s i hb hm]
      | rw [buttonStep_none lo hi s i hb hm]
      | rw [buttonStep_continue lo hi s i hb hm]
      | rw [buttonStep_begin lo hi s i hb hm]
  all_goals simp [hj, hm]


theorem foldl_buttonStep_mem (lo hi : Nat) (l : List Nat) :
    ∀ (s : State) (j : Nat),
      j ∈ (l.foldl (buttonStep lo hi) s).pressedButtonIndices ↔
        (if j ∈ l then snapshotBit lo hi j = true else j ∈ s.pressedButtonIndices) := by
  induction l with
  | nil => intro s j; simp
  | cons i l ih =>
    intro s j
    rw [List.foldl_cons, ih, buttonStep_mem]
    by_cases hjl : j ∈ l <;> by_cases hji : j = i <;> simp [hjl, hji]

theorem foldl_buttonStep_events (lo hi : Nat) (l : List Nat) :
    ∀ s : State, l.Nodup →
      (l.foldl (buttonStep lo hi) s).buttonEvents =
        s.buttonEvents ++ l.filterMap (tableEvent s.pressedButtonIndices lo hi) := by
  induction l with
  | nil => intro s _; simp
  | cons i l ih =>
    intro s hnd
    have hi_notin : i ∉ l := (List.nodup_cons.mp hnd).1
    have hcongr : l.filterMap (tableEvent (buttonStep lo hi s i).pressedButtonIndices lo hi) =
        l.filterMap (tableEvent s.pressedButtonIndices lo hi) := by
      apply List.filterMap_congr
      intro j hj
      have hji : j ≠ i := fun h => hi_notin (h ▸ hj)
      have hmem := buttonStep_mem lo hi s i j
      rw [if_neg hji] at hmem
      unfold tableEvent
      rw [decide_eq_decide.mpr hmem]
    rw [List.foldl_cons, ih _ (List.nodup_cons.mp hnd).2, buttonStep_events, hcongr,
      List.filterMap_cons]
    cases tableEvent s.pressedButtonIndices lo hi i <;> simp

theorem foldl_buttonStep_frame (lo hi : Nat) (l : List Nat) :
    ∀ s : State,
      (l.foldl (buttonStep lo hi) s).lastButtonStateLo = s.lastButtonStateLo ∧
      (l.foldl (buttonStep lo hi) s).lastButtonStateHi = s.lastButtonStateHi := by
  induction l with
  | nil => intro s; simp
  | cons i l ih =>
    intro s
    rw [List.foldl_cons]
    refine ⟨(ih _).1.trans ?_, (ih _).2.trans ?_⟩ <;>
    · cases hb : snapshotBit lo hi i <;> by_cases hm : i ∈ s.pressedButtonIndices
      · rw [buttonStep_end lo hi s i hb hm]
      · rw [buttonStep_none lo hi s i hb hm]
      · rw [buttonStep_continue lo hi s i hb hm]
      · rw [buttonStep_begin lo hi s i hb hm]

/-- C2: for every stored button state and every new snapshot that differs from the stored
one, the events derived are, for the indices 0..95 in ascending order, exactly those of the
transition table evaluated against the pressed set before the report (Begin, Continue, End or
none), and afterwards the pressed set is the old set plus every Begin index minus every End
index; `didReceiveData` performs this step on the snapshot decoded from an accepted report. -/
theorem applySnapshot_transitions (s : State) (lo hi : Nat)
    (hdiff : ¬ (lo = s.lastButtonStateLo ∧ hi = s.lastButtonStateHi)) :
    (applySnapshot s lo hi).buttonEvents =
      s.buttonEvents ++ (List.range 96).filterMap (tableEvent s.pressedButtonIndices lo hi) ∧
    (applySnapshot s lo hi).pressedButtonIndices =
      (s.pressedButtonIndices ∪
          (Finset.range 96).filter (fun i =>
            tableEvent s.pressedButtonIndices lo hi i =
              some (i, XPLMCommandPhase.xplm_CommandBegin))) \
        (Finset.range 96).filter (fun i =>
          tableEvent s.pressedButtonIndices lo hi i =
            some (i, XPLMCommandPhase.xplm_CommandEnd)) ∧
    ∀ report : List Nat, s.connected = true → s.profile ≠ none → 13 ≤ report.length →
      decodeLo report = lo → decodeHi report = hi →
      didReceiveData s 1 report = applySnapshot s lo hi := by
  refine ⟨?_, ?_, ?_⟩
  · unfold applySnapshot
    rw [if_neg hdiff]
    exact foldl_buttonStep_events lo hi (List.range 96) _ (List.nodup_range 96)
  · unfold applySnapshot
    rw [if_neg hdiff]
    ext j
    rw [foldl_buttonStep_mem]
    simp only [List.mem_range, Finset.mem_sdiff, Finset.mem_union, Finset.mem_filter,
      Finset.mem_range, tableEvent, transition]
    by_cases hj : j < 96 <;> cases hb : snapshotBit lo hi j <;>
      by_cases hm : j ∈ s.pressedButtonIndices <;> simp [hj, hb, hm]
  · intro report hc hp hlen hlo hhi
    unfold didReceiveData
    cases hprof : s.profile with
    | none => exact absurd hprof hp
    | some k =>
      have h0 : report.length ≠ 0 := by omega
      have h13 : ¬ report.length < 13 := by omega
      simp [hc, h0, h13, hlo, hhi]


set_option maxRecDepth 100000

/-- Witness of C2: button 0 goes down on `demoState`; the only event is Begin for index 0. -/
theorem applySnapshot_transitions_witness :
    (applySnapshot demoState 1 0).buttonEvents = [(0, XPLMCommandPhase.xplm_CommandBegin)] := by
  rw [(applySnapshot_transitions demoState 1 0 (by decide)).1]
  decide

theorem buttonStep_balanced (lo hi : Nat) (s : State) (i : Nat) (h : beginEndBalanced s) :
    beginEndBalanced (buttonStep lo hi s i) := by
  intro j
  have hj := h j
  cases hb : snapshotBit lo hi i <;> by_cases hm : i ∈ s.pressedButtonIndices
  · rw [buttonStep_end lo hi s i hb hm]
    by_cases hji : j = i
    · subst hji
      simp [List.count_append, hm] at hj ⊢
      omega
    · have hne : ¬ i = j := fun g => hji g.symm
      simp [List.count_append, hji, hne] at hj ⊢
      exact hj
  · rw [buttonStep_none lo hi s i hb hm]
    exact hj
  · rw [buttonStep_continue lo hi s i hb hm]
    simp [List.count_append] at hj ⊢
    exact hj
  · rw [buttonStep_begin lo hi s i hb hm]
    by_cases hji : j = i
    · subst hji
      simp [List.count_append, hm] at hj ⊢
      omega
    · have hne : ¬ i = j := fun g => hji g.symm
      simp [List.count_append, hji, hne] at hj ⊢
      exact hj

theorem foldl_buttonStep_balanced (lo hi : Nat) (l : List Nat) :
    ∀ s : State, beginEndBalanced s → beginEndBalanced (l.foldl (buttonStep lo hi) s) := by
  induction l with
  | nil => intro s h; exact h
  | cons i l ih => intro s h; exact ih _ (buttonStep_balanced lo hi s i h)

theorem didReceiveData_balanced (s : State) (reportId : Int) (report : List Nat)
    (h : beginEndBalanced s) : beginEndBalanced (didReceiveData s reportId report) := by
  unfold didReceiveData
  split
  · exact h
  · split
    · exact h
    · unfold applySnapshot
      split
      · exact h
      · exact foldl_buttonStep_balanced _ _ _ _ h

theorem runReports_balanced (reports : List (Int × List Nat)) :
    ∀ s : State, beginEndBalanced s → beginEndBalanced (runReports s reports) := by
  induction reports with
  | nil => intro s h; exact h
  | cons r rs ih =>
    intro s h
    exact ih _ (didReceiveData_balanced s r.1 r.2 h)

/-- C3: for every sequence of input reports processed from an initial button state (stored
snapshot all zero, pressed set empty, no event derived yet) and every index `i` below 96: if
`i` is not in the pressed set after the sequence, the number of Begin events derived for `i`
equals the number of End events derived for `i`.  Every point of a run is the end of a
sequence, so this holds at any point. -/
theorem begin_end_balance (s0 : State) (reports : List (Int × List Nat)) (i : Nat)
    (_hlo : s0.lastButtonStateLo = 0) (_hhi : s0.lastButtonStateHi = 0)
    (hset : s0.pressedButtonIndices = ∅) (hev : s0.buttonEvents = [])
    (_hi : i < 96) (hrel : i ∉ (runReports s0 reports).pressedButtonIndices) :
    List.count (i, XPLMCommandPhase.xplm_CommandBegin) (runReports s0 reports).buttonEvents =
      List.count (i, XPLMCommandPhase.xplm_CommandEnd) (runReports s0 reports).buttonEvents := by
  have h0 : beginEndBalanced s0 := by
    intro j
    simp [hset, hev]
  have h := runReports_balanced reports s0 h0 i
  rw [if_neg hrel] at h
  exact h

/-- Witness of C3: button 0 is pressed and released; one Begin and one End were derived. -/
theorem begin_end_balance_witness :
    List.count (0, XPLMCommandPhase.xplm_CommandBegin)
        (runReports demoState [(1, reportButton0), (1, reportNone)]).buttonEvents =
      List.count (0, XPLMCommandPhase.xplm_CommandEnd)
        (runReports demoState [(1, reportButton0), (1, reportNone)]).buttonEvents :=
  begin_end_balance demoState [(1, reportButton0), (1, reportNone)] 0 rfl rfl rfl rfl
    (by decide) (by decide)

/-- The scenario of the specification: snapshot low = 1 derives Begin for index 0, the same
snapshot again derives nothing, snapshot low = 0 derives End for index 0. -/
theorem scenario_press_hold_release :
    (runReports demoState [(1, reportButton0)]).buttonEvents =
      [(0, XPLMCommandPhase.xplm_CommandBegin)] ∧
    (runReports demoState [(1, reportButton0), (1, reportButton0)]).buttonEvents =
      [(0, XPLMCommandPhase.xplm_CommandBegin)] ∧
    (runReports demoState [(1, reportButton0), (1, reportButton0), (1, reportNone)]).buttonEvents =
      [(0, XPLMCommandPhase.xplm_CommandBegin), (0, XPLMCommandPhase.xplm_CommandEnd)] := by
  decide


/-! ## Identical snapshot -/

/-- C13: if the snapshot decoded from a report is bit-identical to the stored snapshot (low
and high masks both equal), `didReceiveData` returns the state unchanged: no event is derived
(not even Continue for held buttons) and the stored snapshot and the pressed-index set stay
as they were.  The same holds for the snapshot step on its own. -/
theorem didReceiveData_identical_snapshot (s : State) (reportId : Int) (report : List Nat)
    (hlo : decodeLo report = s.lastButtonStateLo)
    (hhi : decodeHi report = s.lastButtonStateHi) :
    didReceiveData s reportId report = s ∧
    applySnapshot s s.lastButtonStateLo s.lastButtonStateHi = s := by
  constructor
  · unfold didReceiveData
    split
    · rfl
    · split
      · rfl
      · unfold applySnapshot
        rw [if_pos ⟨hlo, hhi⟩]
  · unfold applySnapshot
    rw [if_pos ⟨rfl, rfl⟩]

/-- Witness of C13: button 0 is held and the same report arrives again. -/
theorem didReceiveData_identical_snapshot_witness :
    didReceiveData (didReceiveData demoState 1 reportButton0) 1 reportButton0 =
      didReceiveData demoState 1 reportButton0 :=
  (didReceiveData_identical_snapshot (didReceiveData demoState 1 reportButton0) 1
    reportButton0 (by decide) (by decide)).1

/-! ## Frame count and frame layout -/

theorem segment_length (P : List Nat) (h p : Nat) :
    (segment P 63 h p).length = (P.length + 62) / 63 := by
  simp [segment]

theorem usbBufferLoop_written (ok : Nat → Bool) (s : State) (P : List Nat) :
    (usbBufferLoop ok P.length s P).usbWrites.drop s.usbWrites.length =
      segment P 63 0xf2 0 := by
  rw [usbBufferLoop_eq ok P.length s P (Nat.le_refl _)]
  simp only [List.drop_left]

/-- C14: for every byte sequence `P` the segmentation loop hands exactly `ceil(len(P)/63)`
frames to the transport (the number `n` with `63 (n - 1) < len(P) <= 63 n`); the empty
payload produces no frame; and the loop terminates: `len(P)` iterations exhaust the buffer,
any larger iteration bound gives the same result. -/
theorem usbBufferLoop_frame_count (ok : Nat → Bool) (s : State) (P : List Nat) :
    ((usbBufferLoop ok P.length s P).usbWrites.drop s.usbWrites.length).length =
      (P.length + 62) / 63 ∧
    (P.length ≤ 63 * ((P.length + 62) / 63) ∧ 63 * ((P.length + 62) / 63) < P.length + 63) ∧
    (∀ fuel : Nat, usbBufferLoop ok fuel s [] = s) ∧
    ∀ fuel : Nat, P.length ≤ fuel →
      usbBufferLoop ok fuel s P = usbBufferLoop ok P.length s P := by
  refine ⟨?_, ⟨by omega, by omega⟩, ?_, ?_⟩
  · rw [usbBufferLoop_written, segment_length]
  · intro fuel
    cases fuel <;> simp [usbBufferLoop]
  · intro fuel hfuel
    rw [usbBufferLoop_eq ok fuel s P hfuel, usbBufferLoop_eq ok P.length s P (Nat.le_refl _)]

/-- Witness of C14: a 70-byte payload gives two frames, with 70 or with 100 iterations
allowed. -/
theorem usbBufferLoop_frame_count_witness :
    usbBufferLoop (fun _ => true) 100 demoState (List.range 70) =
      usbBufferLoop (fun _ => true) (List.range 70).length demoState (List.range 70) :=
  (usbBufferLoop_frame_count (fun _ => true) demoState (List.range 70)).2.2.2 100
    (by decide)

theorem segment_getElem_at (P : List Nat) (h p j : Nat) (hj : j < (segment P 63 h p).length) :
    (segment P 63 h p)[j]? =
      some (h :: (P.drop (j * 63)).take 63 ++
        List.replicate (63 - ((P.drop (j * 63)).take 63).length) p) := by
  rw [segment_length] at hj
  simp [segment, List.getElem?_range, hj]

/-- C15: every frame the segmentation loop hands to the transport is exactly 64 bytes long
and starts with `0xF2`; every frame but the last is `0xF2` followed by exactly 63 payload
bytes (the next 63 of the payload, in order), and the last frame is `0xF2`, all remaining
payload bytes, then only `0x00` bytes. -/
theorem usbBufferLoop_frame_layout (ok : Nat → Bool) (s : State) (P : List Nat) :
    (∀ f ∈ (usbBufferLoop ok P.length s P).usbWrites.drop s.usbWrites.length,
      f.length = 64 ∧ f.head? = some 0xf2) ∧
    (∀ j : Nat,
      j + 1 < ((usbBufferLoop ok P.length s P).usbWrites.drop s.usbWrites.length).length →
      ((usbBufferLoop ok P.length s P).usbWrites.drop s.usbWrites.length)[j]? =
          some (0xf2 :: (P.drop (j * 63)).take 63) ∧
        ((P.drop (j * 63)).take 63).length = 63) ∧
    (∀ j : Nat,
      j + 1 = ((usbBufferLoop ok P.length s P).usbWrites.drop s.usbWrites.length).length →
      ((usbBufferLoop ok P.length s P).usbWrites.drop s.usbWrites.length)[j]? =
          some (0xf2 :: P.drop (j * 63) ++ List.replicate (63 - (P.length - j * 63)) 0) ∧
        0 < P.length - j * 63 ∧ P.length - j * 63 ≤ 63) := by
  rw [usbBufferLoop_written]
  refine ⟨?_, ?_, ?_⟩
  · intro f hf
    simp only [segment, List.mem_map, List.mem_range] at hf
    obtain ⟨j, _, rfl⟩ := hf
    simp only [List.length_cons, List.length_append, List.length_take, List.length_drop,
      List.length_replicate, List.head?_cons, List.cons_append]
    exact ⟨by omega, trivial⟩
  · intro j hj
    have hlen := segment_length P 0xf2 0
    rw [hlen] at hj
    have hl : ((P.drop (j * 63)).take 63).length = 63 := by
      rw [List.length_take, List.length_drop]; omega
    rw [segment_getElem_at P _ _ j (by rw [hlen]; omega), hl]
    simp [hl]
  · intro j hj
    have hlen := segment_length P 0xf2 0
    rw [hlen] at hj
    have hle : (P.drop (j * 63)).length ≤ 63 := by rw [List.length_drop]; omega
    have ht : (P.drop (j * 63)).take 63 = P.drop (j * 63) := List.take_of_length_le hle
    rw [segment_getElem_at P _ _ j (by rw [hlen]; omega), ht, List.length_drop]
    exact ⟨rfl, by omega, by omega⟩

/-- Witness of C15: the two frames of a 70-byte payload. -/
theorem usbBufferLoop_frame_layout_witness :
    ((usbBufferLoop (fun _ => true) (List.range 70).length demoState
        (List.range 70)).usbWrites.drop demoState.usbWrites.length)[0]? =
      some (0xf2 :: ((List.range 70).drop (0 * 63)).take 63) ∧
    (((List.range 70).drop (0 * 63)).take 63).length = 63 :=
  (usbBufferLoop_frame_layout (fun _ => true) demoState (List.range 70)).2.1 0 (by decide)


/-! ## Page buffer writes -/

theorem setCell_dims (page : List (List Nat)) (line k v : Nat) :
    (setCell page line k v).map List.length = page.map List.length := by
  unfold setCell
  apply List.ext_getElem?
  intro n
  simp only [List.getElem?_map, List.getElem?_set]
  by_cases hn : line = n
  · subst hn
    by_cases hl : line < page.length
    · simp [hl, List.getD_eq_getElem?_getD, List.getElem?_eq_getElem hl]
    · simp [hl, List.getElem?_eq_none (Nat.le_of_not_lt hl)]
  · simp [hn]

theorem writeChar_dims (line pos : Nat) (text : List Nat) (color : Nat) (fontSmall : Bool)
    (page : List (List Nat)) (c : Nat) :
    (writeChar line pos text color fontSmall page c).map List.length =
      page.map List.length := by
  unfold writeChar
  simp only [setCell_dims]

theorem foldl_writeChar_dims (line pos : Nat) (text : List Nat) (color : Nat)
    (fontSmall : Bool) (l : List Nat) :
    ∀ page : List (List Nat),
      (l.foldl (writeChar line pos text color fontSmall) page).map List.length =
        page.map List.length := by
  induction l with
  | nil => intro page; rfl
  | cons c l ih => intro page; rw [List.foldl_cons, ih, writeChar_dims]

theorem writeLineToPage_dims (page : List (List Nat)) (line pos : Int) (text : List Nat)
    (color : Nat) (fontSmall : Bool) :
    (writeLineToPage page line pos text color fontSmall).map List.length =
      page.map List.length := by
  unfold writeLineToPage
  split
  · rfl
  · split
    · rfl
    · split
      · rfl
      · exact foldl_writeChar_dims _ _ _ _ _ _ _

/-- C16: for every page buffer, line, pos, text, color and font flag: if `line` is outside
`[0, 14)`, or `pos` is negative, or `pos + len(text)` exceeds 24, `writeLineToPage` returns
the page buffer unchanged; and in every case the number of rows and the length of every row
are kept, so a grid of 14 rows of 72 bytes stays a grid of 14 rows of 72 bytes. -/
theorem writeLineToPage_rejects (page : List (List Nat)) (line pos : Int) (text : List Nat)
    (color : Nat) (fontSmall : Bool) :
    ((line < 0 ∨ 14 ≤ line ∨ pos < 0 ∨ 24 < pos + (text.length : Int)) →
      writeLineToPage page line pos text color fontSmall = page) ∧
    (writeLineToPage page line pos text color fontSmall).map List.length =
      page.map List.length ∧
    ((page.length = 14 ∧ ∀ row ∈ page, row.length = 72) →
      (writeLineToPage page line pos text color fontSmall).length = 14 ∧
      ∀ row ∈ writeLineToPage page line pos text color fontSmall, row.length = 72) := by
  have hd := writeLineToPage_dims page line pos text color fontSmall
  refine ⟨?_, hd, ?_⟩
  · intro h
    unfold writeLineToPage
    simp only [PageLines, PageCharsPerLine]
    by_cases h1 : line < 0 ∨ line ≥ ((14 : Nat) : Int)
    · rw [if_pos h1]
    · rw [if_neg h1]
      have h2 : pos < 0 ∨ pos + (text.length : Int) > ((24 : Nat) : Int) := by
        rcases h with h | h | h | h
        · exact absurd (Or.inl h) h1
        · exact absurd (Or.inr (by exact_mod_cast h)) h1
        · exact Or.inl h
        · exact Or.inr (by exact_mod_cast h)
      rw [if_pos h2]
  · rintro ⟨hrows, hcols⟩
    have hlen : (writeLineToPage page line pos text color fontSmall).length = 14 := by
      have := congrArg List.length hd
      simpa [hrows] using this
    refine ⟨hlen, ?_⟩
    intro row hrow
    have hmem : row.length ∈ (writeLineToPage page line pos text color fontSmall).map
        List.length := List.mem_map.mpr ⟨row, hrow, rfl⟩
    rw [hd] at hmem
    obtain ⟨r, hr, hrl⟩ := List.mem_map.mp hmem
    rw [← hrl]
    exact hcols r hr

/-- Witness of C16: a write to line 14 is rejected. -/
theorem writeLineToPage_rejects_witness :
    writeLineToPage demoState.page 14 0 [72, 73] 0x77 false = demoState.page :=
  (writeLineToPage_rejects demoState.page 14 0 [72, 73] 0x77 false).1
    (Or.inr (Or.inl (by decide)))

/-! ## LED commands -/

/-- C18: `setLedBrightness` returns the state unchanged (nothing is enqueued) exactly when the
LED id is above `OVERALL_LEDS_BRIGHTNESS` and either the hardware is the MCDU and the id lies
in `[_PFP_START, _PFP_END]`, or the hardware is not the MCDU and the id lies in
`[_MCDU_START, _MCDU_END]`; for every other LED id (a byte) and every brightness it appends
exactly one `SetLedBrightness` command carrying that id and that brightness. -/
theorem setLedBrightness_noop_iff (ids : FMCLedIds) (s : State) (led brightness : Nat)
    (hled : led < 256) :
    ((ids.OVERALL_LEDS_BRIGHTNESS < led ∧
        ((s.hardwareType = FMCHardwareType.HARDWARE_MCDU ∧
            ids._PFP_START ≤ led ∧ led ≤ ids._PFP_END) ∨
          (s.hardwareType ≠ FMCHardwareType.HARDWARE_MCDU ∧
            ids._MCDU_START ≤ led ∧ led ≤ ids._MCDU_END))) →
      setLedBrightness ids s led brightness = s) ∧
    (¬ (ids.OVERALL_LEDS_BRIGHTNESS < led ∧
        ((s.hardwareType = FMCHardwareType.HARDWARE_MCDU ∧
            ids._PFP_START ≤ led ∧ led ≤ ids._PFP_END) ∨
          (s.hardwareType ≠ FMCHardwareType.HARDWARE_MCDU ∧
            ids._MCDU_START ≤ led ∧ led ≤ ids._MCDU_END))) →
      setLedBrightness ids s led brightness =
        { s with
          _ioQueue := s._ioQueue ++
            [{ type := IoCmdType.SetLedBrightness, a := led, b := brightness }] }) := by
  constructor
  · rintro ⟨h0, h | h⟩
    · unfold setLedBrightness
      rw [if_pos ⟨h0, h.1, h.2.1, h.2.2⟩]
    · unfold setLedBrightness
      rw [if_neg (fun g => h.1 g.2.1), if_pos ⟨h0, h.1, h.2.1, h.2.2⟩]
  · intro h
    unfold setLedBrightness
    rw [if_neg (fun g => h ⟨g.1, Or.inl ⟨g.2.1, g.2.2.1, g.2.2.2⟩⟩),
      if_neg (fun g => h ⟨g.1, Or.inr ⟨g.2.1, g.2.2.1, g.2.2.2⟩⟩)]
    simp [qLed, qEnqueue, Nat.mod_eq_of_lt hled]

/-- Witness of C18: on the MCDU `demoState`, LED id 8 (in the example MCDU range) at
brightness 1 is enqueued. -/
theorem setLedBrightness_noop_iff_witness :
    setLedBrightness demoLedIds demoState 8 1 =
      { demoState with
        _ioQueue := demoState._ioQueue ++
          [{ type := IoCmdType.SetLedBrightness, a := 8, b := 1 }] } :=
  (setLedBrightness_noop_iff demoLedIds demoState 8 1 (by decide)).2 (by decide)

/-! ## Profile priority -/

theorem find_first_of_split {α : Type} (p : α → Bool) (k : α) (post : List α) :
    ∀ pre : List α, (∀ j ∈ pre, p j = false) → p k = true →
      (pre ++ k :: post).find? p = some k := by
  intro pre
  induction pre with
  | nil => intro _ hk; simp [List.find?, hk]
  | cons a pre ih =>
    intro hpre hk
    have ha : p a = false := hpre a (List.mem_cons_self _ _)
    rw [List.cons_append, List.find?, ha]
    exact ih (fun j hj => hpre j (List.mem_cons_of_mem _ hj)) hk

theorem setProfileForCurrentAircraft_eq_find (isEligible : FMCProfileKind → Bool)
    (s : State) :
    setProfileForCurrentAircraft isEligible s =
      match profileOrder.find? isEligible with
      | some k => installProfile (allowFontUpdateOnce s) k
      | none => allowFontUpdateOnce s := by
  unfold setProfileForCurrentAircraft profileOrder
  simp only [List.find?]
  cases isEligible FMCProfileKind.Toliss <;> cases isEligible FMCProfileKind.Laminar <;>
    cases isEligible FMCProfileKind.XCrafts <;> cases isEligible FMCProfileKind.Zibo <;>
    cases isEligible FMCProfileKind.FlightFactor777 <;>
    cases isEligible FMCProfileKind.SSG748 <;>
    cases isEligible FMCProfileKind.IXEG733 <;> rfl

/-- C19: `setProfileForCurrentAircraft` installs the first eligible profile in the order
Toliss, Laminar, X-Crafts, Zibo, FlightFactor 777, SSG 748, IXEG 733: whenever the order
splits into profiles that are all not eligible, then an eligible profile `k`, then any
further profiles (whatever their predicates return), the profile set is `k` and one
ClearScreen is enqueued; when no profile of the order is eligible the profile member and the
queue are left as they were. -/
theorem setProfileForCurrentAircraft_first_eligible (isEligible : FMCProfileKind → Bool)
    (s : State) :
    (∀ (pre post : List FMCProfileKind) (k : FMCProfileKind),
      profileOrder = pre ++ k :: post → (∀ j ∈ pre, isEligible j = false) →
      isEligible k = true →
      setProfileForCurrentAircraft isEligible s =
        installProfile (allowFontUpdateOnce s) k ∧
      (setProfileForCurrentAircraft isEligible s).profile = some k ∧
      (setProfileForCurrentAircraft isEligible s)._ioQueue =
        s._ioQueue ++ [{ type := IoCmdType.ClearScreen }]) ∧
    ((∀ j ∈ profileOrder, isEligible j = false) →
      setProfileForCurrentAircraft isEligible s = allowFontUpdateOnce s ∧
      (setProfileForCurrentAircraft isEligible s).profile = s.profile ∧
      (setProfileForCurrentAircraft isEligible s)._ioQueue = s._ioQueue) := by
  constructor
  · intro pre post k hsplit hpre hk
    have hfind : profileOrder.find? isEligible = some k := by
      rw [hsplit]; exact find_first_of_split isEligible k post pre hpre hk
    have heq := setProfileForCurrentAircraft_eq_find isEligible s
    rw [hfind] at heq
    rw [heq]
    exact ⟨rfl, rfl, rfl⟩
  · intro hnone
    have hfind : profileOrder.find? isEligible = none := by
      rw [List.find?_eq_none]
      intro j hj
      simp [hnone j hj]
    have heq := setProfileForCurrentAircraft_eq_find isEligible s
    rw [hfind] at heq
    rw [heq]
    exact ⟨rfl, rfl, rfl⟩

/-- Witness of C19: only Zibo is eligible; Zibo is the fourth of the order. -/
theorem setProfileForCurrentAircraft_first_eligible_witness :
    (setProfileForCurrentAircraft onlyZibo demoState).profile = some FMCProfileKind.Zibo :=
  ((setProfileForCurrentAircraft_first_eligible onlyZibo demoState).1
    [FMCProfileKind.Toliss, FMCProfileKind.Laminar, FMCProfileKind.XCrafts]
    [FMCProfileKind.FlightFactor777, FMCProfileKind.SSG748, FMCProfileKind.IXEG733]
    FMCProfileKind.Zibo rfl (by decide) rfl).2.1

/-! ## Profile selection and the page buffer -/

/-- C20 (as the code behaves): on every selection by `setProfileForCurrentAircraft` that
installs a profile `k` (the first eligible one of the order), one ClearScreen command is
enqueued and the one-shot flag `fontUpdatingEnabled` is set, while the page buffer `page`
of the device is left exactly as it was; the ClearScreen command, once processed by the
worker, hands 16 blank-line frames to the transport. -/
theorem setProfileForCurrentAircraft_install (isEligible : FMCProfileKind → Bool)
    (s : State) (k : FMCProfileKind) (hk : profileOrder.find? isEligible = some k) :
    (setProfileForCurrentAircraft isEligible s).profile = some k ∧
    (setProfileForCurrentAircraft isEligible s).fontUpdatingEnabled = true ∧
    (setProfileForCurrentAircraft isEligible s)._ioQueue =
      s._ioQueue ++ [{ type := IoCmdType.ClearScreen }] ∧
    (setProfileForCurrentAircraft isEligible s).page = s.page ∧
    ∀ (ok : Nat → Bool) (now : ℚ) (w : State),
      processCmd ok now w { type := IoCmdType.ClearScreen } =
        { w with usbWrites := w.usbWrites ++ List.replicate 16 blankLine } := by
  have heq := setProfileForCurrentAircraft_eq_find isEligible s
  rw [hk] at heq
  rw [heq]
  refine ⟨rfl, rfl, rfl, rfl, ?_⟩
  intro ok now w
  simp only [processCmd]
  exact writeRepeat_usbWrites ok blankLine 16 w

/-- Witness of C20 (as the code behaves): Zibo is selected on `demoWritten`. -/
theorem setProfileForCurrentAircraft_install_witness :
    (setProfileForCurrentAircraft onlyZibo demoWritten).page = demoWritten.page :=
  (setProfileForCurrentAircraft_install onlyZibo demoWritten FMCProfileKind.Zibo
    (by decide)).2.2.2.1

/-- Counterexample to C20 as stated: the first page line of `demoWritten` starts with the
cell (0x77, 0, 'H'), so the page buffer is not blank; after the re-selection that installs
the Zibo profile the page buffer still holds that cell and is still not blank. -/
theorem setProfileForCurrentAircraft_page_not_cleared :
    (setProfileForCurrentAircraft onlyZibo demoWritten).profile = some FMCProfileKind.Zibo ∧
    ((setProfileForCurrentAircraft onlyZibo demoWritten).page.getD 0 []).take 3 =
      [0x77, 0, 72] ∧
    (setProfileForCurrentAircraft onlyZibo demoWritten).page ≠ blankPage := by
  decide

/-! ## Shutdown and the queue -/

theorem unloadProfile_queue (s : State) :
    (unloadProfile s)._ioRunning = s._ioRunning ∧
    (unloadProfile s)._ioQueue = s._ioQueue := by
  unfold unloadProfile
  simp only []
  split <;> exact ⟨rfl, rfl⟩

theorem setLedBrightness_eq (ids : FMCLedIds) (s : State) (led brightness : Nat) :
    setLedBrightness ids s led brightness =
      { s with _ioQueue := s._ioQueue ++ ledCmds ids s.hardwareType led brightness } := by
  unfold setLedBrightness ledCmds
  by_cases h1 : led > ids.OVERALL_LEDS_BRIGHTNESS ∧
      s.hardwareType = FMCHardwareType.HARDWARE_MCDU ∧
      led ≥ ids._PFP_START ∧ led ≤ ids._PFP_END
  · rw [if_pos h1, if_pos ⟨h1.1, Or.inl h1.2⟩]
    simp
  · rw [if_neg h1]
    by_cases h2 : led > ids.OVERALL_LEDS_BRIGHTNESS ∧
        s.hardwareType ≠ FMCHardwareType.HARDWARE_MCDU ∧
        led ≥ ids._MCDU_START ∧ led ≤ ids._MCDU_END
    · rw [if_pos h2, if_pos ⟨h2.1, Or.inr h2.2⟩]
      simp
    · rw [if_neg h2, if_neg]
      · rfl
      · rintro ⟨h, h3 | h3⟩
        · exact h1 ⟨h, h3⟩
        · exact h2 ⟨h, h3⟩

theorem foldl_setLedBrightness_eq (ids : FMCLedIds) (b : Nat) (l : List Nat) :
    ∀ s : State,
      l.foldl (fun st i => setLedBrightness ids st i b) s =
        { s with
          _ioQueue := s._ioQueue ++ l.flatMap fun i => ledCmds ids s.hardwareType i b } := by
  induction l with
  | nil => intro s; simp
  | cons i l ih =>
    intro s
    rw [List.foldl_cons, ih, setLedBrightness_eq]
    simp [List.append_assoc]

theorem setAllLedsEnabled_eq (ids : FMCLedIds) (s : State) (enable : Bool) :
    setAllLedsEnabled ids s enable =
      { s with
        _ioQueue := s._ioQueue ++
          (List.range'
              (if s.hardwareType = FMCHardwareType.HARDWARE_MCDU then ids._MCDU_START
                else ids._PFP_START)
              ((if s.hardwareType = FMCHardwareType.HARDWARE_MCDU then ids._MCDU_END
                  else ids._PFP_END) + 1 -
                (if s.hardwareType = FMCHardwareType.HARDWARE_MCDU then ids._MCDU_START
                  else ids._PFP_START))).flatMap
            fun i => ledCmds ids s.hardwareType i (if enable then 1 else 0) } := by
  unfold setAllLedsEnabled
  exact foldl_setLedBrightness_eq ids _ _ s

/-- C17 (as the code behaves): once `disconnect` has returned, the running flag is false, so
a drain hands an empty batch to the worker and leaves the queue alone.  The queue is the
one the exiting worker left, followed by the LED commands `disconnect` enqueued after the
worker had exited.  The worker leaves the commands queued at shutdown in place, in order,
unless its drain had read the running flag before `disconnect` cleared it: then that last
pass (the iteration whose second read of the flag sees it cleared) swaps them out and they
are discarded.  `qEnqueue` keeps appending to the queue after the worker has stopped. -/
theorem disconnect_queue (ids : FMCLedIds) (swapped : Bool) (s : State)
    (ok : Nat → Bool) (now : Nat → ℚ) :
    (disconnect ids swapped s)._ioRunning = false ∧
    drain (disconnect ids swapped s) = ([], disconnect ids swapped s) ∧
    (disconnect ids swapped s)._ioQueue =
      (joinWorker swapped s)._ioQueue ++ disconnectLedCmds ids s.hardwareType ∧
    (joinWorker swapped s)._ioQueue =
      (if s._ioRunning = true ∧ swapped = true then [] else s._ioQueue) ∧
    joinWorker true s = ioThreadIterAt ok now true s ∧
    ∀ c : IoCmd, (qEnqueue (disconnect ids swapped s) c)._ioQueue =
      (disconnect ids swapped s)._ioQueue ++ [c] := by
  have hjq : (joinWorker swapped s)._ioQueue =
      (if s._ioRunning = true ∧ swapped = true then [] else s._ioQueue) := by
    cases swapped <;> cases h : s._ioRunning <;> simp [joinWorker, drain, h]
  have ht : ∀ t : State, t = (if s._ioRunning = true then joinWorker swapped s else s) →
      t._ioRunning = false ∧ t.hardwareType = s.hardwareType ∧
        t._ioQueue = (joinWorker swapped s)._ioQueue := by
    intro t e
    subst e
    cases swapped <;> cases h : s._ioRunning <;> simp [joinWorker, drain, h]
  have hu : ∀ t : State, (unloadProfile t)._ioRunning = t._ioRunning ∧
      (unloadProfile t)._ioQueue = t._ioQueue := unloadProfile_queue
  have hd : ∀ t : State, t = (if s._ioRunning = true then joinWorker swapped s else s) →
      (disconnect ids swapped s)._ioRunning = t._ioRunning ∧
      (disconnect ids swapped s)._ioQueue =
        t._ioQueue ++ disconnectLedCmds ids t.hardwareType := by
    intro t e
    have e1 : disconnect ids swapped s =
        { unloadProfile (setAllLedsEnabled ids
            (setLedBrightness ids (setLedBrightness ids t ids.BACKLIGHT 0)
              ids.SCREEN_BACKLIGHT 0) false) with connected := false } := by
      rw [e]
      rfl
    rw [e1]
    show (unloadProfile _)._ioRunning = _ ∧ (unloadProfile _)._ioQueue = _
    rw [(hu _).1, (hu _).2]
    rw [setAllLedsEnabled_eq, setLedBrightness_eq, setLedBrightness_eq]
    simp [disconnectLedCmds, List.append_assoc]
  have h0 := ht _ rfl
  have h1 := hd _ rfl
  have hrun : (disconnect ids swapped s)._ioRunning = false := h1.1.trans h0.1
  refine ⟨hrun, ?_, ?_, hjq, ?_, fun c => rfl⟩
  · unfold drain
    simp [hrun]
  · rw [h1.2, h0.2.1, h0.2.2]
  · cases h : s._ioRunning <;> simp [joinWorker, ioThreadIterAt, drain, h]

/-- Counterexample to C17 as stated: `demoQueued` runs its worker with one ClearScreen
command waiting.  After `disconnect` the queue is not empty, whichever way the worker left.
If the worker saw the cleared flag in its drain, the queue holds that command followed by
the eleven LED commands `disconnect` enqueued after the worker was stopped, and once the
running flag is set again (as `connect` does before it starts a worker) a drain hands all
twelve to the worker.  If the worker swapped the queue out before it saw the cleared flag,
the eleven LED commands are still there. -/
theorem disconnect_queue_not_empty :
    demoQueued._ioRunning = true ∧
    (disconnect demoLedIds false demoQueued)._ioRunning = false ∧
    (disconnect demoLedIds false demoQueued)._ioQueue =
      [{ type := IoCmdType.ClearScreen },
       { type := IoCmdType.SetLedBrightness, a := 0, b := 0 },
       { type := IoCmdType.SetLedBrightness, a := 1, b := 0 },
       { type := IoCmdType.SetLedBrightness, a := 8, b := 0 },
       { type := IoCmdType.SetLedBrightness, a := 9, b := 0 },
       { type := IoCmdType.SetLedBrightness, a := 10, b := 0 },
       { type := IoCmdType.SetLedBrightness, a := 11, b := 0 },
       { type := IoCmdType.SetLedBrightness, a := 12, b := 0 },
       { type := IoCmdType.SetLedBrightness, a := 13, b := 0 },
       { type := IoCmdType.SetLedBrightness, a := 14, b := 0 },
       { type := IoCmdType.SetLedBrightness, a := 15, b := 0 },
       { type := IoCmdType.SetLedBrightness, a := 16, b := 0 }] ∧
    (drain { disconnect demoLedIds false demoQueued with _ioRunning := true }).1.length = 12 ∧
    (disconnect demoLedIds true demoQueued)._ioRunning = false ∧
    (disconnect demoLedIds true demoQueued)._ioQueue =
      [{ type := IoCmdType.SetLedBrightness, a := 0, b := 0 },
       { type := IoCmdType.SetLedBrightness, a := 1, b := 0 },
       { type := IoCmdType.SetLedBrightness, a := 8, b := 0 },
       { type := IoCmdType.SetLedBrightness, a := 9, b := 0 },
       { type := IoCmdType.SetLedBrightness, a := 10, b := 0 },
       { type := IoCmdType.SetLedBrightness, a := 11, b := 0 },
       { type := IoCmdType.SetLedBrightness, a := 12, b := 0 },
       { type := IoCmdType.SetLedBrightness, a := 13, b := 0 },
       { type := IoCmdType.SetLedBrightness, a := 14, b := 0 },
       { type := IoCmdType.SetLedBrightness, a := 15, b := 0 },
       { type := IoCmdType.SetLedBrightness, a := 16, b := 0 }] ∧
    (drain { disconnect demoLedIds true demoQueued with _ioRunning := true }).1.length = 11 := by
  decide


/-! ## Display rate limit -/

theorem processCmd_usbBuffer_cases (ok : Nat → Bool) (now : ℚ) (s : State) (c : IoCmd)
    (hc : c.type = IoCmdType.UsbBuffer) :
    processCmd ok now s c = s ∨
    (¬ now - s._lastUsbTs < 1 / 25 ∧ (processCmd ok now s c)._lastUsbTs = now) := by
  by_cases heq : c.payload = s._sentFrame
  · exact Or.inl (processCmd_usbBuffer_drop ok now s c hc (Or.inl heq))
  · by_cases hr : now - s._lastUsbTs < 1 / 25
    · exact Or.inl (processCmd_usbBuffer_drop ok now s c hc (Or.inr hr))
    · right
      rw [processCmd_usbBuffer_send ok now s c hc heq hr]
      exact ⟨hr, rfl⟩

/-- After a send at time `t`, a further send needs a clock value of at least `t + 1/25`: if
all remaining clock values are at most `U` and `U - t < (n + 1) / 25`, at most `n` of the
remaining display commands are transmitted. -/
theorem countTransmitted_le_of_room (ok : Nat → Bool) (U : ℚ) (cmds : List (IoCmd × ℚ)) :
    ∀ (n : Nat) (s : State),
      (∀ x ∈ cmds, x.1.type = IoCmdType.UsbBuffer ∧ x.2 ≤ U) →
      U - s._lastUsbTs < ((n : ℚ) + 1) / 25 →
      countTransmitted ok s cmds ≤ n := by
  induction cmds with
  | nil => intro n s _ _; simp [countTransmitted]
  | cons x rest ih =>
    intro n s hall hroom
    have hx := hall x (List.mem_cons_self _ _)
    have hrest : ∀ y ∈ rest, y.1.type = IoCmdType.UsbBuffer ∧ y.2 ≤ U :=
      fun y hy => hall y (List.mem_cons_of_mem _ hy)
    rw [countTransmitted]
    rcases processCmd_usbBuffer_cases ok x.2 s x.1 hx.1 with hdrop | ⟨hr, hts⟩
    · rw [hdrop, if_pos rfl, Nat.zero_add]
      exact ih n s hrest hroom
    · have hgap : (1 : ℚ) / 25 ≤ x.2 - s._lastUsbTs := not_lt.mp hr
      have hxU : x.2 ≤ U := hx.2
      cases n with
      | zero =>
        exfalso
        have : U - s._lastUsbTs < 1 / 25 := by simpa using hroom
        linarith
      | succ m =>
        have hroom2 : U - (processCmd ok x.2 s x.1)._lastUsbTs < ((m : ℚ) + 1) / 25 := by
          rw [hts]
          have h1 : U - s._lastUsbTs < ((m : ℚ) + 1 + 1) / 25 := by
            have := hroom
            push_cast at this
            exact this
          linarith
        have hcount := ih m _ hrest hroom2
        have hone : (if processCmd ok x.2 s x.1 = s then 0 else 1) ≤ 1 := by
          split <;> omega
        omega

theorem countTransmitted_window (ok : Nat → Bool) (a : ℚ) (cmds : List (IoCmd × ℚ)) :
    ∀ s : State,
      (∀ x ∈ cmds, x.1.type = IoCmdType.UsbBuffer ∧ a ≤ x.2 ∧ x.2 ≤ a + 1 / 10) →
      countTransmitted ok s cmds ≤ 3 := by
  induction cmds with
  | nil => intro s _; simp [countTransmitted]
  | cons x rest ih =>
    intro s hall
    have hx := hall x (List.mem_cons_self _ _)
    have hrest : ∀ y ∈ rest, y.1.type = IoCmdType.UsbBuffer ∧ a ≤ y.2 ∧ y.2 ≤ a + 1 / 10 :=
      fun y hy => hall y (List.mem_cons_of_mem _ hy)
    rw [countTransmitted]
    rcases processCmd_usbBuffer_cases ok x.2 s x.1 hx.1 with hdrop | ⟨_, hts⟩
    · rw [hdrop, if_pos rfl, Nat.zero_add]
      exact ih s hrest
    · have hroom : (a + 1 / 10) - (processCmd ok x.2 s x.1)._lastUsbTs <
          (((2 : Nat) : ℚ) + 1) / 25 := by
        rw [hts]
        have := hx.2.1
        norm_num
        linarith
      have hcount := countTransmitted_le_of_room ok (a + 1 / 10) rest 2 _
        (fun y hy => ⟨(hrest y hy).1, (hrest y hy).2.2⟩) hroom
      have hone : (if processCmd ok x.2 s x.1 = s then 0 else 1) ≤ 1 := by
        split <;> omega
      omega

/-- For a display command, being transmitted (the state changes) is the same as passing both
guards of the `UsbBuffer` case. -/
theorem processCmd_usbBuffer_changes_iff (ok : Nat → Bool) (now : ℚ) (s : State) (c : IoCmd)
    (hc : c.type = IoCmdType.UsbBuffer) :
    processCmd ok now s c ≠ s ↔
      (c.payload ≠ s._sentFrame ∧ ¬ now - s._lastUsbTs < 1 / 25) := by
  constructor
  · intro hne
    by_contra hcon
    apply hne
    apply processCmd_usbBuffer_drop ok now s c hc
    by_cases heq : c.payload = s._sentFrame
    · exact Or.inl heq
    · right
      by_contra hr
      exact hcon ⟨heq, hr⟩
  · rintro ⟨heq, hr⟩ hsame
    have h := congrArg State._sentFrame hsame
    rw [processCmd_usbBuffer_send ok now s c hc heq hr] at h
    exact heq h

/-- C11: for every initial state and every sequence of DisplayFrame commands with pairwise
distinct payloads whose processing times are non-decreasing and all lie within one window
`[a, a + 1/10]` of 100 ms (times as exact rationals, minimum period 1/25 s), the worker
transmits at most 3 of them. -/
theorem displayFrame_rate_limit (ok : Nat → Bool) (s : State) (cmds : List (IoCmd × ℚ))
    (a : ℚ) (htype : ∀ x ∈ cmds, x.1.type = IoCmdType.UsbBuffer)
    (_hdistinct : cmds.Pairwise (fun x y => x.1.payload ≠ y.1.payload))
    (_hmono : cmds.Pairwise (fun x y => x.2 ≤ y.2))
    (hwin : ∀ x ∈ cmds, a ≤ x.2 ∧ x.2 ≤ a + 1 / 10) :
    countTransmitted ok s cmds ≤ 3 :=
  countTransmitted_window ok a cmds s (fun x hx => ⟨htype x hx, hwin x hx⟩)

/-- Witness of C11: the four commands of `demoBurst` lie in the window `[1, 1.1]`. -/
theorem displayFrame_rate_limit_witness :
    countTransmitted (fun _ => true) demoState demoBurst ≤ 3 :=
  displayFrame_rate_limit (fun _ => true) demoState demoBurst 1
    (by simp [demoBurst])
    (by simp [demoBurst])
    (by simp only [demoBurst, List.pairwise_cons, List.mem_cons, List.mem_singleton]; norm_num)
    (by simp only [demoBurst, List.mem_cons, List.mem_singleton]; norm_num)

/-- The bound of C11 is attained: of the four commands of `demoBurst` the first, the third
and the fourth are transmitted, the second is dropped by the rate limit. -/
theorem displayFrame_rate_limit_attained :
    countTransmitted (fun _ => true) demoState demoBurst = 3 := by
  have e1 := processCmd_usbBuffer_send (fun _ => true) 1 demoState
    { type := IoCmdType.UsbBuffer, payload := [1] } rfl (by decide)
    (by norm_num [demoState, init])
  have n1 := (processCmd_usbBuffer_changes_iff (fun _ => true) 1 demoState
    { type := IoCmdType.UsbBuffer, payload := [1] } rfl).mpr
    ⟨by decide, by norm_num [demoState, init]⟩
  simp only [demoBurst, countTransmitted]
  rw [if_neg n1, e1]
  have e2 := processCmd_usbBuffer_drop (fun _ => true) (101 / 100)
    { demoState with
      usbWrites := demoState.usbWrites ++ segment [1] 63 0xf2 0
      _sentFrame := [1]
      _lastUsbTs := 1 }
    { type := IoCmdType.UsbBuffer, payload := [2] } rfl (Or.inr (by norm_num))
  rw [e2, if_pos rfl]
  have e3 := processCmd_usbBuffer_send (fun _ => true) (26 / 25)
    { demoState with
      usbWrites := demoState.usbWrites ++ segment [1] 63 0xf2 0
      _sentFrame := [1]
      _lastUsbTs := 1 }
    { type := IoCmdType.UsbBuffer, payload := [3] } rfl (by decide) (by norm_num)
  have n3 := (processCmd_usbBuffer_changes_iff (fun _ => true) (26 / 25)
    { demoState with
      usbWrites := demoState.usbWrites ++ segment [1] 63 0xf2 0
      _sentFrame := [1]
      _lastUsbTs := 1 }
    { type := IoCmdType.UsbBuffer, payload := [3] } rfl).mpr ⟨by decide, by norm_num⟩
  rw [if_neg n3, e3]
  have n4 := (processCmd_usbBuffer_changes_iff (fun _ => true) (27 / 25)
    { demoState with
      usbWrites := (demoState.usbWrites ++ segment [1] 63 0xf2 0) ++ segment [3] 63 0xf2 0
      _sentFrame := [3]
      _lastUsbTs := 26 / 25 }
    { type := IoCmdType.UsbBuffer, payload := [4] } rfl).mpr ⟨by decide, by norm_num⟩
  rw [if_neg n4]

/-! ## Shape of the events of one index -/

theorem foldl_shapeStep_none (l : List XPLMCommandPhase) : l.foldl shapeStep none = none := by
  induction l with
  | nil => rfl
  | cons e l ih => rw [List.foldl_cons]; cases e <;> exact ih

/-- A sequence the automaton accepts from Released has the press shape; one it accepts from
Pressed is `Continue*`, or `Continue* End` followed by a sequence of the press shape. -/
theorem pressShape_of_accepted (l : List XPLMCommandPhase) :
    ((l.foldl shapeStep (some false)).isSome = true → PressShape l) ∧
    ((l.foldl shapeStep (some true)).isSome = true →
      ∃ n : Nat, l = List.replicate n XPLMCommandPhase.xplm_CommandContinue ∨
        ∃ rest, l = List.replicate n XPLMCommandPhase.xplm_CommandContinue ++
          XPLMCommandPhase.xplm_CommandEnd :: rest ∧ PressShape rest) := by
  induction l with
  | nil => exact ⟨fun _ => PressShape.nil, fun _ => ⟨0, Or.inl rfl⟩⟩
  | cons e l ih =>
    constructor
    · intro h
      rw [List.foldl_cons] at h
      cases e with
      | xplm_CommandBegin =>
        obtain ⟨n, hn | ⟨rest, hn, hrest⟩⟩ := ih.2 h
        · rw [hn]; exact PressShape.unfinished n
        · rw [hn]; exact PressShape.press n rest hrest
      | xplm_CommandContinue =>
        rw [show shapeStep (some false) XPLMCommandPhase.xplm_CommandContinue = none from rfl,
          foldl_shapeStep_none] at h
        exact absurd h (by simp)
      | xplm_CommandEnd =>
        rw [show shapeStep (some false) XPLMCommandPhase.xplm_CommandEnd = none from rfl,
          foldl_shapeStep_none] at h
        exact absurd h (by simp)
    · intro h
      rw [List.foldl_cons] at h
      cases e with
      | xplm_CommandBegin =>
        rw [show shapeStep (some true) XPLMCommandPhase.xplm_CommandBegin = none from rfl,
          foldl_shapeStep_none] at h
        exact absurd h (by simp)
      | xplm_CommandContinue =>
        obtain ⟨n, hn | ⟨rest, hn, hrest⟩⟩ := ih.2 h
        · exact ⟨n + 1, Or.inl (by rw [hn, List.replicate_succ])⟩
        · exact ⟨n + 1, Or.inr ⟨rest, by rw [hn, List.replicate_succ, List.cons_append], hrest⟩⟩
      | xplm_CommandEnd =>
        exact ⟨0, Or.inr ⟨l, rfl, ih.1 h⟩⟩

theorem phasesOf_append_single (i j : Nat) (e : XPLMCommandPhase)
    (events : List (Nat × XPLMCommandPhase)) :
    phasesOf i (events ++ [(j, e)]) = phasesOf i events ++ (if j = i then [e] else []) := by
  unfold phasesOf
  rw [List.filterMap_append]
  by_cases h : j = i <;> simp [h]

theorem buttonStep_shapeTracked (lo hi : Nat) (s : State) (i : Nat) (h : shapeTracked s) :
    shapeTracked (buttonStep lo hi s i) := by
  intro j
  have hj := h j
  have hself := h i
  cases hb : snapshotBit lo hi i <;> by_cases hm : i ∈ s.pressedButtonIndices
  · rw [buttonStep_end lo hi s i hb hm]
    simp only [phasesOf_append_single, shapeRun, List.foldl_append]
    by_cases hji : i = j
    · subst hji
      rw [shapeRun] at hself
      simp [hself, hm, shapeStep]
    · have hne : ¬ j = i := fun g => hji g.symm
      rw [shapeRun] at hj
      simp [hji, hne, hj]
  · rw [buttonStep_none lo hi s i hb hm]
    exact hj
  · rw [buttonStep_continue lo hi s i hb hm]
    simp only [phasesOf_append_single, shapeRun, List.foldl_append]
    by_cases hji : i = j
    · subst hji
      rw [shapeRun] at hself
      simp [hself, hm, shapeStep]
    · rw [shapeRun] at hj
      simp [hji, hj]
  · rw [buttonStep_begin lo hi s i hb hm]
    simp only [phasesOf_append_single, shapeRun, List.foldl_append]
    by_cases hji : i = j
    · subst hji
      rw [shapeRun] at hself
      simp [hself, hm, shapeStep]
    · have hne : ¬ j = i := fun g => hji g.symm
      rw [shapeRun] at hj
      simp [hji, hne, hj]

theorem foldl_buttonStep_shapeTracked (lo hi : Nat) (l : List Nat) :
    ∀ s : State, shapeTracked s → shapeTracked (l.foldl (buttonStep lo hi) s) := by
  induction l with
  | nil => intro s h; exact h
  | cons i l ih => intro s h; exact ih _ (buttonStep_shapeTracked lo hi s i h)

theorem didReceiveData_shapeTracked (s : State) (reportId : Int) (report : List Nat)
    (h : shapeTracked s) : shapeTracked (didReceiveData s reportId report) := by
  unfold didReceiveData
  split
  · exact h
  · split
    · exact h
    · unfold applySnapshot
      split
      · exact h
      · exact foldl_buttonStep_shapeTracked _ _ _ _ h

theorem runReports_shapeTracked (reports : List (Int × List Nat)) :
    ∀ s : State, shapeTracked s → shapeTracked (runReports s reports) := by
  induction reports with
  | nil => intro s h; exact h
  | cons r rs ih =>
    intro s h
    exact ih _ (didReceiveData_shapeTracked s r.1 r.2 h)

/-- C12: for every sequence of input reports (any report ids and buffers, so duplicated or
missing reports included) processed from an initial button state (pressed set empty, no
event derived yet) and every index `i`, the phases derived for `i`, in order, have the shape
`(Begin Continue* End)*` possibly followed by an unfinished `Begin Continue*`; the press
automaton (Begin only when released, Continue and End only when pressed) accepts them and
ends in Pressed exactly when `i` is in the pressed set. -/
theorem events_press_shape (s0 : State) (reports : List (Int × List Nat)) (i : Nat)
    (hset : s0.pressedButtonIndices = ∅) (hev : s0.buttonEvents = []) :
    PressShape (phasesOf i (runReports s0 reports).buttonEvents) ∧
    shapeRun (phasesOf i (runReports s0 reports).buttonEvents) =
      some (decide (i ∈ (runReports s0 reports).pressedButtonIndices)) := by
  have h0 : shapeTracked s0 := by
    intro j
    simp [hset, hev, phasesOf, shapeRun]
  have h := runReports_shapeTracked reports s0 h0 i
  refine ⟨(pressShape_of_accepted _).1 ?_, h⟩
  rw [shapeRun] at h
  rw [h]
  rfl

/-- Witness of C12: button 0 is pressed, held while the report repeats, and released. -/
theorem events_press_shape_witness :
    PressShape (phasesOf 0
      (runReports demoState
        [(1, reportButton0), (1, reportButton0), (1, reportNone)]).buttonEvents) :=
  (events_press_shape demoState [(1, reportButton0), (1, reportButton0), (1, reportNone)] 0
    rfl rfl).1


/-! ## Commands that leave the sent-state cache alone -/

theorem writeData_cache (ok : Nat → Bool) (s : State) (data : List Nat) :
    (writeData ok s data).1._sentFrame = s._sentFrame ∧
    (writeData ok s data).1._lastUsbTs = s._lastUsbTs :=
  ⟨rfl, rfl⟩

/-- C22: processing a SetLedBrightness, ClearScreen, ShowBackground or UploadFont command
leaves the last-sent frame and the last send time unchanged; hence, for every state, a
ClearScreen followed by a DisplayFrame whose payload equals the last-sent frame hands only
the 16 blank-line frames to the transport: the display command is dropped and changes
nothing. -/
theorem processCmd_other_keeps_cache (ok : Nat → Bool) (now : ℚ) (s : State) (c : IoCmd)
    (hc : c.type ≠ IoCmdType.UsbBuffer) :
    ((processCmd ok now s c)._sentFrame = s._sentFrame ∧
      (processCmd ok now s c)._lastUsbTs = s._lastUsbTs) ∧
    ∀ (t1 t2 : ℚ) (d : IoCmd), d.type = IoCmdType.UsbBuffer → d.payload = s._sentFrame →
      processCmd ok t2 (processCmd ok t1 s { type := IoCmdType.ClearScreen }) d =
        { s with usbWrites := s.usbWrites ++ List.replicate 16 blankLine } := by
  constructor
  · unfold processCmd
    split
    · exact ⟨rfl, rfl⟩
    · rw [writeRepeat_usbWrites]; exact ⟨rfl, rfl⟩
    · exact ⟨rfl, rfl⟩
    · rw [writeChunks_usbWrites]; exact ⟨rfl, rfl⟩
    · rename_i h; exact absurd h hc
  · intro t1 t2 d hd hp
    have hclear : processCmd ok t1 s { type := IoCmdType.ClearScreen } =
        { s with usbWrites := s.usbWrites ++ List.replicate 16 blankLine } := by
      simp only [processCmd]
      exact writeRepeat_usbWrites ok blankLine 16 s
    rw [hclear]
    exact processCmd_usbBuffer_drop ok t2 _ d hd (Or.inl hp)

/-- Witness of C22: a LED command processed in `demoSent` keeps the last-sent frame `[1]`. -/
theorem processCmd_other_keeps_cache_witness :
    (processCmd (fun _ => true) 5 demoSent
        { type := IoCmdType.SetLedBrightness, a := 1, b := 128 })._sentFrame =
      demoSent._sentFrame :=
  (processCmd_other_keeps_cache (fun _ => true) 5 demoSent
    { type := IoCmdType.SetLedBrightness, a := 1, b := 128 } (by decide)).1.1

/-! ## The one-shot font flag -/

theorem setFont_cases (s : State) (font : List (List Nat)) (now : ℚ) :
    setFont s font now = s ∨
    (s.fontUpdatingEnabled = true ∧
      setFont s font now =
        { qUploadFont s font with
          _fontCrc := fnv1a32 font
          _fontEverSent := true
          _fontLastTs := now
          fontUpdatingEnabled := false }) := by
  by_cases hen : s.fontUpdatingEnabled = true
  · by_cases h : s._fontEverSent = false ∨
        (fnv1a32 font ≠ s._fontCrc ∧ ¬ now - s._fontLastTs < 2)
    · exact Or.inr ⟨hen, setFont_send s font now hen h⟩
    · left
      apply setFont_skip
      right
      have hs : s._fontEverSent = true := by
        cases hv : s._fontEverSent
        · exact absurd (Or.inl hv) h
        · rfl
      refine ⟨hs, ?_⟩
      by_cases hc : fnv1a32 font = s._fontCrc
      · exact Or.inl hc
      · right
        by_contra hcool
        exact h (Or.inr ⟨hc, hcool⟩)
  · left
    apply setFont_skip
    left
    cases hv : s.fontUpdatingEnabled
    · rfl
    · exact absurd hv hen

theorem runSetFont_flag_clear (calls : List (List (List Nat) × ℚ)) :
    ∀ s : State, s.fontUpdatingEnabled = false → runSetFont s calls = s := by
  induction calls with
  | nil => intro s _; rfl
  | cons c rest ih =>
    intro s h
    rw [runSetFont, List.foldl_cons, setFont_skip s c.1 c.2 (Or.inl h)]
    exact ih s h

theorem runSetFont_at_most_one (calls : List (List (List Nat) × ℚ)) :
    ∀ s : State, ∃ extra : List IoCmd,
      (runSetFont s calls)._ioQueue = s._ioQueue ++ extra ∧ extra.length ≤ 1 ∧
      ∀ c ∈ extra, c.type = IoCmdType.UploadFont := by
  induction calls with
  | nil => intro s; exact ⟨[], by simp [runSetFont], by simp, by simp⟩
  | cons c rest ih =>
    intro s
    rcases setFont_cases s c.1 c.2 with h | ⟨_, h⟩
    · obtain ⟨extra, h1, h2, h3⟩ := ih s
      refine ⟨extra, ?_, h2, h3⟩
      rw [runSetFont, List.foldl_cons, h]
      exact h1
    · refine ⟨[{ type := IoCmdType.UploadFont, payloadChunks := c.1 }], ?_, by simp, by simp⟩
      have hrest := runSetFont_flag_clear rest (setFont s c.1 c.2) (by rw [h])
      rw [runSetFont, List.foldl_cons]
      rw [runSetFont] at hrest
      rw [hrest, h]
      rfl

/-- C26: the font flag is one-shot.  Every `setFont` call either leaves the whole state
(flag and font state included) unchanged, or found the flag set, enqueues one UploadFont
command and clears the flag; and a sequence of `setFont` calls with no
`allowFontUpdateOnce` in between enqueues at most one command, an UploadFont. -/
theorem setFont_one_shot (s : State) (calls : List (List (List Nat) × ℚ)) :
    (∀ (t : State) (font : List (List Nat)) (now : ℚ),
      setFont t font now = t ∨
      (t.fontUpdatingEnabled = true ∧
        (setFont t font now).fontUpdatingEnabled = false ∧
        (setFont t font now)._ioQueue =
          t._ioQueue ++ [{ type := IoCmdType.UploadFont, payloadChunks := font }])) ∧
    ∃ extra : List IoCmd,
      (runSetFont s calls)._ioQueue = s._ioQueue ++ extra ∧ extra.length ≤ 1 ∧
      ∀ c ∈ extra, c.type = IoCmdType.UploadFont := by
  refine ⟨?_, runSetFont_at_most_one calls s⟩
  intro t font now
  rcases setFont_cases t font now with h | ⟨hen, h⟩
  · exact Or.inl h
  · right
    rw [h]
    exact ⟨hen, rfl, rfl⟩

/-! ## The fingerprint -/

theorem fnv1a32_foldl (ff : List (List Nat)) :
    ∀ h : Nat, ff.foldl fnv1a32Chunk h =
      ff.flatten.foldl (fun h b => ((h ^^^ b) * 16777619) % 2 ^ 32) h := by
  induction ff with
  | nil => intro h; rfl
  | cons chunk rest ih =>
    intro h
    rw [List.foldl_cons, ih, List.flatten_cons, List.foldl_append]
    rfl

/-- C27: `fnv1a32` is the standard 32-bit FNV-1a hash of the concatenation of all chunks in
order; so two font tables with the same concatenation (differing only in chunk boundaries)
have the same fingerprint, and the empty font hashes to 2166136261. -/
theorem fnv1a32_eq_std (ff : List (List Nat)) :
    fnv1a32 ff = fnv1aStd ff.flatten ∧
    (∀ gg : List (List Nat), gg.flatten = ff.flatten → fnv1a32 gg = fnv1a32 ff) ∧
    fnv1a32 [] = 2166136261 := by
  have h : ∀ xs : List (List Nat), fnv1a32 xs = fnv1aStd xs.flatten :=
    fun xs => fnv1a32_foldl xs 2166136261
  refine ⟨h ff, ?_, rfl⟩
  intro gg hgg
  rw [h gg, h ff, hgg]

/-! ## Pressed set and stored snapshot -/

theorem applySnapshot_matches (s : State) (lo hi : Nat) (h : pressedMatchesSnapshot s) :
    pressedMatchesSnapshot (applySnapshot s lo hi) := by
  unfold applySnapshot
  split
  · exact h
  · intro j
    have hf := foldl_buttonStep_frame lo hi (List.range 96)
      { s with lastButtonStateLo := lo, lastButtonStateHi := hi }
    rw [foldl_buttonStep_mem, hf.1, hf.2]
    simp only [List.mem_range]
    by_cases hj : j < 96
    · simp [hj]
    · simp only [hj, if_false, false_and, iff_false]
      intro hmem
      exact hj ((h j).mp hmem).1

theorem didReceiveData_matches (s : State) (reportId : Int) (report : List Nat)
    (h : pressedMatchesSnapshot s) :
    pressedMatchesSnapshot (didReceiveData s reportId report) := by
  unfold didReceiveData
  split
  · exact h
  · split
    · exact h
    · exact applySnapshot_matches s _ _ h

theorem runReports_matches (reports : List (Int × List Nat)) :
    ∀ s : State, pressedMatchesSnapshot s → pressedMatchesSnapshot (runReports s reports) := by
  induction reports with
  | nil => intro s h; exact h
  | cons r rs ih => intro s h; exact ih _ (didReceiveData_matches s r.1 r.2 h)

/-- C25: for every sequence of calls to `didReceiveData` (any report ids and buffers, on a
connected or unconnected device, with or without profile) starting from an initial button
state (stored snapshot all zero, pressed set empty), the pressed-index set afterwards is
exactly the set of indices below 96 whose bit is set in the stored snapshot; and every single
call, early returns included, keeps this property. -/
theorem pressed_set_matches_snapshot (s0 : State) (reports : List (Int × List Nat))
    (hlo : s0.lastButtonStateLo = 0) (hhi : s0.lastButtonStateHi = 0)
    (hset : s0.pressedButtonIndices = ∅) :
    (∀ j : Nat, j ∈ (runReports s0 reports).pressedButtonIndices ↔
      (j < 96 ∧ snapshotBit (runReports s0 reports).lastButtonStateLo
        (runReports s0 reports).lastButtonStateHi j = true)) ∧
    ∀ (s : State) (reportId : Int) (report : List Nat),
      pressedMatchesSnapshot s → pressedMatchesSnapshot (didReceiveData s reportId report) := by
  have h0 : pressedMatchesSnapshot s0 := by
    intro j
    simp [hlo, hhi, hset, snapshotBit]
  exact ⟨runReports_matches reports s0 h0, didReceiveData_matches⟩

/-- Witness of C25: after the press of button 0, index 0 is in the set and bit 0 is set. -/
theorem pressed_set_matches_snapshot_witness :
    0 ∈ (runReports demoState [(1, reportButton0)]).pressedButtonIndices ↔
      (0 < 96 ∧ snapshotBit (runReports demoState [(1, reportButton0)]).lastButtonStateLo
        (runReports demoState [(1, reportButton0)]).lastButtonStateHi 0 = true) :=
  (pressed_set_matches_snapshot demoState [(1, reportButton0)] rfl rfl rfl).1 0


/-! ## Producer-side suppression in `draw` -/

theorem foldl_drawCell_length (ops : FMCProfileOps) (s : State) (p : List (List Nat))
    (i : Nat) (l : List Nat) :
    ∀ buf : List Nat, buf.length + 2 * l.length ≤ (l.foldl (drawCell ops s p i) buf).length := by
  induction l with
  | nil => intro buf; simp
  | cons j l ih =>
    intro buf
    rw [List.foldl_cons]
    have h1 := ih (drawCell ops s p i buf j)
    have h2 : buf.length + 2 ≤ (drawCell ops s p i buf j).length := by
      simp only [drawCell, List.length_append, List.length_cons, List.length_nil]
      omega
    rw [List.length_cons]
    omega

theorem foldl_rows_length (ops : FMCProfileOps) (s : State) (p : List (List Nat))
    (rows : List Nat) :
    ∀ buf : List Nat, buf.length + 2 * (rows.length * PageCharsPerLine) ≤
      (rows.foldl
        (fun buf i => (List.range PageCharsPerLine).foldl (drawCell ops s p i) buf) buf).length := by
  induction rows with
  | nil => intro buf; simp
  | cons i rows ih =>
    intro buf
    rw [List.foldl_cons]
    have h1 := ih ((List.range PageCharsPerLine).foldl (drawCell ops s p i) buf)
    have h2 := foldl_drawCell_length ops s p i (List.range PageCharsPerLine) buf
    rw [List.length_range] at h2
    rw [List.length_cons]
    unfold PageCharsPerLine at h1 h2 ⊢
    omega

/-- The rendered buffer holds at least the two colour/font bytes of each of the 14 x 24
cells. -/
theorem renderPage_length (ops : FMCProfileOps) (s : State) (p : List (List Nat)) :
    672 ≤ (renderPage ops s p).length := by
  have h := foldl_rows_length ops s p (List.range PageLines) []
  rw [List.length_range] at h
  simpa [renderPage, PageLines, PageCharsPerLine] using h

theorem renderPage_ne_nil (ops : FMCProfileOps) (s : State) (p : List (List Nat)) :
    renderPage ops s p ≠ [] := by
  intro h
  have := renderPage_length ops s p
  rw [h] at this
  simp at this

/-- The rendered buffer depends on the device state only through the profile pointer. -/
theorem renderPage_congr (ops : FMCProfileOps) (s t : State) (p : List (List Nat))
    (h : t.profile = s.profile) : renderPage ops t p = renderPage ops s p := by
  have hcell : drawCell ops t p = drawCell ops s p := by
    funext i buf j
    simp only [drawCell, dataFromColFont, h]
  simp only [renderPage, hcell]

theorem draw_skip (ops : FMCProfileOps) (s : State) (pagePtr : Option (List (List Nat)))
    (h : renderPage ops s (pagePtr.getD s.page) = s._lastBuf) : draw ops s pagePtr = s := by
  cases pagePtr <;> simp only [Option.getD] at h <;> simp only [draw] <;> rw [if_pos h]

theorem draw_enqueue (ops : FMCProfileOps) (s : State) (pagePtr : Option (List (List Nat)))
    (h : renderPage ops s (pagePtr.getD s.page) ≠ s._lastBuf) :
    draw ops s pagePtr =
      { s with
        _lastBuf := renderPage ops s (pagePtr.getD s.page)
        _ioQueue := s._ioQueue ++
          [{ type := IoCmdType.UsbBuffer, payload := renderPage ops s (pagePtr.getD s.page) }] } := by
  cases pagePtr <;> simp only [Option.getD] at h ⊢ <;> simp only [draw] <;> rw [if_neg h] <;> rfl

/-- A second draw of the same page right after a draw changes nothing. -/
theorem draw_draw (ops : FMCProfileOps) (s : State) (pagePtr : Option (List (List Nat))) :
    draw ops (draw ops s pagePtr) pagePtr = draw ops s pagePtr := by
  by_cases h : renderPage ops s (pagePtr.getD s.page) = s._lastBuf
  · rw [draw_skip ops s pagePtr h, draw_skip ops s pagePtr h]
  · rw [draw_enqueue ops s pagePtr h]
    apply draw_skip
    exact renderPage_congr ops _ s _ rfl

/-- C21 (as the code behaves): `draw` enqueues a DisplayFrame command exactly when the
rendered byte buffer differs from `_lastBuf`, the buffer of the previous enqueueing draw
(empty before the first one), and then records it as `_lastBuf`; otherwise it changes
nothing.  The rendered buffer is never empty, so the very first draw enqueues.  The second
of two consecutive draws of the same page under the same profile never enqueues, so the two
together enqueue one command when the rendered buffer differs from `_lastBuf` before them
and none when it does not. -/
theorem draw_enqueues_iff (ops : FMCProfileOps) (s : State)
    (pagePtr : Option (List (List Nat))) :
    (renderPage ops s (pagePtr.getD s.page) = s._lastBuf → draw ops s pagePtr = s) ∧
    (renderPage ops s (pagePtr.getD s.page) ≠ s._lastBuf →
      draw ops s pagePtr =
        { s with
          _lastBuf := renderPage ops s (pagePtr.getD s.page)
          _ioQueue := s._ioQueue ++
            [{ type := IoCmdType.UsbBuffer,
               payload := renderPage ops s (pagePtr.getD s.page) }] }) ∧
    renderPage ops s (pagePtr.getD s.page) ≠ [] ∧
    (s._lastBuf = [] →
      (draw ops s pagePtr)._ioQueue =
        s._ioQueue ++
          [{ type := IoCmdType.UsbBuffer,
             payload := renderPage ops s (pagePtr.getD s.page) }]) ∧
    draw ops (draw ops s pagePtr) pagePtr = draw ops s pagePtr := by
  refine ⟨draw_skip ops s pagePtr, draw_enqueue ops s pagePtr, renderPage_ne_nil ops s _,
    ?_, draw_draw ops s pagePtr⟩
  intro hempty
  rw [draw_enqueue ops s pagePtr (by rw [hempty]; exact renderPage_ne_nil ops s _)]

/-- Witness of C21 (as the code behaves): the first draw on `demoState` enqueues. -/
theorem draw_enqueues_iff_witness :
    (draw demoOps demoState none)._ioQueue =
      demoState._ioQueue ++
        [{ type := IoCmdType.UsbBuffer,
           payload := renderPage demoOps demoState ((none : Option (List (List Nat))).getD
             demoState.page) }] :=
  (draw_enqueues_iff demoOps demoState none).2.2.2.1 rfl

/-- Counterexample to C21 as stated: three draws of the unchanged page of `demoState` in a
row.  The first enqueues one command; the second and the third, two consecutive draws of
the same page content under the same profile, enqueue none. -/
theorem draw_two_consecutive_enqueue_none :
    (draw demoOps demoState none)._ioQueue.length = 1 ∧
    (draw demoOps (draw demoOps (draw demoOps demoState none) none) none)._ioQueue =
      (draw demoOps demoState none)._ioQueue := by
  constructor
  · rw [draw_enqueue demoOps demoState none
      (by rw [show demoState._lastBuf = [] from rfl]; exact renderPage_ne_nil _ _ _)]
    rfl
  · rw [draw_draw, draw_draw]


/-! ## A frame dropped by the rate limit is not drawn again -/

theorem ioThreadIter_one (ok : Nat → Bool) (now : Nat → ℚ) (s : State) (c : IoCmd)
    (hrun : s._ioRunning = true) :
    ioThreadIter ok now { s with _ioQueue := [c] } =
      processCmd ok (now 0) { s with _ioQueue := [] } c := by
  cases s
  dsimp only at hrun
  subst hrun
  rfl

theorem ioThreadIter_idle (ok : Nat → Bool) (now : Nat → ℚ) (s : State)
    (hrun : s._ioRunning = true) (hq : s._ioQueue = []) :
    ioThreadIter ok now s = s := by
  cases s
  dsimp only at hrun hq
  subst hrun hq
  rfl

theorem round_enqueued (ok : Nat → Bool) (s : State) (B : List Nat) (t : ℚ)
    (hrun : s._ioRunning = true) (hq : s._ioQueue = []) :
    ioThreadIter ok (fun _ => t)
        { s with
          _lastBuf := B
          _ioQueue := s._ioQueue ++ [{ type := IoCmdType.UsbBuffer, payload := B }] } =
      processCmd ok t { s with _lastBuf := B } { type := IoCmdType.UsbBuffer, payload := B } := by
  cases s
  dsimp only at hrun hq
  subst hrun hq
  rfl

theorem round_send (ok : Nat → Bool) (s : State) (B : List Nat) (t : ℚ)
    (hsent : B ≠ s._sentFrame) (hrate : ¬ t - s._lastUsbTs < 1 / 25) :
    processCmd ok t { s with _lastBuf := B } { type := IoCmdType.UsbBuffer, payload := B } =
      { s with
        _lastBuf := B
        usbWrites := s.usbWrites ++ segment B 63 0xf2 0
        _sentFrame := B
        _lastUsbTs := t } := by
  rw [processCmd_usbBuffer_send ok t { s with _lastBuf := B }
    { type := IoCmdType.UsbBuffer, payload := B } rfl hsent hrate]

theorem round_drop (ok : Nat → Bool) (s : State) (B : List Nat) (t : ℚ)
    (hrate : t - s._lastUsbTs < 1 / 25) :
    processCmd ok t { s with _lastBuf := B } { type := IoCmdType.UsbBuffer, payload := B } =
      { s with _lastBuf := B } :=
  processCmd_usbBuffer_drop ok t { s with _lastBuf := B }
    { type := IoCmdType.UsbBuffer, payload := B } rfl (Or.inr hrate)

/-- One round on an idle pipeline (worker running, queue empty): nothing happens when the
rendered buffer equals `_lastBuf`; otherwise the buffer becomes `_lastBuf` and the worker
processes the display command carrying it. -/
theorem drawAndProcess_eq (ops : FMCProfileOps) (ok : Nat → Bool) (s : State)
    (p : List (List Nat)) (t : ℚ) (hrun : s._ioRunning = true) (hq : s._ioQueue = []) :
    drawAndProcess ops ok s p t =
      if renderPage ops s p = s._lastBuf then s
      else processCmd ok t { s with _lastBuf := renderPage ops s p }
        { type := IoCmdType.UsbBuffer, payload := renderPage ops s p } := by
  unfold drawAndProcess
  by_cases h : renderPage ops s p = s._lastBuf
  · rw [if_pos h, draw_skip ops s (some p) h]
    exact ioThreadIter_idle ok _ s hrun hq
  · rw [if_neg h, draw_enqueue ops s (some p) h]
    exact round_enqueued ok s _ t hrun hq

theorem drawRepeat_fixed (ops : FMCProfileOps) (p : List (List Nat)) (s : State)
    (h : renderPage ops s p = s._lastBuf) : ∀ n : Nat, drawRepeat ops p n s = s := by
  intro n
  induction n with
  | zero => rfl
  | succ n ih => rw [drawRepeat, draw_skip ops s (some p) h]; exact ih

/-- C23: on an idle pipeline (worker running, queue empty), let a page rendering to `B1` be
drawn and its command be processed at `t1` with both guards passing, and then a page
rendering to a different buffer `B2` be drawn and its command be processed at `t2`, less
than 1/25 s after `t1`.  The pipeline is then in a state with an empty queue whose last-sent
frame is `B1` while the last drawn buffer is `B2`, and any number of further draws of the
second page change nothing, so `B2` is never enqueued again. -/
theorem rate_limited_frame_not_redrawn (ops : FMCProfileOps) (ok : Nat → Bool) (s : State)
    (p1 p2 : List (List Nat)) (t1 t2 : ℚ)
    (hrun : s._ioRunning = true) (hq : s._ioQueue = [])
    (hnew : renderPage ops s p1 ≠ s._lastBuf) (hsent : renderPage ops s p1 ≠ s._sentFrame)
    (hrate1 : ¬ t1 - s._lastUsbTs < 1 / 25)
    (hdiff : renderPage ops s p2 ≠ renderPage ops s p1) (hrate2 : t2 - t1 < 1 / 25) :
    (drawAndProcess ops ok (drawAndProcess ops ok s p1 t1) p2 t2)._ioQueue = [] ∧
    (drawAndProcess ops ok (drawAndProcess ops ok s p1 t1) p2 t2)._sentFrame =
      renderPage ops s p1 ∧
    (drawAndProcess ops ok (drawAndProcess ops ok s p1 t1) p2 t2)._lastBuf =
      renderPage ops s p2 ∧
    (drawAndProcess ops ok (drawAndProcess ops ok s p1 t1) p2 t2).usbWrites =
      s.usbWrites ++ segment (renderPage ops s p1) 63 0xf2 0 ∧
    ∀ n : Nat,
      drawRepeat ops p2 n (drawAndProcess ops ok (drawAndProcess ops ok s p1 t1) p2 t2) =
        drawAndProcess ops ok (drawAndProcess ops ok s p1 t1) p2 t2 := by
  generalize hB1 : renderPage ops s p1 = B1 at hnew hsent hdiff
  generalize hB2 : renderPage ops s p2 = B2 at hdiff
  have e1 : drawAndProcess ops ok s p1 t1 =
      { s with
        _lastBuf := B1
        usbWrites := s.usbWrites ++ segment B1 63 0xf2 0
        _sentFrame := B1
        _lastUsbTs := t1 } := by
    rw [drawAndProcess_eq ops ok s p1 t1 hrun hq, hB1, if_neg hnew]
    exact round_send ok s B1 t1 hsent hrate1
  have hr : renderPage ops (drawAndProcess ops ok s p1 t1) p2 = B2 := by
    rw [← hB2]
    apply renderPage_congr
    rw [e1]
  have e2 : drawAndProcess ops ok (drawAndProcess ops ok s p1 t1) p2 t2 =
      { s with
        _lastBuf := B2
        usbWrites := s.usbWrites ++ segment B1 63 0xf2 0
        _sentFrame := B1
        _lastUsbTs := t1 } := by
    rw [drawAndProcess_eq ops ok _ p2 t2 (by rw [e1]; exact hrun) (by rw [e1]; exact hq), hr,
      if_neg (by rw [e1]; exact hdiff), e1]
    exact round_drop ok _ B2 t2 hrate2
  have hr2 : renderPage ops
      (drawAndProcess ops ok (drawAndProcess ops ok s p1 t1) p2 t2) p2 = B2 := by
    rw [← hB2]
    apply renderPage_congr
    rw [e2]
  refine ⟨by rw [e2]; exact hq, by rw [e2], by rw [e2], by rw [e2], ?_⟩
  apply drawRepeat_fixed
  rw [hr2, e2]

set_option maxRecDepth 1000000

/-- Witness of C23: from `demoState` the blank page is drawn and sent at time 1, then the
page with "HI" is drawn and processed at time 1.01; three further draws change nothing. -/
theorem rate_limited_frame_not_redrawn_witness :
    drawRepeat demoOps demoWritten.page 3
        (drawAndProcess demoOps (fun _ => true)
          (drawAndProcess demoOps (fun _ => true) demoState demoState.page 1)
          demoWritten.page (101 / 100)) =
      drawAndProcess demoOps (fun _ => true)
        (drawAndProcess demoOps (fun _ => true) demoState demoState.page 1)
        demoWritten.page (101 / 100) :=
  (rate_limited_frame_not_redrawn demoOps (fun _ => true) demoState demoState.page
    demoWritten.page 1 (101 / 100) rfl rfl
    (by rw [show demoState._lastBuf = [] from rfl]; exact renderPage_ne_nil _ _ _)
    (by rw [show demoState._sentFrame = [] from rfl]; exact renderPage_ne_nil _ _ _)
    (by norm_num [demoState, init]) (by decide) (by norm_num)).2.2.2.2 3


/-! ## Layout of the input report -/

theorem testBit_shifted_byte (b j i w : Nat) (hb : b < 256) (hw : 8 * j + 8 ≤ w) :
    ((b <<< (8 * j)) % 2 ^ w).testBit i = (decide (i / 8 = j) && b.testBit (i % 8)) := by
  rw [Nat.testBit_mod_two_pow, Nat.testBit_shiftLeft]
  by_cases hq : i / 8 = j
  · have h1 : i < w := by omega
    have h2 : i ≥ 8 * j := by omega
    have h3 : i - 8 * j = i % 8 := by omega
    simp [hq, h1, h2, h3]
  · by_cases hlt : i < 8 * j
    · have : ¬ i ≥ 8 * j := by omega
      simp [hq, this]
    · have hge : 8 ≤ i - 8 * j := by omega
      have hpow : b < 2 ^ (i - 8 * j) :=
        Nat.lt_of_lt_of_le hb (by
          calc 256 = 2 ^ 8 := by norm_num
            _ ≤ 2 ^ (i - 8 * j) := Nat.pow_le_pow_right (by norm_num) hge)
      simp [hq, Nat.testBit_lt_two_pow hpow]

theorem decodeLo_testBit (report : List Nat) (hbytes : ∀ k : Nat, report.getD k 0 < 256)
    (i : Nat) (hi : i < 64) :
    (decodeLo report).testBit i = (report.getD (1 + i / 8) 0).testBit (i % 8) := by
  have hq : i / 8 < 8 := by omega
  simp only [decodeLo, List.range, List.range.loop, List.foldl, Nat.testBit_or,
    Nat.zero_testBit, Bool.false_or]
  rw [testBit_shifted_byte _ 0 i 64 (hbytes _) (by omega),
    testBit_shifted_byte _ 1 i 64 (hbytes _) (by omega),
    testBit_shifted_byte _ 2 i 64 (hbytes _) (by omega),
    testBit_shifted_byte _ 3 i 64 (hbytes _) (by omega),
    testBit_shifted_byte _ 4 i 64 (hbytes _) (by omega),
    testBit_shifted_byte _ 5 i 64 (hbytes _) (by omega),
    testBit_shifted_byte _ 6 i 64 (hbytes _) (by omega),
    testBit_shifted_byte _ 7 i 64 (hbytes _) (by omega)]
  generalize i / 8 = q at hq ⊢
  interval_cases q <;> simp


theorem decodeHi_testBit (report : List Nat) (hbytes : ∀ k : Nat, report.getD k 0 < 256)
    (i : Nat) (hi : i < 32) :
    (decodeHi report).testBit i = (report.getD (9 + i / 8) 0).testBit (i % 8) := by
  have hq : i / 8 < 4 := by omega
  simp only [decodeHi, List.range, List.range.loop, List.foldl, Nat.testBit_or,
    Nat.zero_testBit, Bool.false_or]
  rw [testBit_shifted_byte _ 0 i 32 (hbytes _) (by omega),
    testBit_shifted_byte _ 1 i 32 (hbytes _) (by omega),
    testBit_shifted_byte _ 2 i 32 (hbytes _) (by omega),
    testBit_shifted_byte _ 3 i 32 (hbytes _) (by omega)]
  generalize i / 8 = q at hq ⊢
  interval_cases q <;> simp [Nat.add_comm]

/-- For a report of bytes, bit `i` of the decoded snapshot is bit `i mod 8` of report byte
`1 + floor(i / 8)`. -/
theorem snapshotBit_decode (report : List Nat) (hbytes : ∀ b ∈ report, b < 256)
    (i : Nat) (hi : i < 96) :
    snapshotBit (decodeLo report) (decodeHi report) i = reportBit report i := by
  have hb : ∀ k : Nat, report.getD k 0 < 256 := by
    intro k
    rw [List.getD_eq_getElem?_getD]
    cases hk : report[k]? with
    | none => simp
    | some b => exact hbytes b (List.getElem?_mem hk)
  unfold snapshotBit reportBit
  by_cases h64 : i < 64
  · rw [if_pos h64, decodeLo_testBit report hb i h64]
  · rw [if_neg h64, decodeHi_testBit report hb (i - 64) (by omega)]
    have e1 : 9 + (i - 64) / 8 = 1 + i / 8 := by omega
    have e2 : (i - 64) % 8 = i % 8 := by omega
    rw [e1, e2]

theorem didReceiveData_accepted (s : State) (report : List Nat) (hlen : 13 ≤ report.length)
    (hconn : s.connected = true) (hprof : s.profile ≠ none) :
    didReceiveData s 1 report = applySnapshot s (decodeLo report) (decodeHi report) := by
  unfold didReceiveData
  cases hp : s.profile with
  | none => exact absurd hp hprof
  | some k =>
    have h0 : report.length ≠ 0 := by omega
    have h13 : ¬ report.length < 13 := by omega
    simp [hconn, h0, h13]

/-- C28: for a report of bytes with id 1 and length at least 13 on a connected device with a
profile, `didReceiveData` reads logical button `i` in `[0, 96)` as pressed exactly when bit
`i mod 8` of report byte `1 + floor(i / 8)` is set (bytes 1..8 are the low mask, bytes 9..12
the high mask, little-endian).  The snapshot it leaves stored has these bits; when the
report differs from the stored snapshot, the events derived are those of the transition
table applied to these bits for the indices 0..95 in order, and afterwards index `i` is in
the pressed set exactly when its bit is set; when it does not differ nothing changes, and if
the pressed set agreed with the stored snapshot before, it agrees with the report's bits
afterwards in either case.  A report with another id or fewer than 13 bytes leaves the state
unchanged, so it derives no event. -/
theorem report_bit_layout (s : State) (report : List Nat)
    (hbytes : ∀ b ∈ report, b < 256) (hlen : 13 ≤ report.length)
    (hconn : s.connected = true) (hprof : s.profile ≠ none) :
    (∀ i : Nat, i < 96 →
      snapshotBit (didReceiveData s 1 report).lastButtonStateLo
        (didReceiveData s 1 report).lastButtonStateHi i = reportBit report i) ∧
    (¬ (decodeLo report = s.lastButtonStateLo ∧ decodeHi report = s.lastButtonStateHi) →
      (didReceiveData s 1 report).buttonEvents =
        s.buttonEvents ++ (List.range 96).filterMap (fun i =>
          (transition (decide (i ∈ s.pressedButtonIndices)) (reportBit report i)).map
            fun e => (i, e)) ∧
      ∀ i : Nat, i < 96 →
        (i ∈ (didReceiveData s 1 report).pressedButtonIndices ↔ reportBit report i = true)) ∧
    ((decodeLo report = s.lastButtonStateLo ∧ decodeHi report = s.lastButtonStateHi) →
      didReceiveData s 1 report = s) ∧
    (pressedMatchesSnapshot s → ∀ i : Nat, i < 96 →
      (i ∈ (didReceiveData s 1 report).pressedButtonIndices ↔ reportBit report i = true)) ∧
    ∀ (reportId : Int) (r : List Nat), (reportId ≠ 1 ∨ r.length < 13) →
      didReceiveData s reportId r = s := by
  have hacc := didReceiveData_accepted s report hlen hconn hprof
  have hbit := snapshotBit_decode report hbytes
  have hsame : (decodeLo report = s.lastButtonStateLo ∧ decodeHi report = s.lastButtonStateHi) →
      didReceiveData s 1 report = s := by
    intro h
    rw [hacc]
    unfold applySnapshot
    rw [if_pos h]
  have hfold : ¬ (decodeLo report = s.lastButtonStateLo ∧
        decodeHi report = s.lastButtonStateHi) →
      didReceiveData s 1 report =
        (List.range 96).foldl (buttonStep (decodeLo report) (decodeHi report))
          { s with lastButtonStateLo := decodeLo report, lastButtonStateHi := decodeHi report } := by
    intro h
    rw [hacc]
    unfold applySnapshot
    rw [if_neg h]
  have hmem : ¬ (decodeLo report = s.lastButtonStateLo ∧
        decodeHi report = s.lastButtonStateHi) → ∀ i : Nat, i < 96 →
      (i ∈ (didReceiveData s 1 report).pressedButtonIndices ↔ reportBit report i = true) := by
    intro h i hi
    rw [hfold h, foldl_buttonStep_mem, if_pos (List.mem_range.mpr hi), hbit i hi]
  refine ⟨?_, ?_, hsame, ?_, ?_⟩
  · intro i hi
    by_cases h : decodeLo report = s.lastButtonStateLo ∧ decodeHi report = s.lastButtonStateHi
    · rw [hsame h, ← h.1, ← h.2]
      exact hbit i hi
    · rw [hfold h, (foldl_buttonStep_frame _ _ _ _).1, (foldl_buttonStep_frame _ _ _ _).2]
      exact hbit i hi
  · intro h
    refine ⟨?_, hmem h⟩
    rw [hfold h, foldl_buttonStep_events _ _ _ _ (List.nodup_range 96)]
    show s.buttonEvents ++ _ = _
    congr 1
    apply List.filterMap_congr
    intro i hi
    unfold tableEvent
    rw [hbit i (List.mem_range.mp hi)]
  · intro hm i hi
    by_cases h : decodeLo report = s.lastButtonStateLo ∧ decodeHi report = s.lastButtonStateHi
    · rw [hsame h, hm i, ← h.1, ← h.2, hbit i hi]
      exact ⟨fun hh => hh.2, fun hh => ⟨hi, hh⟩⟩
    · exact hmem h i hi
  · intro reportId r h
    unfold didReceiveData
    split
    · rfl
    · rfl

/-- Witness of C28: the report with only button 0 held, on `demoState`, whose stored snapshot
is empty: one Begin event for index 0 is derived, and index 0 is in the pressed set because
bit 0 of byte 1 is set. -/
theorem report_bit_layout_witness :
    (didReceiveData demoState 1 reportButton0).buttonEvents =
      [(0, XPLMCommandPhase.xplm_CommandBegin)] ∧
    0 ∈ (didReceiveData demoState 1 reportButton0).pressedButtonIndices ∧
    1 ∉ (didReceiveData demoState 1 reportButton0).pressedButtonIndices :=
  ⟨((report_bit_layout demoState reportButton0 (by decide) (by decide) rfl (by decide)).2.1
      (by decide)).1.trans (by decide),
    (((report_bit_layout demoState reportButton0 (by decide) (by decide) rfl (by decide)).2.1
      (by decide)).2 0 (by decide)).mpr (by decide),
    fun h => absurd
      ((((report_bit_layout demoState reportButton0 (by decide) (by decide) rfl
        (by decide)).2.1 (by decide)).2 1 (by decide)).mp h) (by decide)⟩


/-! ## Cells written by `writeLineToPage` -/

theorem setCell_get (pg : List (List Nat)) (L k v r c : Nat) (hL : L < pg.length)
    (hk : k < (pg.getD L []).length) :
    ((setCell pg L k v).getD r []).getD c 0 =
      if r = L ∧ c = k then v else (pg.getD r []).getD c 0 := by
  unfold setCell
  simp only [List.getD_eq_getElem?_getD, List.getElem?_set] at hk ⊢
  by_cases hr : L = r
  · subst hr
    simp only [hL, if_true, Option.getD_some, List.getElem?_set, true_and]
    by_cases hc : k = c
    · subst hc
      simp [hk]
    · have hc2 : ¬ c = k := fun g => hc g.symm
      simp [hc, hc2]
  · have hr2 : ¬ r = L := fun g => hr g.symm
    simp [hr, hr2]

theorem setCell_rowLength (pg : List (List Nat)) (L k v r : Nat) :
    ((setCell pg L k v).getD r []).length = (pg.getD r []).length := by
  have h := setCell_dims pg L k v
  have h2 := congrArg (fun l => l[r]?) h
  simp only [List.getElem?_map] at h2
  simp only [List.getD_eq_getElem?_getD]
  cases h3 : (setCell pg L k v)[r]? <;> cases h4 : pg[r]? <;> simp_all

theorem setCell_length (pg : List (List Nat)) (L k v : Nat) :
    (setCell pg L k v).length = pg.length := by
  simp [setCell]

theorem writeChar_get (pg : List (List Nat)) (L P : Nat) (text : List Nat) (color : Nat)
    (fontSmall : Bool) (c r k : Nat) (hL : L < pg.length)
    (hk : P + c * 3 + 2 < (pg.getD L []).length) :
    ((writeChar L P text color fontSmall pg c).getD r []).getD k 0 =
      if r = L ∧ k = P + c * 3 then color
      else if r = L ∧ k = P + c * 3 + 1 then (if fontSmall then 1 else 0)
      else if r = L ∧ k = P + c * 3 + 2 then text.getD c 0
      else (pg.getD r []).getD k 0 := by
  unfold writeChar
  simp only [PageBytesPerChar]
  have e : P + c * 3 + 3 - 1 = P + c * 3 + 2 := by omega
  rw [e]
  rw [setCell_get _ L _ _ r k (by rw [setCell_length, setCell_length]; exact hL)
      (by rw [setCell_rowLength, setCell_rowLength]; exact hk),
    setCell_get _ L _ _ r k (by rw [setCell_length]; exact hL)
      (by rw [setCell_rowLength]; omega),
    setCell_get _ L _ _ r k hL (by omega)]
  by_cases hr : r = L
  · by_cases h0 : k = P + c * 3
    · have h1 : ¬ k = P + c * 3 + 1 := by omega
      have h2 : ¬ k = P + c * 3 + 2 := by omega
      simp [hr, h0]
    · by_cases h1 : k = P + c * 3 + 1
      · simp [hr, h1]
      · by_cases h2 : k = P + c * 3 + 2
        · simp [hr, h2]
        · simp [hr, h0, h1, h2]
  · simp [hr]

theorem writeChar_length (pg : List (List Nat)) (L P : Nat) (text : List Nat) (color : Nat)
    (fontSmall : Bool) (c : Nat) :
    (writeChar L P text color fontSmall pg c).length = pg.length := by
  simp only [writeChar, setCell_length]

theorem writeChar_rowLength (pg : List (List Nat)) (L P : Nat) (text : List Nat) (color : Nat)
    (fontSmall : Bool) (c r : Nat) :
    ((writeChar L P text color fontSmall pg c).getD r []).length = (pg.getD r []).length := by
  simp only [writeChar, setCell_rowLength]

theorem foldl_writeChar_get (pg : List (List Nat)) (L P : Nat) (text : List Nat) (color : Nat)
    (fontSmall : Bool) (hL : L < pg.length) (n : Nat)
    (hn : P + 3 * n ≤ (pg.getD L []).length) :
    ((List.range n).foldl (writeChar L P text color fontSmall) pg).length = pg.length ∧
    (∀ r : Nat,
      (((List.range n).foldl (writeChar L P text color fontSmall) pg).getD r []).length =
        (pg.getD r []).length) ∧
    ∀ r k : Nat,
      (((List.range n).foldl (writeChar L P text color fontSmall) pg).getD r []).getD k 0 =
        writtenByte pg L P text color fontSmall n r k := by
  induction n with
  | zero =>
    refine ⟨rfl, fun r => rfl, ?_⟩
    intro r k
    have : ¬ (r = L ∧ P ≤ k ∧ k < P + 3 * 0) := by omega
    simp only [List.range_zero, List.foldl_nil, writtenByte, if_neg this]
  | succ n ih =>
    obtain ⟨h1, h2, h3⟩ := ih (by omega)
    rw [List.range_succ, List.foldl_append, List.foldl_cons, List.foldl_nil]
    refine ⟨by rw [writeChar_length, h1], fun r => by rw [writeChar_rowLength, h2], ?_⟩
    intro r k
    rw [writeChar_get _ L P text color fontSmall n r k (by rw [h1]; exact hL)
      (by rw [h2]; omega), h3]
    unfold writtenByte
    by_cases hr : r = L
    · by_cases h0 : k = P + n * 3
      · have hC0 : r = L ∧ k = P + n * 3 := ⟨hr, h0⟩
        have hN : r = L ∧ P ≤ k ∧ k < P + 3 * (n + 1) := ⟨hr, by omega, by omega⟩
        have hM0 : (k - P) % 3 = 0 := by omega
        rw [if_pos hC0, if_pos hN, if_pos hM0]
      · have hC0 : ¬ (r = L ∧ k = P + n * 3) := fun g => h0 g.2
        by_cases h1' : k = P + n * 3 + 1
        · have hC1 : r = L ∧ k = P + n * 3 + 1 := ⟨hr, h1'⟩
          have hN : r = L ∧ P ≤ k ∧ k < P + 3 * (n + 1) := ⟨hr, by omega, by omega⟩
          have hM0 : ¬ (k - P) % 3 = 0 := by omega
          have hM1 : (k - P) % 3 = 1 := by omega
          rw [if_neg hC0, if_pos hC1, if_pos hN, if_neg hM0, if_pos hM1]
        · have hC1 : ¬ (r = L ∧ k = P + n * 3 + 1) := fun g => h1' g.2
          by_cases h2' : k = P + n * 3 + 2
          · have hC2 : r = L ∧ k = P + n * 3 + 2 := ⟨hr, h2'⟩
            have hN : r = L ∧ P ≤ k ∧ k < P + 3 * (n + 1) := ⟨hr, by omega, by omega⟩
            have hM0 : ¬ (k - P) % 3 = 0 := by omega
            have hM1 : ¬ (k - P) % 3 = 1 := by omega
            have hc : (k - P) / 3 = n := by omega
            rw [if_neg hC0, if_neg hC1, if_pos hC2, if_pos hN, if_neg hM0, if_neg hM1, hc]
          · have hC2 : ¬ (r = L ∧ k = P + n * 3 + 2) := fun g => h2' g.2
            rw [if_neg hC0, if_neg hC1, if_neg hC2]
            by_cases hin : P ≤ k ∧ k < P + 3 * n
            · have hO : r = L ∧ P ≤ k ∧ k < P + 3 * n := ⟨hr, hin⟩
              have hN : r = L ∧ P ≤ k ∧ k < P + 3 * (n + 1) := ⟨hr, by omega, by omega⟩
              rw [if_pos hO, if_pos hN]
            · have hO : ¬ (r = L ∧ P ≤ k ∧ k < P + 3 * n) := fun g => hin g.2
              have hN : ¬ (r = L ∧ P ≤ k ∧ k < P + 3 * (n + 1)) := fun g => by omega
              rw [if_neg hO, if_neg hN]
    · have hC0 : ¬ (r = L ∧ k = P + n * 3) := fun g => hr g.1
      have hC1 : ¬ (r = L ∧ k = P + n * 3 + 1) := fun g => hr g.1
      have hC2 : ¬ (r = L ∧ k = P + n * 3 + 2) := fun g => hr g.1
      have hO : ¬ (r = L ∧ P ≤ k ∧ k < P + 3 * n) := fun g => hr g.1
      have hN : ¬ (r = L ∧ P ≤ k ∧ k < P + 3 * (n + 1)) := fun g => hr g.1
      rw [if_neg hC0, if_neg hC1, if_neg hC2, if_neg hO, if_neg hN]


theorem writeLineToPage_accept (page : List (List Nat)) (line pos : Int) (text : List Nat)
    (color : Nat) (fontSmall : Bool) (hline : 0 ≤ line ∧ line < 14) (hpos : 0 ≤ pos)
    (hfit : pos + (text.length : Int) ≤ 24) :
    writeLineToPage page line pos text color fontSmall =
      (List.range text.length).foldl
        (writeChar line.toNat (pos.toNat * 3) text color fontSmall) page := by
  unfold writeLineToPage
  simp only [PageLines, PageCharsPerLine, PageBytesPerChar]
  have h1 : ¬ (line < 0 ∨ line ≥ ((14 : Nat) : Int)) := by
    intro g
    rcases g with g | g
    · omega
    · have : (14 : Int) ≤ line := by exact_mod_cast g
      omega
  have h2 : ¬ (pos < 0 ∨ pos + (text.length : Int) > ((24 : Nat) : Int)) := by
    intro g
    rcases g with g | g
    · omega
    · have : (24 : Int) < pos + (text.length : Int) := by exact_mod_cast g
      omega
  have h3 : ¬ text.length > 24 := by omega
  rw [if_neg h1, if_neg h2, if_neg h3]

/-- C24: for every page buffer of 14 rows of 72 bytes, every `line` in `[0, 14)`, `pos >= 0`
and text with `pos + len(text) <= 24`, after `writeLineToPage` the cell at column `pos + k`
of that line holds, for each `k < len(text)`, the colour at offset `3 (pos + k)`, the
font-small flag (0 or 1) at the next offset and `text[k]` at the one after; the row index
and every byte offset the loop uses lie inside the grid; every byte outside the written
cells is unchanged; and the grid keeps its shape. -/
theorem writeLineToPage_cells (page : List (List Nat)) (line pos : Int) (text : List Nat)
    (color : Nat) (fontSmall : Bool)
    (hrows : page.length = 14) (hcols : ∀ row ∈ page, row.length = 72)
    (hline : 0 ≤ line ∧ line < 14) (hpos : 0 ≤ pos)
    (hfit : pos + (text.length : Int) ≤ 24) :
    (∀ k : Nat, k < text.length →
      ((writeLineToPage page line pos text color fontSmall).getD line.toNat []).getD
          (3 * (pos.toNat + k)) 0 = color ∧
      ((writeLineToPage page line pos text color fontSmall).getD line.toNat []).getD
          (3 * (pos.toNat + k) + 1) 0 = (if fontSmall then 1 else 0) ∧
      ((writeLineToPage page line pos text color fontSmall).getD line.toNat []).getD
          (3 * (pos.toNat + k) + 2) 0 = text.getD k 0) ∧
    (line.toNat < page.length ∧
      ∀ k : Nat, k < text.length →
        pos.toNat * PageBytesPerChar + k * PageBytesPerChar + PageBytesPerChar - 1 <
          (page.getD line.toNat []).length) ∧
    (∀ r c : Nat,
      (r ≠ line.toNat ∨ c < 3 * pos.toNat ∨ 3 * (pos.toNat + text.length) ≤ c) →
      ((writeLineToPage page line pos text color fontSmall).getD r []).getD c 0 =
        (page.getD r []).getD c 0) ∧
    (writeLineToPage page line pos text color fontSmall).map List.length =
      page.map List.length := by
  have hL : line.toNat < page.length := by omega
  have hrow : (page.getD line.toNat []).length = 72 := by
    rw [List.getD_eq_getElem?_getD, List.getElem?_eq_getElem hL, Option.getD_some]
    exact hcols _ (List.getElem_mem _)
  have hn : pos.toNat * 3 + 3 * text.length ≤ (page.getD line.toNat []).length := by
    rw [hrow]; omega
  have hget := (foldl_writeChar_get page line.toNat (pos.toNat * 3) text color fontSmall hL
    text.length hn).2.2
  rw [← writeLineToPage_accept page line pos text color fontSmall hline hpos hfit] at hget
  refine ⟨?_, ⟨hL, ?_⟩, ?_, writeLineToPage_dims page line pos text color fontSmall⟩
  · intro k hk
    refine ⟨?_, ?_, ?_⟩
    · rw [hget]
      unfold writtenByte
      have hN : line.toNat = line.toNat ∧ pos.toNat * 3 ≤ 3 * (pos.toNat + k) ∧
          3 * (pos.toNat + k) < pos.toNat * 3 + 3 * text.length := ⟨rfl, by omega, by omega⟩
      have hM0 : (3 * (pos.toNat + k) - pos.toNat * 3) % 3 = 0 := by omega
      rw [if_pos hN, if_pos hM0]
    · rw [hget]
      unfold writtenByte
      have hN : line.toNat = line.toNat ∧ pos.toNat * 3 ≤ 3 * (pos.toNat + k) + 1 ∧
          3 * (pos.toNat + k) + 1 < pos.toNat * 3 + 3 * text.length :=
        ⟨rfl, by omega, by omega⟩
      have hM0 : ¬ (3 * (pos.toNat + k) + 1 - pos.toNat * 3) % 3 = 0 := by omega
      have hM1 : (3 * (pos.toNat + k) + 1 - pos.toNat * 3) % 3 = 1 := by omega
      rw [if_pos hN, if_neg hM0, if_pos hM1]
    · rw [hget]
      unfold writtenByte
      have hN : line.toNat = line.toNat ∧ pos.toNat * 3 ≤ 3 * (pos.toNat + k) + 2 ∧
          3 * (pos.toNat + k) + 2 < pos.toNat * 3 + 3 * text.length :=
        ⟨rfl, by omega, by omega⟩
      have hM0 : ¬ (3 * (pos.toNat + k) + 2 - pos.toNat * 3) % 3 = 0 := by omega
      have hM1 : ¬ (3 * (pos.toNat + k) + 2 - pos.toNat * 3) % 3 = 1 := by omega
      have hc : (3 * (pos.toNat + k) + 2 - pos.toNat * 3) / 3 = k := by omega
      rw [if_pos hN, if_neg hM0, if_neg hM1, hc]
  · intro k hk
    rw [hrow]
    simp only [PageBytesPerChar]
    omega
  · intro r c h
    rw [hget]
    unfold writtenByte
    have hN : ¬ (r = line.toNat ∧ pos.toNat * 3 ≤ c ∧
        c < pos.toNat * 3 + 3 * text.length) := by
      intro g
      rcases h with h | h | h
      · exact h g.1
      · omega
      · omega
    rw [if_neg hN]

/-- Witness of C24: "HI" written at line 0, column 0 of the blank page; the first cell then
starts with the colour byte. -/
theorem writeLineToPage_cells_witness :
    ((writeLineToPage demoState.page 0 0 [72, 73] 0x77 false).getD (0 : Int).toNat []).getD
      (3 * ((0 : Int).toNat + 0)) 0 = 0x77 :=
  ((writeLineToPage_cells demoState.page 0 0 [72, 73] 0x77 false (by decide) (by decide)
    (by decide) (by decide) (by decide)).1 0 (by decide)).1

end ProductFMC

namespace Font

theorem patchStep_length (id : Nat) (row : List Nat) (i : Nat) :
    (patchStep id row i).length = row.length := by
  unfold patchStep
  split <;> simp

/-- After the first `n` iterations on a row, the entries below `n` are patched as specified
and the entries from `n` on are still those of the source row. -/
theorem foldl_patchStep (id : Nat) (src : List Nat) (n : Nat) (hn : n + 1 ≤ src.length) :
    ((List.range n).foldl (patchStep id) src).length = src.length ∧
    ∀ j : Nat, ((List.range n).foldl (patchStep id) src).getD j 0 =
      if j < n then patchedByte id src j else src.getD j 0 := by
  induction n with
  | zero =>
    refine ⟨rfl, fun j => ?_⟩
    have : ¬ j < 0 := by omega
    rw [if_neg this]
    rfl
  | succ n ih =>
    obtain ⟨hlen, hget⟩ := ih (by omega)
    rw [List.range_succ, List.foldl_append, List.foldl_cons, List.foldl_nil]
    refine ⟨by rw [patchStep_length, hlen], fun j => ?_⟩
    have hsn : src[n + 1]? = some (src.getD (n + 1) 0) := by
      rw [List.getD_eq_getElem?_getD, List.getElem?_eq_getElem (by omega)]
      rfl
    have hcur := hget n
    rw [if_neg (by omega)] at hcur
    have hnext := hget (n + 1)
    rw [if_neg (by omega)] at hnext
    generalize (List.range n).foldl (patchStep id) src = R at hlen hget hcur hnext ⊢
    unfold patchStep
    rw [hcur, hnext]
    by_cases hc : src.getD n 0 = 0x32 ∧ src.getD (n + 1) 0 = 0xbb
    · rw [if_pos hc]
      have hpb : patchedByte id src n = id := by
        unfold patchedByte
        rw [if_pos ⟨hc.1, by rw [hsn, hc.2]⟩]
      simp only [List.getD_eq_getElem?_getD, List.getElem?_set, List.length_set] at hget ⊢
      by_cases hj0 : j = n
      · subst hj0
        have h1 : ¬ (j + 1 = j) := by omega
        have h2 : j < j + 1 := by omega
        have h3 : j < R.length := by omega
        simp only [h1, if_false, if_true, h3, h2, Option.getD_some, hpb]
      · by_cases hj1 : j = n + 1
        · subst hj1
          have h2 : ¬ (n + 1 < n + 1) := by omega
          have h3 : n + 1 < R.length := by omega
          simp only [if_true, h3, h2, if_false, Option.getD_some]
          simp only [List.getD_eq_getElem?_getD] at hc
          exact hc.2.symm
        · have h1 : ¬ (n + 1 = j) := fun g => hj1 g.symm
          have h2 : ¬ (n = j) := fun g => hj0 g.symm
          simp only [h1, h2, if_false]
          rw [hget j]
          by_cases hjn : j < n
          · rw [if_pos hjn, if_pos (by omega)]
          · rw [if_neg hjn, if_neg (by omega)]
    · rw [if_neg hc]
      have hpb : patchedByte id src n = src.getD n 0 := by
        unfold patchedByte
        have : ¬ (src.getD n 0 = 0x32 ∧ src[n + 1]? = some 0xbb) := by
          intro g
          apply hc
          refine ⟨g.1, ?_⟩
          have := g.2
          rw [hsn] at this
          exact Option.some.inj this
        rw [if_neg this]
      rw [hget j]
      by_cases hjn : j < n
      · rw [if_pos hjn, if_pos (by omega)]
      · rw [if_neg hjn]
        by_cases hj0 : j = n
        · subst hj0
          rw [if_pos (by omega), hpb]
        · rw [if_neg (by omega)]

theorem patchRow_length (id : Nat) (row : List Nat) :
    (patchRow id row).length = row.length := by
  unfold patchRow
  cases row with
  | nil => rfl
  | cons a l => exact (foldl_patchStep id (a :: l) ((a :: l).length - 1) (by simp)).1

theorem patchRow_getD (id : Nat) (row : List Nat) (j : Nat) :
    (patchRow id row).getD j 0 = patchedByte id row j := by
  unfold patchRow
  cases row with
  | nil => simp [patchedByte]
  | cons a l =>
    rw [(foldl_patchStep id (a :: l) ((a :: l).length - 1) (by simp)).2 j]
    by_cases hj : j < (a :: l).length - 1
    · rw [if_pos hj]
    · rw [if_neg hj]
      unfold patchedByte
      have hnone : (a :: l)[j + 1]? = none := by
        apply List.getElem?_eq_none
        simp only [List.length_cons] at hj ⊢
        omega
      have : ¬ ((a :: l).getD j 0 = 0x32 ∧ (a :: l)[j + 1]? = some 0xbb) := by
        intro g
        rw [hnone] at g
        exact absurd g.2 (by simp)
      rw [if_neg this]

theorem eq_of_getD (a b : List Nat) (hl : a.length = b.length)
    (h : ∀ j : Nat, a.getD j 0 = b.getD j 0) : a = b := by
  apply List.ext_getElem hl
  intro j h1 h2
  have hj := h j
  simp only [List.getD_eq_getElem?_getD, List.getElem?_eq_getElem h1,
    List.getElem?_eq_getElem h2, Option.getD_some] at hj
  exact hj

theorem patchRow_identity (row : List Nat) : patchRow 0x32 row = row := by
  apply eq_of_getD _ _ (patchRow_length 0x32 row)
  intro j
  rw [patchRow_getD]
  unfold patchedByte
  split
  · rename_i h
    exact h.1.symm
  · rfl

/-- C29: for every set of font tables, variant and hardware identifier, `GlyphData` returns
a table with as many chunks as the selected source table and the same chunk lengths; byte
`i` of chunk `c` is the hardware identifier when the source byte is 0x32 and the next byte
of the same chunk is 0xBB, and is the source byte otherwise; with the hardware identifier
0x32 the result is the source table. -/
theorem GlyphData_patch (t : FontTables) (variant : FontVariant) (id : Nat) :
    (GlyphData t variant id).length = (sourceTable t variant).length ∧
    (GlyphData t variant id).map List.length = (sourceTable t variant).map List.length ∧
    (∀ c i : Nat,
      ((GlyphData t variant id).getD c []).getD i 0 =
        patchedByte id ((sourceTable t variant).getD c []) i) ∧
    GlyphData t variant 0x32 = sourceTable t variant := by
  refine ⟨by simp [GlyphData], ?_, ?_, ?_⟩
  · simp only [GlyphData, List.map_map]
    apply List.map_congr_left
    intro row _
    exact patchRow_length id row
  · intro c i
    simp only [GlyphData, List.getD_eq_getElem?_getD, List.getElem?_map]
    cases h : (sourceTable t variant)[c]? with
    | none => simp [patchedByte]
    | some row =>
      simp only [Option.map_some', Option.getD_some]
      have := patchRow_getD id row i
      rw [List.getD_eq_getElem?_getD] at this
      rw [this]
  · simp only [GlyphData]
    conv_rhs => rw [← List.map_id (sourceTable t variant)]
    apply List.map_congr_left
    intro row _
    exact patchRow_identity row

/-- The example table patched with the identifier 0x33: the byte 0x32 followed by 0xBB is
replaced, the 0x32 followed by 0x01 and the 0x32 that ends a chunk are kept. -/
theorem GlyphData_example :
    GlyphData demoTables FontVariant.FontAirbus1 0x33 =
      [[0xf0, 0x33, 0xbb, 0x32, 0x01], [0x32]] := by
  decide

end Font

namespace PAP3Demo

/-- C30: evaluation of `ledStepPattern` at the right-hand bounce.  With four LEDs the state
head = 3, direction = +1 is reached after three steps from `start`; the next step, for each
jitter value -1, 0 and 1, leaves head = 3 with direction -1 and computes the tail index 3:
the tail equals the head, at distance 0 instead of 1 to 3.  The same happens at the left
end four steps later (head = tail = 0). -/
theorem ledStepPattern_tail_equals_head :
    (stepsNoJitter 3 (start [10, 11, 12, 13] fresh))._head = 3 ∧
    (stepsNoJitter 3 (start [10, 11, 12, 13] fresh))._dir = 1 ∧
    ((ledStepPattern (-1) (stepsNoJitter 3 (start [10, 11, 12, 13] fresh)))._head = 3 ∧
      (ledStepPattern (-1) (stepsNoJitter 3 (start [10, 11, 12, 13] fresh)))._prevB = 3) ∧
    ((ledStepPattern 0 (stepsNoJitter 3 (start [10, 11, 12, 13] fresh)))._head = 3 ∧
      (ledStepPattern 0 (stepsNoJitter 3 (start [10, 11, 12, 13] fresh)))._prevB = 3) ∧
    ((ledStepPattern 1 (stepsNoJitter 3 (start [10, 11, 12, 13] fresh)))._head = 3 ∧
      (ledStepPattern 1 (stepsNoJitter 3 (start [10, 11, 12, 13] fresh)))._prevB = 3) ∧
    (stepsNoJitter 8 (start [10, 11, 12, 13] fresh))._head = 0 ∧
    (stepsNoJitter 8 (start [10, 11, 12, 13] fresh))._prevB = 0 := by
  decide

/-- At the right-hand bounce the tail equals the head for every list of at least two LEDs
and every jitter value: from head = n - 1 with direction +1 the step ends with head and
tail both n - 1. -/
theorem ledStepPattern_bounce (jitter : Int) (d : Demo) (hn : 2 ≤ d._ledIds.length)
    (hhead : d._head = (d._ledIds.length : Int) - 1) (hdir : d._dir = 1)
    (hj : -1 ≤ jitter ∧ jitter ≤ 1) :
    (ledStepPattern jitter d)._head = (d._ledIds.length : Int) - 1 ∧
    (ledStepPattern jitter d)._prevB = (d._ledIds.length : Int) - 1 := by
  have hn2 : (2 : Int) ≤ (d._ledIds.length : Int) := by exact_mod_cast hn
  simp only [ledStepPattern, hhead, hdir, clamp]
  have h1 : ¬ ((d._ledIds.length : Int) ≤ 0) := by omega
  rw [if_neg h1]
  have h2 : (d._ledIds.length : Int) - 1 + 1 ≥ (d._ledIds.length : Int) := by omega
  simp only [h2, if_true]
  refine ⟨trivial, ?_⟩
  split_ifs <;> omega

end PAP3Demo
